import Mathlib

/-!
# oscyl: the streaming playback engine (`src/audio.c`) and the playlist
(`src/playlist.c`)

A shallow embedding of the audio engine and of the playlist order of oscyl,
and theorems about them.

Conventions of the embedding.

* The process-wide `static AudioContext ctx` becomes an explicit value of
  the structure `AudioContext`, passed to and returned from every operation.
* `float` values are modelled by `F32`: a NaN, the two infinities, and finite
  values carried as exact rationals (rounding to a 24-bit significand and the
  sign of zero are not modelled).  Comparisons follow IEEE-754: every
  comparison with a NaN is false.  `double` values (positions in seconds) use
  the same type; the product `position * sample_rate` of `audio_seek`, whose
  truncation to an index makes the rounding observable, is rounded to
  binary64 (`double_mul`), while the quotients of `audio_get_position` and
  `audio_get_duration` are exact.
* `ma_uint32` arithmetic is written with an explicit `% 2 ^ 32`.  The 64-bit
  counters (`size_t`, `uint64_t`) are modelled by `Nat`: no stream is long
  enough to wrap them.
* The `while` loop of the render callback takes a bound on its number of
  iterations and returns `none` when the bound is reached; the theorems give
  a bound that is always enough.
* The native libraries (libFLAC, libvorbisfile, miniaudio, stdio) are not
  part of the repository: what they deliver is data of the model (the list of
  chunks still to be returned by `ov_read`, the list of outcomes of
  `FLAC__stream_decoder_process_single`, the record `Native` for the calls
  made while opening a file).
* C strings are lists of character codes (`List Nat`), without the
  terminating NUL.
* The `int` fields of `Playlist` are integers and its arrays are functions of
  the index; `generate_shuffle_order` and the loop that puts `shuffle_pos` on
  the current track check every index they use and return `none` on one that
  is out of range; the values returned by `rand()` are a parameter.
-/

namespace Oscyl

/-! ## Floating point values -/

/-- Model of a C `float`. -/
inductive F32 where
  | nan : F32
  | inf (neg : Bool) : F32
  | fin (q : ℚ) : F32
  deriving DecidableEq

namespace F32

/-- The value `0.0f` (also what `memset(.., 0, ..)` leaves in a float). -/
def zero : F32 := fin 0

/-- The value `1.0f`. -/
def one : F32 := fin 1

/-- C `a < b` on floats. -/
def lt : F32 → F32 → Bool
  | nan, _ => false
  | _, nan => false
  | fin a, fin b => decide (a < b)
  | fin _, inf neg => !neg
  | inf neg, fin _ => neg
  | inf n₁, inf n₂ => n₁ && !n₂

/-- C `a > b` on floats. -/
def gt (a b : F32) : Bool := lt b a

/-- C `a <= b` on floats. -/
def le : F32 → F32 → Bool
  | nan, _ => false
  | _, nan => false
  | fin a, fin b => decide (a ≤ b)
  | fin _, inf neg => !neg
  | inf neg, fin _ => neg
  | inf n₁, inf n₂ => n₁ || !n₂

/-- C `a * b` on floats. -/
def mul : F32 → F32 → F32
  | nan, _ => nan
  | _, nan => nan
  | fin a, fin b => fin (a * b)
  | fin a, inf neg => if a = 0 then nan else inf (if a < 0 then !neg else neg)
  | inf neg, fin b => if b = 0 then nan else inf (if b < 0 then !neg else neg)
  | inf n₁, inf n₂ => inf (n₁ != n₂)

/-- C `a / b` on floats. -/
def div : F32 → F32 → F32
  | nan, _ => nan
  | _, nan => nan
  | fin a, fin b =>
      if b = 0 then (if a = 0 then nan else inf (decide (a < 0))) else fin (a / b)
  | fin _, inf _ => fin 0
  | inf neg, fin b => inf (if b < 0 then !neg else neg)
  | inf _, inf _ => nan

/-- Conversion of a C integer to `float`. -/
def ofInt (z : Int) : F32 := fin (z : ℚ)

/-- The value lies in the closed interval `[0.0, 1.0]`. -/
def inUnit (a : F32) : Prop := le zero a = true ∧ le a one = true

end F32

/-! ## Engine state -/

/-- Capacity of the sample buffer: `#define AUDIO_BUFFER_SIZE (16384)`. -/
def AUDIO_BUFFER_SIZE : Nat := 16384

/-- The enum `AudioFormat` of `audio.h`. -/
inductive AudioFormat where
  | UNKNOWN | FLAC | VORBIS
  deriving DecidableEq, Repr

/-- The enum `AudioState` of `audio.h`. -/
inductive AudioState where
  | STOPPED | PLAYING | PAUSED
  deriving DecidableEq, Repr

/-- One frame handed by libFLAC to the write callback: the header fields the
callback reads and the per-channel sample arrays `buffer[ch][i]`. -/
structure FlacFrame where
  sample_rate : Nat
  channels : Nat
  bits_per_sample : Nat
  blocksize : Nat
  buffer : Nat → Nat → Int

/-- Outcome of one `FLAC__stream_decoder_process_single`: the frame passed to
the write callback (if any), the returned `FLAC__bool`, and whether the
decoder state afterwards is `END_OF_STREAM` or `ABORTED`. -/
structure FlacStep where
  frame : Option FlacFrame
  ok : Bool
  ended : Bool

/-- An open `FLAC__StreamDecoder`: the outcomes of the calls still to come.
Once the list is used up the decoder reports `END_OF_STREAM`. -/
abbrev FlacDecoder := List FlacStep

/-- The global `AudioContext ctx` of `audio.c`.

`device_started` is the run state of the `ma_device`; `flac_file` tells
whether the `FILE *` is non-NULL; `vorbis_file` is the list of chunks of
16-bit samples that the coming `ov_read` calls return (an empty chunk stands
for a non-positive return, an exhausted list for end of file). -/
structure AudioContext where
  device_initialized : Bool
  device_started : Bool
  format : AudioFormat
  state : AudioState
  finished : Bool
  sample_rate : Nat
  channels : Nat
  total_samples : Nat
  samples_played : Nat
  volume : F32
  flac_decoder : Option FlacDecoder
  flac_file : Bool
  vorbis_file : List (List Int)
  vorbis_open : Bool
  buffer : Nat → F32
  buffer_read_pos : Nat
  buffer_write_pos : Nat
  buffer_count : Nat

/-- The zero-initialised `static AudioContext ctx = {0}`. -/
def ctx_zero : AudioContext :=
  { device_initialized := false, device_started := false,
    format := AudioFormat.UNKNOWN, state := AudioState.STOPPED,
    finished := false, sample_rate := 0, channels := 0, total_samples := 0,
    samples_played := 0, volume := F32.zero, flac_decoder := none,
    flac_file := false, vorbis_file := [], vorbis_open := false,
    buffer := fun _ => F32.zero, buffer_read_pos := 0, buffer_write_pos := 0,
    buffer_count := 0 }

/-- The function `audio_init`; `device_ok` tells whether `ma_device_init`
succeeds. -/
def audio_init (device_ok : Bool) (ctx : AudioContext) : Bool × AudioContext :=
  if !device_ok then (false, ctx)
  else (true, { ctx with
    device_initialized := true, state := AudioState.STOPPED, volume := F32.one })

/-- The engine right after a successful `audio_init`. -/
def ctx_init : AudioContext := (audio_init true ctx_zero).2

/-! ## Volume, state queries -/

/-- The function `audio_set_volume`. -/
def audio_set_volume (ctx : AudioContext) (volume : F32) : AudioContext :=
  let volume := if F32.lt volume F32.zero then F32.zero else volume
  let volume := if F32.gt volume F32.one then F32.one else volume
  { ctx with volume := volume }

/-- The function `audio_get_volume`. -/
def audio_get_volume (ctx : AudioContext) : F32 := ctx.volume

/-- The function `audio_get_state`. -/
def audio_get_state (ctx : AudioContext) : AudioState := ctx.state

/-- The function `audio_is_finished`. -/
def audio_is_finished (ctx : AudioContext) : Bool :=
  ctx.finished && ctx.buffer_count == 0

/-! ## Format dispatch -/

/-- C `tolower` in the "C" locale, on character codes. -/
def tolower (c : Nat) : Nat := if 65 ≤ c ∧ c ≤ 90 then c + 32 else c

/-- C `strrchr(s, c)`: the suffix of `s` starting at the last occurrence of
`c`, or `none` (NULL) when `c` does not occur. -/
def strrchr : List Nat → Nat → Option (List Nat)
  | [], _ => none
  | x :: xs, c =>
    match strrchr xs c with
    | some r => some r
    | none => if x = c then some (x :: xs) else none

/-- POSIX `strcasecmp`: difference of the first pair of characters that
differ after `tolower`, the end of a string counting as character 0. -/
def strcasecmp : List Nat → List Nat → Int
  | [], [] => 0
  | [], b :: _ => 0 - (tolower b : Int)
  | a :: _, [] => (tolower a : Int)
  | a :: as, b :: bs =>
    if tolower a = tolower b then strcasecmp as bs
    else (tolower a : Int) - (tolower b : Int)

/-- The string literal ".flac". -/
def dot_flac : List Nat := [46, 102, 108, 97, 99]

/-- The string literal ".ogg". -/
def dot_ogg : List Nat := [46, 111, 103, 103]

/-- The function `detect_format`. -/
def detect_format (path : List Nat) : AudioFormat :=
  match strrchr path 46 with
  | none => AudioFormat.UNKNOWN
  | some ext =>
    if strcasecmp ext dot_flac = 0 then AudioFormat.FLAC
    else if strcasecmp ext dot_ogg = 0 then AudioFormat.VORBIS
    else AudioFormat.UNKNOWN

/-- Character codes of a C string: none is the terminator, all fit a byte. -/
def IsCString (s : List Nat) : Prop := ∀ c ∈ s, 0 < c ∧ c < 256

/-- Reading of "`path` ends with `suffix`, compared case-insensitively":
the last `suffix.length` characters of `path` agree with `suffix` after
`tolower`. -/
def ends_with_nocase (path suffix : List Nat) : Prop :=
  suffix.length ≤ path.length ∧
    (path.drop (path.length - suffix.length)).map tolower = suffix.map tolower

/-! ## Ring buffer writes -/

/-- The two statements `ctx.buffer[ctx.buffer_write_pos] = sample;
ctx.buffer_write_pos = (ctx.buffer_write_pos + 1) % AUDIO_BUFFER_SIZE;`. -/
def buffer_store (ctx : AudioContext) (sample : F32) : AudioContext :=
  { ctx with
    buffer := Function.update ctx.buffer ctx.buffer_write_pos sample,
    buffer_write_pos := (ctx.buffer_write_pos + 1) % AUDIO_BUFFER_SIZE }

/-! ## Codec A (FLAC) -/

/-- The 32-bit `int` value of `1 << sh` as compiled code produces it: the
bit pattern read in two's complement, so `1 << 31` is `-2 ^ 31`, and a count
of 32 or more reduced modulo 32 as the shift instruction does (the C standard
leaves both cases undefined). -/
def int_shl_one (sh : Nat) : Int :=
  let v : Nat := 2 ^ (sh % 32)
  if v < 2 ^ 31 then (v : Int) else (v : Int) - 2 ^ 32

/-- The expression `1.0f / (float)(1 << (bits - 1))` with `unsigned int bits`. -/
def flac_scale (bits : Nat) : F32 :=
  F32.div F32.one (F32.ofInt (int_shl_one ((bits + (2 ^ 32 - 1)) % 2 ^ 32)))

/-- Body of the sample loop of `flac_write_callback` for index `i`, below the
free-space check: convert and store.  With one channel the sample is stored
twice; otherwise the loop `for (ch = 0; ch < 2 && ch < ctx.channels; ch++)`
is written out for `ch = 0` and `ch = 1`. -/
def flac_store (frame : FlacFrame) (scale : F32) (i : Nat) (ctx : AudioContext) :
    AudioContext :=
  if ctx.channels = 1 then
    let sample := F32.mul (F32.ofInt (frame.buffer 0 i)) scale
    let c := buffer_store (buffer_store ctx sample) sample
    { c with buffer_count := c.buffer_count + 2 }
  else
    let c0 :=
      if 0 < ctx.channels then
        let c := buffer_store ctx (F32.mul (F32.ofInt (frame.buffer 0 i)) scale)
        { c with buffer_count := c.buffer_count + 1 }
      else ctx
    if 1 < ctx.channels then
      let c := buffer_store c0 (F32.mul (F32.ofInt (frame.buffer 1 i)) scale)
      { c with buffer_count := c.buffer_count + 1 }
    else c0

/-- The loop `for (i = 0; i < blocksize; i++)` of `flac_write_callback`, with
`n` iterations left and the next index `i`; it returns early once
`buffer_count >= AUDIO_BUFFER_SIZE - 2`. -/
def flac_write_loop (frame : FlacFrame) (scale : F32) :
    Nat → Nat → AudioContext → AudioContext
  | 0, _, ctx => ctx
  | n + 1, i, ctx =>
    if ctx.buffer_count ≥ AUDIO_BUFFER_SIZE - 2 then ctx
    else flac_write_loop frame scale n (i + 1) (flac_store frame scale i ctx)

/-- The function `flac_write_callback`. -/
def flac_write_callback (frame : FlacFrame) (ctx : AudioContext) : AudioContext :=
  let ctx :=
    if ctx.sample_rate = 0 then
      { ctx with sample_rate := frame.sample_rate, channels := frame.channels }
    else ctx
  flac_write_loop frame (flac_scale frame.bits_per_sample) frame.blocksize 0 ctx

/-- The function `flac_metadata_callback` on a STREAMINFO block
`(sample_rate, channels, total_samples)`. -/
def flac_metadata_callback (info : Nat × Nat × Nat) (ctx : AudioContext) :
    AudioContext :=
  { ctx with sample_rate := info.1, channels := info.2.1, total_samples := info.2.2 }

/-- What libFLAC does with the frame decoded by one `process_single`: it
calls the write callback on it, if there is one. -/
def flac_deliver (frame : Option FlacFrame) (ctx : AudioContext) : AudioContext :=
  match frame with
  | some frame => flac_write_callback frame ctx
  | none => ctx

/-- The function `decode_flac_samples`: one `process_single`, during which
libFLAC may call the write callback. -/
def decode_flac_samples (ctx : AudioContext) : Bool × AudioContext :=
  match ctx.flac_decoder with
  | none => (false, ctx)
  | some [] => (false, ctx)
  | some (step :: rest) =>
    let ctx := flac_deliver step.frame { ctx with flac_decoder := some rest }
    if !step.ok then (false, ctx) else (!step.ended, ctx)

/-! ## Codec B (Vorbis) -/

/-- The conversion `samples[i] / 32768.0f` of `decode_vorbis_samples`. -/
def vorbis_sample (s : Int) : F32 := F32.div (F32.ofInt s) (F32.fin 32768)

/-- Body of the conversion loop of `decode_vorbis_samples` for one 16-bit
sample `s`, below the capacity check: convert and store (mono duplicated). -/
def vorbis_store (s : Int) (ctx : AudioContext) : AudioContext :=
  let sample := vorbis_sample s
  if ctx.channels = 1 then
    let c := buffer_store (buffer_store ctx sample) sample
    { c with buffer_count := c.buffer_count + 2 }
  else
    let c := buffer_store ctx sample
    { c with buffer_count := c.buffer_count + 1 }

/-- The loop `for (size_t i = 0; i < sample_count; i++)` of
`decode_vorbis_samples` over the samples from index `i` on; it breaks once
`buffer_count >= AUDIO_BUFFER_SIZE`.  In the mono branch the body itself
increments `i` (`i++; // We processed mono, but output stereo`), so the
sample that follows the one just stored is passed over. -/
def vorbis_convert_loop : List Int → AudioContext → AudioContext
  | [], ctx => ctx
  | [s], ctx =>
    if ctx.buffer_count ≥ AUDIO_BUFFER_SIZE then ctx else vorbis_store s ctx
  | s :: t :: rest, ctx =>
    if ctx.buffer_count ≥ AUDIO_BUFFER_SIZE then ctx
    else if ctx.channels = 1 then vorbis_convert_loop rest (vorbis_store s ctx)
    else vorbis_convert_loop (t :: rest) (vorbis_store s ctx)

/-- The function `decode_vorbis_samples`: one `ov_read` of at most 4096 bytes
(the head of `vorbis_file`; `bytes_read` is twice its length), then the
conversion loop. -/
def decode_vorbis_samples (ctx : AudioContext) : Bool × AudioContext :=
  if !ctx.vorbis_open then (false, ctx)
  else
    match ctx.vorbis_file with
    | [] => (false, ctx)
    | chunk :: rest =>
      let ctx := { ctx with vorbis_file := rest }
      if chunk.length = 0 then (false, ctx)
      else (true, vorbis_convert_loop chunk ctx)

/-! ## The render callback -/

/-- The output array `float *out` of the callback: `none` marks a slot the
callback has not written. -/
abbrev Output := Nat → Option F32

/-- The call `memset(out + start, 0, n * sizeof(float))`. -/
def memset_zero (out : Output) (start n : Nat) : Output :=
  fun j => if start ≤ j ∧ j < start + n then some F32.zero else out j

/-- The copy loop `for (size_t i = 0; i < samples_to_copy; i++)` of
`audio_callback`, with `n` iterations left, next index `i`, and
`base = frames_written * 2`. -/
def copy_loop (base : Nat) : Nat → Nat → AudioContext → Output → AudioContext × Output
  | 0, _, ctx, out => (ctx, out)
  | n + 1, i, ctx, out =>
    copy_loop base n (i + 1)
      { ctx with buffer_read_pos := (ctx.buffer_read_pos + 1) % AUDIO_BUFFER_SIZE }
      (Function.update out (base + i)
        (some (F32.mul (ctx.buffer ctx.buffer_read_pos) ctx.volume)))

/-- The decode-step chosen by `ctx.format` inside `audio_callback`
(`decoded` stays false for any other format). -/
def decode_step (ctx : AudioContext) : Bool × AudioContext :=
  if ctx.format = AudioFormat.FLAC then decode_flac_samples ctx
  else if ctx.format = AudioFormat.VORBIS then decode_vorbis_samples ctx
  else (false, ctx)

/-- The block "Copy samples from buffer to output" of the loop body of
`audio_callback`: it returns the context, the output and the new value of
`frames_written` (an `ma_uint32`). -/
def copy_pass (frame_count frames_written : Nat) (ctx : AudioContext) (out : Output) :
    AudioContext × Output × Nat :=
  let samples_available := ctx.buffer_count
  let samples_needed := ((frame_count - frames_written) * 2) % 2 ^ 32
  let samples_to_copy :=
    if samples_available < samples_needed then samples_available else samples_needed
  let r := copy_loop ((frames_written * 2) % 2 ^ 32) samples_to_copy 0 ctx out
  let frames_copied := samples_to_copy / 2
  ({ r.1 with
      buffer_count := r.1.buffer_count - samples_to_copy,
      samples_played := r.1.samples_played + frames_copied },
    r.2, (frames_written + frames_copied) % 2 ^ 32)

/-- The block "If buffer is empty, try to decode more" of the loop body of
`audio_callback`: whether the callback has to give up (`!decoded ||
ctx.buffer_count == 0` after a decode-step), and the context. -/
def refill (ctx : AudioContext) : Bool × AudioContext :=
  if ctx.buffer_count = 0 then
    let r := decode_step ctx
    (!r.1 || r.2.buffer_count == 0, r.2)
  else (false, ctx)

/-- The loop `while (frames_written < frame_count)` of `audio_callback`.
The first argument bounds the number of iterations; `none` means the bound
was reached.  `frame_count` and `frames_written` are `ma_uint32`. -/
def audio_callback_loop (frame_count : Nat) :
    Nat → AudioContext → Output → Nat → Option (AudioContext × Output)
  | 0, _, _, _ => none
  | fuel + 1, ctx, out, frames_written =>
    if ¬ frames_written < frame_count then some (ctx, out)
    else
      let r := refill ctx
      let ctx := r.2
      if r.1 then
        let remaining := (frame_count - frames_written) % 2 ^ 32
        some ({ ctx with finished := true },
          memset_zero out ((frames_written * 2) % 2 ^ 32) ((remaining * 2) % 2 ^ 32))
      else
        let p := copy_pass frame_count frames_written ctx out
        audio_callback_loop frame_count fuel p.1 p.2.1 p.2.2

/-- The function `audio_callback(device, output, input, frame_count)`. -/
def audio_callback (fuel : Nat) (ctx : AudioContext) (out : Output) (frame_count : Nat) :
    Option (AudioContext × Output) :=
  audio_callback_loop frame_count fuel ctx out 0

/-! ## Transport -/

/-- The function `audio_stop`. -/
def audio_stop (ctx : AudioContext) : AudioContext :=
  let ctx :=
    if ctx.state ≠ AudioState.STOPPED then { ctx with device_started := false } else ctx
  let ctx :=
    if ctx.flac_decoder.isSome then { ctx with flac_decoder := none, flac_file := false }
    else if ctx.flac_file then { ctx with flac_file := false }
    else ctx
  let ctx := if ctx.vorbis_open then { ctx with vorbis_file := [], vorbis_open := false } else ctx
  { ctx with format := AudioFormat.UNKNOWN, state := AudioState.STOPPED, buffer_count := 0 }

/-- What the native libraries answer while `audio_play_file` opens a path:
results of `fopen`, `FLAC__stream_decoder_new`, `..._init_FILE`, the
STREAMINFO block seen by `process_until_end_of_metadata` (if any), the
outcomes of the later `process_single` calls, the results of `ov_fopen`,
`ov_info` (rate and channels), `ov_pcm_total`, the chunks later returned by
`ov_read`, and whether `ma_device_start` succeeds. -/
structure Native where
  fopen_ok : Bool
  flac_new_ok : Bool
  flac_init_ok : Bool
  flac_streaminfo : Option (Nat × Nat × Nat)
  flac_steps : List FlacStep
  ov_fopen_ok : Bool
  ov_info : Option (Nat × Nat)
  ov_pcm_total : Nat
  ov_chunks : List (List Int)
  device_start_ok : Bool

/-- The function `open_flac`. -/
def open_flac (nat : Native) (ctx : AudioContext) : Bool × AudioContext :=
  if !nat.fopen_ok then (false, { ctx with flac_file := false })
  else if !nat.flac_new_ok then (false, { ctx with flac_decoder := none, flac_file := false })
  else if !nat.flac_init_ok then (false, { ctx with flac_decoder := none, flac_file := false })
  else
    let ctx := { ctx with flac_file := true, flac_decoder := some nat.flac_steps }
    let ctx :=
      match nat.flac_streaminfo with
      | some info => flac_metadata_callback info ctx
      | none => ctx
    (true, { ctx with format := AudioFormat.FLAC })

/-- The function `open_vorbis`. -/
def open_vorbis (nat : Native) (ctx : AudioContext) : Bool × AudioContext :=
  if !nat.ov_fopen_ok then (false, ctx)
  else
    match nat.ov_info with
    | none => (false, ctx)
    | some info =>
      (true, { ctx with
        sample_rate := info.1, channels := info.2, total_samples := nat.ov_pcm_total,
        vorbis_file := nat.ov_chunks, vorbis_open := true,
        format := AudioFormat.VORBIS })

/-- The function `audio_play_file`. -/
def audio_play_file (nat : Native) (ctx : AudioContext) (path : List Nat) :
    Bool × AudioContext :=
  let ctx := audio_stop ctx
  let format := detect_format path
  if format = AudioFormat.UNKNOWN then (false, ctx)
  else
    let opened : Bool × AudioContext :=
      if format = AudioFormat.FLAC then open_flac nat ctx
      else if format = AudioFormat.VORBIS then open_vorbis nat ctx
      else (false, ctx)
    let ctx := opened.2
    if !opened.1 then (false, ctx)
    else
      let ctx := { ctx with
        buffer_read_pos := 0, buffer_write_pos := 0, buffer_count := 0,
        samples_played := 0, finished := false }
      let ctx :=
        if ctx.format = AudioFormat.FLAC then (decode_flac_samples ctx).2
        else (decode_vorbis_samples ctx).2
      if !nat.device_start_ok then (false, audio_stop ctx)
      else (true, { ctx with device_started := true, state := AudioState.PLAYING })

/-- The function `audio_toggle_pause`.  The result of `ma_device_start` is
not looked at by the code; `start_ok` tells whether the device did start. -/
def audio_toggle_pause (start_ok : Bool) (ctx : AudioContext) : AudioContext :=
  if ctx.state = AudioState.PLAYING then
    { ctx with device_started := false, state := AudioState.PAUSED }
  else if ctx.state = AudioState.PAUSED then
    { ctx with device_started := start_ok, state := AudioState.PLAYING }
  else ctx

/-- The function `audio_get_position`. -/
def audio_get_position (ctx : AudioContext) : F32 :=
  if ctx.sample_rate = 0 then F32.zero
  else F32.div (F32.ofInt ctx.samples_played) (F32.ofInt ctx.sample_rate)

/-- The function `audio_get_duration`. -/
def audio_get_duration (ctx : AudioContext) : F32 :=
  if ctx.sample_rate = 0 then F32.zero
  else F32.div (F32.ofInt ctx.total_samples) (F32.ofInt ctx.sample_rate)

/-- The integer nearest to `x`, the even one of the two when `x` lies half way
between them. -/
def round_half_even (x : ℚ) : Int :=
  if x - ⌊x⌋ < 1 / 2 then ⌊x⌋
  else if 1 / 2 < x - ⌊x⌋ then ⌊x⌋ + 1
  else if ⌊x⌋ % 2 = 0 then ⌊x⌋ else ⌊x⌋ + 1

/-- The exponent of the unit in the last place of the binary64 format at the
magnitude of `q`: 52 below the exponent of the leading bit, and not below
that of the subnormal numbers. -/
def double_ulp_exp (q : ℚ) : Int := max (Int.log 2 |q| - 52) (-1074)

/-- The value `q` rounded to the nearest multiple of its unit in the last
place, ties to even: the binary64 number nearest to `q` as long as the
exponent range is not exceeded. -/
def double_round_val (q : ℚ) : ℚ :=
  (round_half_even (q / 2 ^ double_ulp_exp q) : ℚ) * 2 ^ double_ulp_exp q

/-- The result of a `double` operation whose exact value is `q`: `q` rounded
to nearest, ties to even, and an infinity when that is `2 ^ 1024` or more in
magnitude. -/
def double_round (q : ℚ) : F32 :=
  if 2 ^ 1024 ≤ |double_round_val q| then F32.inf (decide (q < 0))
  else F32.fin (double_round_val q)

/-- C `a * b` on doubles: the exact product of two finite values rounded to
binary64; the cases with a NaN or an infinity are those of `F32.mul`. -/
def double_mul : F32 → F32 → F32
  | F32.fin a, F32.fin b => double_round (a * b)
  | a, b => F32.mul a b

/-- The conversion `(uint64_t)x` of a `double`: the value truncated toward
zero when that fits 64 bits.  For a NaN, an infinity or a value out of range
C leaves the result undefined; `undef` is what the machine then yields. -/
def double_to_uint64 (undef : Nat) (x : F32) : Nat :=
  match x with
  | F32.fin q => if -1 < q ∧ q < 2 ^ 64 then Int.toNat ⌊q⌋ else undef % 2 ^ 64
  | _ => undef % 2 ^ 64

/-- Outcome of one `FLAC__stream_decoder_seek_absolute`: the returned
`FLAC__bool`, the frame libFLAC hands to the write callback during the call
(it decodes up to the frame holding the target sample and delivers that
frame before returning), and the outcomes of the `process_single` calls
that follow the seek. -/
structure FlacSeek where
  ok : Bool
  frame : Option FlacFrame
  rest : List FlacStep

/-- What the native libraries answer during `audio_seek`: the outcome of
`FLAC__stream_decoder_seek_absolute` for each requested sample index, the
return code of `ov_time_seek` for each position together with the chunks
`ov_read` returns afterwards, and the value an undefined `double` to
`uint64_t` conversion yields. -/
structure SeekNative where
  flac_seek_absolute : Nat → FlacSeek
  ov_time_seek : F32 → Int × List (List Int)
  conv_undefined : Nat

/-- The sample index `audio_seek` passes to the FLAC decoder: the converted
product `(uint64_t)(position * ctx.sample_rate)`, a `double` multiplication
after the exact conversion of the rate, replaced by `total_samples - 1` (or
0) when it is not below `total_samples`. -/
def seek_sample_pos (undef : Nat) (ctx : AudioContext) (position : F32) : Nat :=
  let sample_pos := double_to_uint64 undef (double_mul position (F32.ofInt ctx.sample_rate))
  if sample_pos ≥ ctx.total_samples then
    (if ctx.total_samples > 0 then ctx.total_samples - 1 else 0)
  else sample_pos

/-- The statement `if (position < 0) position = 0;` of `audio_seek`. -/
def clamp_position (position : F32) : F32 :=
  if F32.lt position F32.zero then F32.zero else position

/-- The block "Clear buffer" of `audio_seek`. -/
def clear_buffer (ctx : AudioContext) : AudioContext :=
  { ctx with buffer_read_pos := 0, buffer_write_pos := 0, buffer_count := 0 }

/-- The context in which libFLAC runs the write callback during the seek
requested by `audio_seek`: the buffer is cleared and the decoder (if there is
one) continues with the outcomes `rest`. -/
def seek_flac_ready (ctx : AudioContext) (rest : List FlacStep) : AudioContext :=
  { clear_buffer ctx with flac_decoder := ctx.flac_decoder.map (fun _ => rest) }

/-- The function `audio_seek`. -/
def audio_seek (nat : SeekNative) (ctx : AudioContext) (position : F32) :
    Bool × AudioContext :=
  if ctx.state = AudioState.STOPPED then (false, ctx)
  else
    let position := clamp_position position
    if ctx.format = AudioFormat.FLAC then
      let sample_pos := seek_sample_pos nat.conv_undefined ctx position
      let r := nat.flac_seek_absolute sample_pos
      let ctx := flac_deliver r.frame (seek_flac_ready ctx r.rest)
      if !r.ok then (false, ctx)
      else (true, { ctx with samples_played := sample_pos, finished := false })
    else if ctx.format = AudioFormat.VORBIS then
      let r := nat.ov_time_seek position
      let ctx := { clear_buffer ctx with vorbis_file := r.2 }
      if r.1 ≠ 0 then (false, ctx)
      else
        (true, { ctx with
          samples_played :=
            double_to_uint64 nat.conv_undefined (double_mul position (F32.ofInt ctx.sample_rate)),
          finished := false })
    else (true, { clear_buffer ctx with finished := false })

/-! ## Playlist (`src/playlist.c`) -/

/-- The constant `PLAYLIST_MAX_TRACKS`. -/
def PLAYLIST_MAX_TRACKS : Nat := 256

/-- The enum `RepeatMode` of `playlist.h`. -/
inductive RepeatMode where
  | REPEAT_OFF | REPEAT_ONE | REPEAT_ALL
  deriving DecidableEq, Repr

/-- The struct `Playlist` of `playlist.h`.  The `int` fields are integers
(none of the functions below lets them leave the 32-bit range while they
stay within `count`), the arrays are functions of the index. -/
structure Playlist where
  paths : Nat → List Nat
  names : Nat → List Nat
  dir_path : List Nat
  count : Int
  current : Int
  selected : Int
  shuffle : Bool
  repeat_mode : RepeatMode
  shuffle_order : Nat → Int
  shuffle_pos : Int

/-- Read `pl->shuffle_order[i]`; `none` when `i` is outside `[0, count)` or
outside the array. -/
def order_read (count : Nat) (order : Nat → Int) (i : Nat) : Option Int :=
  if i < count ∧ i < PLAYLIST_MAX_TRACKS then some (order i) else none

/-- Write `pl->shuffle_order[i] = v`; `none` when `i` is outside `[0, count)`
or outside the array. -/
def order_write (count : Nat) (order : Nat → Int) (i : Nat) (v : Int) :
    Option (Nat → Int) :=
  if i < count ∧ i < PLAYLIST_MAX_TRACKS then some (Function.update order i v) else none

/-- The loop `for (int i = 0; i < pl->count; i++) pl->shuffle_order[i] = i;`
with `n` iterations left and next index `i`. -/
def init_order_loop (count : Nat) : Nat → Nat → (Nat → Int) → Option (Nat → Int)
  | 0, _, order => some order
  | n + 1, i, order =>
    match order_write count order i (i : Int) with
    | none => none
    | some order => init_order_loop count n (i + 1) order

/-- The iteration of the Fisher-Yates loop for index `i` with `j = rand() %
(i + 1)`: swap entries `i` and `j` through `tmp`. -/
def swap_step (count : Nat) (order : Nat → Int) (i j : Nat) : Option (Nat → Int) :=
  match order_read count order i with
  | none => none
  | some tmp =>
    match order_read count order j with
    | none => none
    | some vj =>
      match order_write count order i vj with
      | none => none
      | some order => order_write count order j tmp

/-- The loop `for (int i = pl->count - 1; i > 0; i--)` of
`generate_shuffle_order`, at index `i`; `rand k` is the value returned by the
call of `rand()` number `k` (counted within this run). -/
def fisher_yates_loop (count : Nat) (rand : Nat → Nat) :
    Nat → Nat → (Nat → Int) → Option (Nat → Int)
  | 0, _, order => some order
  | i + 1, k, order =>
    match swap_step count order (i + 1) (rand k % (i + 1 + 1)) with
    | none => none
    | some order => fisher_yates_loop count rand i (k + 1) order

/-- The function `generate_shuffle_order`; `none` means that an index outside
`[0, count)` was used. -/
def generate_shuffle_order (rand : Nat → Nat) (pl : Playlist) : Option Playlist :=
  match init_order_loop pl.count.toNat pl.count.toNat 0 pl.shuffle_order with
  | none => none
  | some order =>
    match fisher_yates_loop pl.count.toNat rand (pl.count.toNat - 1) 0 order with
    | none => none
    | some order => some { pl with shuffle_order := order, shuffle_pos := 0 }

/-- The tail of the shuffle branch of `playlist_next_track`: the bounds check
on `next_pos`, the read of `shuffle_order[next_pos]` and the validation of
the index read. -/
def next_from_order (pl : Playlist) (next_pos : Int) : Int × Playlist :=
  if next_pos < 0 ∨ next_pos ≥ pl.count then (-1, pl)
  else
    let next := pl.shuffle_order next_pos.toNat
    if next < 0 ∨ next ≥ pl.count then (-1, pl) else (next, pl)

/-- The function `playlist_next_track`: the returned index and the playlist
as the call leaves it.  (`pl->repeat` is the field `repeat_mode`; the sums
`shuffle_pos + 1` and `current + 1` are taken in the integers, which is what
C computes unless the operand is `INT_MAX`.) -/
def playlist_next_track (pl : Playlist) : Int × Playlist :=
  if pl.count = 0 ∨ pl.current < 0 then (-1, pl)
  else if pl.repeat_mode = RepeatMode.REPEAT_ONE then (pl.current, pl)
  else if pl.shuffle then
    let next_pos := pl.shuffle_pos + 1
    if next_pos ≥ pl.count then
      (if pl.repeat_mode = RepeatMode.REPEAT_ALL then next_from_order pl 0 else (-1, pl))
    else next_from_order pl next_pos
  else
    let next := pl.current + 1
    if next ≥ pl.count then
      (if pl.repeat_mode = RepeatMode.REPEAT_ALL then (0, pl) else (-1, pl))
    else (next, pl)

/-- The loop `for (int i = 0; i < pl->count; i++) if (pl->shuffle_order[i] ==
pl->current) { pl->shuffle_pos = i; break; }` shared by `playlist_play_selected`
and `playlist_toggle_shuffle`, with `n` iterations left and next index `i`;
`none` when the read is outside the array. -/
def sync_shuffle_pos_loop (pl : Playlist) : Nat → Nat → Option Playlist
  | 0, _ => some pl
  | n + 1, i =>
    match order_read pl.count.toNat pl.shuffle_order i with
    | none => none
    | some v =>
      if v = pl.current then some { pl with shuffle_pos := (i : Int) }
      else sync_shuffle_pos_loop pl n (i + 1)

/-- The function `playlist_play_selected`. -/
def playlist_play_selected (pl : Playlist) : Option Playlist :=
  if pl.count = 0 then some pl
  else
    let pl := { pl with current := pl.selected }
    if pl.shuffle then sync_shuffle_pos_loop pl pl.count.toNat 0 else some pl

/-- The function `playlist_advance`: the returned index and the playlist as
the call leaves it.  (`shuffle_pos++` is taken in the integers.) -/
def playlist_advance (pl : Playlist) : Int × Playlist :=
  let r := playlist_next_track pl
  let next := r.1
  let pl := r.2
  if next ≥ 0 then
    let pl := { pl with current := next, selected := next }
    if pl.shuffle then
      let pl := { pl with shuffle_pos := pl.shuffle_pos + 1 }
      if pl.shuffle_pos ≥ pl.count then (next, { pl with shuffle_pos := 0 }) else (next, pl)
    else (next, pl)
  else (next, pl)

/-- The function `playlist_toggle_shuffle`; `rand` as in
`generate_shuffle_order`. -/
def playlist_toggle_shuffle (rand : Nat → Nat) (pl : Playlist) : Option Playlist :=
  let pl := { pl with shuffle := !pl.shuffle }
  if pl.shuffle then
    match generate_shuffle_order rand pl with
    | none => none
    | some pl =>
      if pl.current ≥ 0 then sync_shuffle_pos_loop pl pl.count.toNat 0 else some pl
  else some pl

/-- The function `playlist_cycle_repeat`. -/
def playlist_cycle_repeat (pl : Playlist) : Playlist :=
  match pl.repeat_mode with
  | RepeatMode.REPEAT_OFF => { pl with repeat_mode := RepeatMode.REPEAT_ONE }
  | RepeatMode.REPEAT_ONE => { pl with repeat_mode := RepeatMode.REPEAT_ALL }
  | RepeatMode.REPEAT_ALL => { pl with repeat_mode := RepeatMode.REPEAT_OFF }

/-! ## Predicates, measures and sample data used by the theorems -/

instance (s : List Nat) : Decidable (IsCString s) := by
  unfold IsCString; infer_instance

instance (path suffix : List Nat) : Decidable (ends_with_nocase path suffix) := by
  unfold ends_with_nocase; infer_instance

/-- Fields that no decode-step touches: both contexts agree on the transport
state, the position counter, the volume and the read cursor. -/
def SameTransport (a b : AudioContext) : Prop :=
  a.finished = b.finished ∧ a.samples_played = b.samples_played ∧ a.state = b.state ∧
    a.format = b.format ∧ a.volume = b.volume ∧ a.device_started = b.device_started ∧
    a.buffer_read_pos = b.buffer_read_pos ∧ a.total_samples = b.total_samples

/-- A `Native` for a Vorbis file of the given rate, channel count and chunks,
which every library call opens successfully. -/
def native_vorbis (rate channels : Nat) (chunks : List (List Int)) : Native :=
  { fopen_ok := true, flac_new_ok := true, flac_init_ok := true,
    flac_streaminfo := none, flac_steps := [],
    ov_fopen_ok := true, ov_info := some (rate, channels),
    ov_pcm_total := (chunks.map List.length).sum / channels,
    ov_chunks := chunks, device_start_ok := true }

/-- A mono 16-bit FLAC frame of two samples, 100 and 200. -/
def frame_mono_demo : FlacFrame :=
  { sample_rate := 44100, channels := 1, bits_per_sample := 16, blocksize := 2,
    buffer := fun _ i => 100 * ((i : Int) + 1) }

/-- An engine with an open mono Vorbis stream and an empty buffer, about to
read the chunks `chunks`. -/
def ctx_mono_vorbis (chunks : List (List Int)) : AudioContext :=
  { ctx_zero with
    format := AudioFormat.VORBIS, state := AudioState.PLAYING, sample_rate := 44100,
    channels := 1, vorbis_open := true, vorbis_file := chunks, volume := F32.one }

/-- Number of outcomes the native decoder selected by `ctx.format` still has
to deliver (a bound on the decode-steps that can succeed). -/
def pending (ctx : AudioContext) : Nat :=
  match ctx.format with
  | AudioFormat.FLAC =>
    match ctx.flac_decoder with
    | some steps => steps.length
    | none => 0
  | AudioFormat.VORBIS => ctx.vorbis_file.length
  | AudioFormat.UNKNOWN => 0

/-- The path "a.ogg". -/
def a_ogg : List Nat := [97, 46, 111, 103, 103]

/-- The chunks delivered by `ov_read` for a 10-second mono stream at 44100 Hz:
215 full reads of 4096 bytes (2048 samples) and a last one of 680 samples,
441000 samples in all (the sample values do not matter and are 0). -/
def stream_ten_seconds : List (List Int) :=
  List.replicate 215 (List.replicate 2048 0) ++ [List.replicate 680 0]

/-- Upper bound, in buffer samples, on what playback can still deliver from a
mono Vorbis engine state: twice the frames already played, the samples in the
buffer, and for every chunk still to be read the samples the conversion loop
stores for it at most. -/
def mono_budget (ctx : AudioContext) : Nat :=
  2 * ctx.samples_played + ctx.buffer_count +
    2 * (ctx.vorbis_file.map (fun c => (c.length + 1) / 2)).sum

/-- The device invoking the render callback `k` times in a row, each time
for `frame_count` frames into a fresh output array. -/
def render_calls (fuel frame_count : Nat) : Nat → AudioContext → Option AudioContext
  | 0, ctx => some ctx
  | k + 1, ctx =>
    match audio_callback fuel ctx (fun _ => none) frame_count with
    | none => none
    | some r => render_calls fuel frame_count k r.1

/-- State of a mono Vorbis playback at 44100 Hz whose `mono_budget` is at
most `B` and which has at most `P` chunks left to read. -/
def MonoInv (B P : Nat) (ctx : AudioContext) : Prop :=
  ctx.format = AudioFormat.VORBIS ∧ ctx.channels = 1 ∧ ctx.sample_rate = 44100 ∧
    mono_budget ctx ≤ B ∧ ctx.vorbis_file.length ≤ P

/-- The engine after `open_vorbis` and the reset of cursors and counters in
`audio_play_file`, for a mono 44100 Hz stream opened from `ctx_init`. -/
def ctx_opened_vorbis (chunks : List (List Int)) : AudioContext :=
  { ctx_init with
    sample_rate := 44100, channels := 1,
    total_samples := (chunks.map List.length).sum / 1,
    vorbis_file := chunks, vorbis_open := true, format := AudioFormat.VORBIS }

/-- An engine with an open mono FLAC source and an empty buffer. -/
def ctx_mono_flac : AudioContext :=
  { ctx_init with
    format := AudioFormat.FLAC, state := AudioState.PLAYING, device_started := true,
    sample_rate := 44100, channels := 1, total_samples := 441000,
    flac_decoder := some [], flac_file := true }

/-- A `SeekNative` whose FLAC seek succeeds and delivers the frame
`frame_mono_demo` to the write callback, and whose Vorbis seek succeeds. -/
def seek_native_demo : SeekNative :=
  { flac_seek_absolute := fun _ => { ok := true, frame := some frame_mono_demo, rest := [] },
    ov_time_seek := fun _ => (0, []),
    conv_undefined := 0 }

/-- The engine states reachable from a successful `audio_init` by the
operations of the engine, with every answer the native libraries may give:
play, stop, toggle-pause, seek, set-volume, a decode-step on its own, and a
render callback that returns. -/
inductive Reachable : AudioContext → Prop where
  | init : Reachable ctx_init
  | play (nat : Native) (path : List Nat) (ctx : AudioContext) :
      Reachable ctx → Reachable (audio_play_file nat ctx path).2
  | stop (ctx : AudioContext) : Reachable ctx → Reachable (audio_stop ctx)
  | toggle (start_ok : Bool) (ctx : AudioContext) :
      Reachable ctx → Reachable (audio_toggle_pause start_ok ctx)
  | seek (nat : SeekNative) (position : F32) (ctx : AudioContext) :
      Reachable ctx → Reachable (audio_seek nat ctx position).2
  | volume (v : F32) (ctx : AudioContext) :
      Reachable ctx → Reachable (audio_set_volume ctx v)
  | decode (ctx : AudioContext) : Reachable ctx → Reachable (decode_step ctx).2
  | render (fuel frame_count : Nat) (out : Output) (ctx : AudioContext)
      (r : AudioContext × Output) :
      Reachable ctx → audio_callback fuel ctx out frame_count = some r → Reachable r.1

/-- Both cursors of the ring buffer are below the capacity and the count is
at most the capacity. -/
def RingCore (ctx : AudioContext) : Prop :=
  ctx.buffer_read_pos < AUDIO_BUFFER_SIZE ∧ ctx.buffer_write_pos < AUDIO_BUFFER_SIZE ∧
    ctx.buffer_count ≤ AUDIO_BUFFER_SIZE

/-- The write cursor is the read cursor plus the count, modulo the capacity. -/
def RingSync (ctx : AudioContext) : Prop :=
  (ctx.buffer_read_pos + ctx.buffer_count) % AUDIO_BUFFER_SIZE = ctx.buffer_write_pos

/-- A mono source keeps the count even. -/
def MonoEven (ctx : AudioContext) : Prop :=
  ctx.channels = 1 → ctx.buffer_count % 2 = 0

/-- The invariant of the ring buffer carried through every operation: the
cursors and the count are in range, a mono Vorbis source keeps the count
even, and while a source is open the cursors and the count agree. -/
def RingInv (ctx : AudioContext) : Prop :=
  RingCore ctx ∧ (ctx.format = AudioFormat.VORBIS → MonoEven ctx) ∧
    (ctx.format ≠ AudioFormat.UNKNOWN → RingSync ctx)

/-- A playlist of three tracks, track 1 current, shuffle on with the order
2, 0, 1 and the cursor at its end, repeat-all. -/
def playlist_demo : Playlist :=
  { paths := fun _ => [], names := fun _ => [], dir_path := [],
    count := 3, current := 1, selected := 1, shuffle := true,
    repeat_mode := RepeatMode.REPEAT_ALL,
    shuffle_order := fun i => if i = 0 then 2 else if i = 1 then 0 else if i = 2 then 1 else 0,
    shuffle_pos := 2 }

/-- Reading of "`shuffle_order[0..count-1]` is a permutation of
`0..count-1`": as lists, the entries are the indices in some order. -/
def IsShuffleOrder (count : Nat) (order : Nat → Int) : Prop :=
  ((List.range count).map order).Perm ((List.range count).map (fun (i : Nat) => (i : Int)))

/-- Reading of "`0 <= shuffle_pos < count` and `shuffle_order[shuffle_pos] ==
current`": the shuffle cursor is on the track that is playing. -/
def CursorOnCurrent (pl : Playlist) : Prop :=
  0 ≤ pl.shuffle_pos ∧ pl.shuffle_pos < pl.count ∧
    pl.shuffle_order pl.shuffle_pos.toNat = pl.current

instance (pl : Playlist) : Decidable (CursorOnCurrent pl) := by
  unfold CursorOnCurrent; infer_instance

/-- The playlist `playlist_demo` after two presses of the repeat key:
repeat-all has become repeat-one, everything else is as before. -/
def playlist_repeat_one_demo : Playlist :=
  playlist_cycle_repeat (playlist_cycle_repeat playlist_demo)

/-- Reading of "the index `floor(p)`, `p` the double-precision product of `s`
(negative `s` treated as 0) and `sampleRate`, if that is below
`totalSamples`, otherwise `totalSamples - 1` (or 0 when `totalSamples` is
0)" for a position of `q` seconds. -/
def seek_index_spec (sample_rate total_samples : Nat) (q : ℚ) : Nat :=
  if Int.toNat ⌊double_round_val (max q 0 * (sample_rate : ℚ))⌋ < total_samples then
    Int.toNat ⌊double_round_val (max q 0 * (sample_rate : ℚ))⌋
  else if total_samples = 0 then 0 else total_samples - 1

/-- The `double` nearest to 4.3: `4841369599423283 / 2 ^ 50`, a little below
4.3. -/
def double_4_3 : ℚ := 4841369599423283 / 2 ^ 50

/-- The engine `ctx_mono_flac` with a source of 5 Hz and `5 * 2 ^ 54 + 19`
samples. -/
def ctx_flac_large : AudioContext :=
  { ctx_mono_flac with sample_rate := 5, total_samples := 5 * 2 ^ 54 + 19 }

/-- The engine after a mono Vorbis file whose only chunk is `[100, 200]`
has been played from `ctx_init`: one pair of samples is buffered. -/
def ctx_playing_demo : AudioContext :=
  (audio_play_file (native_vorbis 44100 1 [[100, 200]]) ctx_init a_ogg).2

/-- Reading of "`v` clamped to [0,1]": 0 if `v < 0`, 1 if `v > 1`, `v`
otherwise. -/
def clamp01 (v : F32) : F32 :=
  if F32.lt v F32.zero then F32.zero else if F32.lt F32.one v then F32.one else v

/-! # Theorems -/

/-! ## State queries -/

/-- C3: `audio_is_finished` is true exactly when the `finished` flag is set
and the buffer count is 0; it is never true while the buffer holds samples. -/
theorem audio_is_finished_iff (ctx : AudioContext) :
    (audio_is_finished ctx = true ↔ (ctx.finished = true ∧ ctx.buffer_count = 0)) ∧
      ¬ (audio_is_finished ctx = true ∧ 0 < ctx.buffer_count) := by
  have h : audio_is_finished ctx = true ↔ (ctx.finished = true ∧ ctx.buffer_count = 0) := by
    simp [audio_is_finished]
  refine ⟨h, ?_⟩
  rintro ⟨hf, hc⟩
  have := (h.mp hf).2
  omega

/-! ## Volume -/

theorem F32.lt_zero_one_false : F32.lt F32.one F32.zero = false := by
  simp [F32.lt, F32.one, F32.zero]

theorem F32.inUnit_zero : F32.inUnit F32.zero := by
  simp [F32.inUnit, F32.le, F32.one, F32.zero]

theorem F32.inUnit_one : F32.inUnit F32.one := by
  simp [F32.inUnit, F32.le, F32.one, F32.zero]

theorem F32.inUnit_of_not_lt (v : F32) (hn : v ≠ F32.nan)
    (h0 : F32.lt v F32.zero = false) (h1 : F32.lt F32.one v = false) : F32.inUnit v := by
  cases v with
  | nan => exact absurd rfl hn
  | inf neg => cases neg <;> simp [F32.lt, F32.one, F32.zero] at h0 h1
  | fin q =>
    simp [F32.lt, F32.one, F32.zero] at h0 h1
    simp [F32.inUnit, F32.le, F32.one, F32.zero, h0, h1]

theorem audio_set_volume_get (ctx : AudioContext) (v : F32) :
    audio_get_volume (audio_set_volume ctx v) = clamp01 v := by
  unfold audio_get_volume audio_set_volume clamp01 F32.gt
  by_cases h0 : F32.lt v F32.zero = true
  · simp [h0, F32.lt_zero_one_false]
  · simp [h0]

/-- C7 (as amended): in every engine state, `audio_set_volume(v)` followed by
`audio_get_volume()` returns `v` clamped to [0,1] and leaves the transport
state alone; for every `v` that is not a NaN the stored volume lies in
[0.0, 1.0]. -/
theorem audio_set_volume_clamps (ctx : AudioContext) (v : F32) (hv : v ≠ F32.nan) :
    audio_get_volume (audio_set_volume ctx v) = clamp01 v ∧
      F32.inUnit (audio_set_volume ctx v).volume ∧
      (audio_set_volume ctx v).state = ctx.state := by
  refine ⟨audio_set_volume_get ctx v, ?_, rfl⟩
  have hg := audio_set_volume_get ctx v
  unfold audio_get_volume at hg
  rw [hg]
  unfold clamp01
  by_cases h0 : F32.lt v F32.zero = true
  · simp [h0, F32.inUnit_zero]
  · by_cases h1 : F32.lt F32.one v = true
    · simp [h0, h1, F32.inUnit_one]
    · simp only [h0, h1, if_false, Bool.false_eq_true]
      exact F32.inUnit_of_not_lt v hv (by simpa using h0) (by simpa using h1)

/-- Witness for C7: the volume 3/2 is stored as 1. -/
theorem audio_set_volume_clamps_witness :
    audio_get_volume (audio_set_volume ctx_zero (F32.fin (3 / 2))) = clamp01 (F32.fin (3 / 2)) ∧
      F32.inUnit (audio_set_volume ctx_zero (F32.fin (3 / 2))).volume ∧
      (audio_set_volume ctx_zero (F32.fin (3 / 2))).state = ctx_zero.state :=
  audio_set_volume_clamps ctx_zero (F32.fin (3 / 2)) (by simp)

/-- C7 fails as stated: after `audio_set_volume(NAN)` the stored volume is a
NaN, which is not in [0.0, 1.0]. -/
theorem audio_set_volume_nan_counterexample :
    (audio_set_volume ctx_zero F32.nan).volume = F32.nan ∧
      ¬ F32.inUnit (audio_set_volume ctx_zero F32.nan).volume := by
  have h : (audio_set_volume ctx_zero F32.nan).volume = F32.nan := by
    simp [audio_set_volume, F32.lt, F32.gt, F32.one, F32.zero]
  refine ⟨h, ?_⟩
  rw [h]
  simp [F32.inUnit, F32.le]

/-! ## Format dispatch -/

theorem tolower_ne_zero (x : Nat) (h : x ≠ 0) : tolower x ≠ 0 := by
  unfold tolower; split <;> omega

theorem tolower_eq_dot (x : Nat) : tolower x = 46 ↔ x = 46 := by
  unfold tolower; split <;> omega

theorem tolower_lower_ne_dot (x y : Nat) (h : tolower x = y) (hy : 97 ≤ y) : x ≠ 46 := by
  unfold tolower at h; split at h <;> omega

theorem strcasecmp_eq_zero_iff (a b : List Nat) (ha : ∀ x ∈ a, x ≠ 0) (hb : ∀ x ∈ b, x ≠ 0) :
    strcasecmp a b = 0 ↔ a.map tolower = b.map tolower := by
  induction a generalizing b with
  | nil =>
    cases b with
    | nil => simp [strcasecmp]
    | cons y ys =>
      have := tolower_ne_zero y (hb y (by simp))
      simp [strcasecmp]; omega
  | cons x xs ih =>
    cases b with
    | nil =>
      have := tolower_ne_zero x (ha x (by simp))
      simp [strcasecmp]; omega
    | cons y ys =>
      have ih' := ih ys (fun z hz => ha z (by simp [hz])) (fun z hz => hb z (by simp [hz]))
      by_cases hxy : tolower x = tolower y
      · simp [strcasecmp, hxy, ih']
      · simp [strcasecmp, hxy]; omega

theorem strrchr_none_iff (s : List Nat) (c : Nat) : strrchr s c = none ↔ c ∉ s := by
  induction s with
  | nil => simp [strrchr]
  | cons x xs ih =>
    simp only [strrchr]
    cases h : strrchr xs c with
    | none =>
      have := ih.mp h
      by_cases hx : x = c
      · simp [hx]
      · simp [hx, this, Ne.symm hx]
    | some r =>
      have : ¬ (c ∉ xs) := fun hc => by rw [ih.mpr hc] at h; cases h
      simp at this
      simp [this]

theorem strrchr_some (s : List Nat) (c : Nat) (r : List Nat) (h : strrchr s c = some r) :
    ∃ pre t, s = pre ++ r ∧ r = c :: t ∧ c ∉ t := by
  induction s with
  | nil => simp [strrchr] at h
  | cons x xs ih =>
    simp only [strrchr] at h
    cases hx : strrchr xs c with
    | none =>
      rw [hx] at h
      by_cases hxc : x = c
      · simp [hxc] at h
        refine ⟨[], xs, by simp [← h, hxc], by simp [← h], (strrchr_none_iff xs c).mp hx⟩
      · simp [hxc] at h
    | some r' =>
      rw [hx] at h
      simp at h
      subst h
      obtain ⟨pre, t, h1, h2, h3⟩ := ih hx
      exact ⟨x :: pre, t, by simp [h1], h2, h3⟩

theorem strrchr_append (pre t : List Nat) (c : Nat) (h : c ∉ t) :
    strrchr (pre ++ c :: t) c = some (c :: t) := by
  induction pre with
  | nil => simp [strrchr, (strrchr_none_iff t c).mpr h]
  | cons x xs ih => simp [strrchr, ih]


theorem ends_with_nocase_iff (path suf : List Nat) :
    ends_with_nocase path suf ↔
      ∃ pre r, path = pre ++ r ∧ r.map tolower = suf.map tolower := by
  constructor
  · rintro ⟨_, h2⟩
    exact ⟨path.take (path.length - suf.length), path.drop (path.length - suf.length),
      (List.take_append_drop _ _).symm, h2⟩
  · rintro ⟨pre, r, rfl, h⟩
    have hl : r.length = suf.length := by
      have := congrArg List.length h
      simpa using this
    refine ⟨by simp [hl], ?_⟩
    have : (pre ++ r).length - suf.length = pre.length := by simp [hl]
    rw [this, List.drop_left]
    exact h

theorem suffix_starts_at_last_dot (r suf : List Nat) (h : r.map tolower = 46 :: suf)
    (hs : ∀ y ∈ suf, 97 ≤ y) : ∃ t, r = 46 :: t ∧ 46 ∉ t := by
  cases r with
  | nil => simp at h
  | cons a t =>
    simp only [List.map_cons, List.cons.injEq] at h
    obtain ⟨ha, ht⟩ := h
    refine ⟨t, by rw [(tolower_eq_dot a).mp ha], ?_⟩
    intro hmem
    have : tolower 46 ∈ suf := by
      rw [← ht]; exact List.mem_map_of_mem tolower hmem
    have h97 := hs _ this
    have : tolower 46 = 46 := by decide
    omega

theorem map_tolower_dot_flac : dot_flac.map tolower = 46 :: [102, 108, 97, 99] := by decide

theorem map_tolower_dot_ogg : dot_ogg.map tolower = 46 :: [111, 103, 103] := by decide

theorem dot_flac_ne_zero : ∀ x ∈ dot_flac, x ≠ 0 := by decide

theorem dot_ogg_ne_zero : ∀ x ∈ dot_ogg, x ≠ 0 := by decide

theorem IsCString.ne_zero {s : List Nat} (h : IsCString s) : ∀ x ∈ s, x ≠ 0 :=
  fun x hx => by have := (h x hx).1; omega

theorem IsCString.of_append {pre r : List Nat} (h : IsCString (pre ++ r)) : IsCString r :=
  fun x hx => h x (by simp [hx])

/-- The extension test of `detect_format` against one suffix: when the
suffix is a dot followed by lower-case letters, `strrchr` finds an extension
that `strcasecmp` equates with it exactly when the path ends with it. -/
theorem ext_matches_iff (path lit suf : List Nat) (hp : IsCString path)
    (hlit : lit.map tolower = 46 :: suf) (hs : ∀ y ∈ suf, 97 ≤ y)
    (hz : ∀ x ∈ lit, x ≠ 0) :
    (∃ ext, strrchr path 46 = some ext ∧ strcasecmp ext lit = 0) ↔
      ends_with_nocase path lit := by
  rw [ends_with_nocase_iff]
  constructor
  · rintro ⟨ext, h1, h2⟩
    obtain ⟨pre, t, hpre, -, -⟩ := strrchr_some path 46 ext h1
    refine ⟨pre, ext, hpre, ?_⟩
    rw [hpre] at hp
    exact (strcasecmp_eq_zero_iff ext lit hp.of_append.ne_zero hz).mp h2
  · rintro ⟨pre, r, hpre, hr⟩
    obtain ⟨t, rfl, ht⟩ := suffix_starts_at_last_dot r suf (hr.trans hlit) hs
    refine ⟨46 :: t, by rw [hpre]; exact strrchr_append pre t 46 ht, ?_⟩
    rw [hpre] at hp
    exact (strcasecmp_eq_zero_iff _ lit hp.of_append.ne_zero hz).mpr hr

theorem detect_format_flac_iff (path : List Nat) (hp : IsCString path) :
    detect_format path = AudioFormat.FLAC ↔ ends_with_nocase path dot_flac := by
  rw [← ext_matches_iff path dot_flac _ hp map_tolower_dot_flac (by decide) dot_flac_ne_zero]
  unfold detect_format
  cases h : strrchr path 46 with
  | none => simp
  | some ext =>
    by_cases h1 : strcasecmp ext dot_flac = 0
    · simp [h1]
    · by_cases h2 : strcasecmp ext dot_ogg = 0 <;> simp [h1, h2]

theorem not_flac_and_ogg (path : List Nat) :
    ¬ (ends_with_nocase path dot_flac ∧ ends_with_nocase path dot_ogg) := by
  rintro ⟨⟨hl1, h1⟩, ⟨hl2, h2⟩⟩
  have e1 := congrArg List.getLast? h1
  have e2 := congrArg List.getLast? h2
  rw [map_tolower_dot_flac] at e1
  rw [map_tolower_dot_ogg] at e2
  simp only [List.getLast?_map, List.getLast?_drop] at e1 e2
  have hl1' : dot_flac.length = 5 := rfl
  have hl2' : dot_ogg.length = 4 := rfl
  rw [hl1'] at hl1 e1
  rw [hl2'] at hl2 e2
  rw [if_neg (by omega)] at e1 e2
  rw [e1] at e2
  simp at e2

theorem detect_format_vorbis_iff (path : List Nat) (hp : IsCString path) :
    detect_format path = AudioFormat.VORBIS ↔ ends_with_nocase path dot_ogg := by
  have hf := detect_format_flac_iff path hp
  have hno := not_flac_and_ogg path
  have key := ext_matches_iff path dot_ogg _ hp map_tolower_dot_ogg (by decide) dot_ogg_ne_zero
  constructor
  · intro h
    apply key.mp
    unfold detect_format at h
    cases hs : strrchr path 46 with
    | none => simp [hs] at h
    | some ext =>
      rw [hs] at h
      by_cases h1 : strcasecmp ext dot_flac = 0
      · simp [h1] at h
      · by_cases h2 : strcasecmp ext dot_ogg = 0
        · exact ⟨ext, rfl, h2⟩
        · simp [h1, h2] at h
  · intro h
    obtain ⟨ext, hs, h2⟩ := key.mpr h
    have hnf : detect_format path ≠ AudioFormat.FLAC := fun hc => hno ⟨hf.mp hc, h⟩
    unfold detect_format at hnf ⊢
    rw [hs] at hnf ⊢
    by_cases h1 : strcasecmp ext dot_flac = 0
    · simp [h1] at hnf
    · simp [h1, h2]

theorem detect_format_unknown_iff (path : List Nat) (hp : IsCString path) :
    detect_format path = AudioFormat.UNKNOWN ↔
      (¬ ends_with_nocase path dot_flac ∧ ¬ ends_with_nocase path dot_ogg) := by
  rw [← detect_format_flac_iff path hp, ← detect_format_vorbis_iff path hp]
  cases detect_format path <;> simp

theorem detect_format_no_dot (path : List Nat) (h : 46 ∉ path) :
    detect_format path = AudioFormat.UNKNOWN := by
  unfold detect_format
  rw [(strrchr_none_iff path 46).mpr h]

theorem SameTransport.refl (a : AudioContext) : SameTransport a a :=
  ⟨rfl, rfl, rfl, rfl, rfl, rfl, rfl, rfl⟩

theorem SameTransport.trans {a b c : AudioContext} (h1 : SameTransport a b)
    (h2 : SameTransport b c) : SameTransport a c := by
  obtain ⟨a1, a2, a3, a4, a5, a6, a7, a8⟩ := h1
  obtain ⟨b1, b2, b3, b4, b5, b6, b7, b8⟩ := h2
  exact ⟨a1.trans b1, a2.trans b2, a3.trans b3, a4.trans b4, a5.trans b5, a6.trans b6,
    a7.trans b7, a8.trans b8⟩

theorem flac_store_same (frame : FlacFrame) (scale : F32) (i : Nat) (ctx : AudioContext) :
    SameTransport (flac_store frame scale i ctx) ctx := by
  unfold flac_store
  split
  · exact ⟨rfl, rfl, rfl, rfl, rfl, rfl, rfl, rfl⟩
  · split <;> split <;> exact ⟨rfl, rfl, rfl, rfl, rfl, rfl, rfl, rfl⟩

theorem flac_write_loop_same (frame : FlacFrame) (scale : F32) (n i : Nat)
    (ctx : AudioContext) : SameTransport (flac_write_loop frame scale n i ctx) ctx := by
  induction n generalizing i ctx with
  | zero => exact SameTransport.refl ctx
  | succ n ih =>
    unfold flac_write_loop
    split
    · exact SameTransport.refl ctx
    · exact (ih (i + 1) _).trans (flac_store_same frame scale i ctx)

theorem flac_write_callback_same (frame : FlacFrame) (ctx : AudioContext) :
    SameTransport (flac_write_callback frame ctx) ctx := by
  unfold flac_write_callback
  refine (flac_write_loop_same _ _ _ _ _).trans ?_
  split <;> exact ⟨rfl, rfl, rfl, rfl, rfl, rfl, rfl, rfl⟩

theorem flac_deliver_same (frame : Option FlacFrame) (ctx : AudioContext) :
    SameTransport (flac_deliver frame ctx) ctx := by
  unfold flac_deliver
  split
  · exact flac_write_callback_same _ _
  · exact SameTransport.refl ctx

theorem decode_flac_samples_cons (ctx : AudioContext) (step : FlacStep)
    (rest : List FlacStep) (hd : ctx.flac_decoder = some (step :: rest)) :
    decode_flac_samples ctx =
      (step.ok && !step.ended,
        flac_deliver step.frame { ctx with flac_decoder := some rest }) := by
  unfold decode_flac_samples
  simp only [hd]
  cases step.ok <;> simp

theorem decode_flac_samples_same (ctx : AudioContext) :
    SameTransport (decode_flac_samples ctx).2 ctx := by
  cases hd : ctx.flac_decoder with
  | none =>
    unfold decode_flac_samples
    simp only [hd]
    exact SameTransport.refl ctx
  | some steps =>
    cases steps with
    | nil =>
      unfold decode_flac_samples
      simp only [hd]
      exact SameTransport.refl ctx
    | cons step rest =>
      rw [decode_flac_samples_cons ctx step rest hd]
      exact (flac_deliver_same _ _).trans ⟨rfl, rfl, rfl, rfl, rfl, rfl, rfl, rfl⟩

theorem vorbis_store_same (s : Int) (ctx : AudioContext) :
    SameTransport (vorbis_store s ctx) ctx := by
  unfold vorbis_store
  split <;> exact ⟨rfl, rfl, rfl, rfl, rfl, rfl, rfl, rfl⟩

theorem vorbis_convert_loop_same_aux (n : Nat) :
    ∀ (chunk : List Int) (ctx : AudioContext), chunk.length ≤ n →
      SameTransport (vorbis_convert_loop chunk ctx) ctx := by
  induction n with
  | zero =>
    intro chunk ctx h
    have : chunk = [] := List.length_eq_zero.mp (by omega)
    subst this
    exact SameTransport.refl ctx
  | succ n ih =>
    intro chunk ctx h
    match chunk, h with
    | [], _ => exact SameTransport.refl ctx
    | [s], _ =>
      unfold vorbis_convert_loop
      split
      · exact SameTransport.refl ctx
      · exact vorbis_store_same s ctx
    | s :: t :: rest, h =>
      unfold vorbis_convert_loop
      simp only [List.length_cons] at h
      split
      · exact SameTransport.refl ctx
      · split
        · exact (ih rest _ (by omega)).trans (vorbis_store_same s ctx)
        · exact (ih (t :: rest) _ (by simp; omega)).trans (vorbis_store_same s ctx)

theorem vorbis_convert_loop_same (chunk : List Int) (ctx : AudioContext) :
    SameTransport (vorbis_convert_loop chunk ctx) ctx :=
  vorbis_convert_loop_same_aux chunk.length chunk ctx (Nat.le_refl _)

theorem decode_vorbis_samples_same (ctx : AudioContext) :
    SameTransport (decode_vorbis_samples ctx).2 ctx := by
  unfold decode_vorbis_samples
  split
  · exact SameTransport.refl ctx
  · split
    · exact SameTransport.refl ctx
    · simp only []
      split
      · exact ⟨rfl, rfl, rfl, rfl, rfl, rfl, rfl, rfl⟩
      · exact (vorbis_convert_loop_same _ _).trans ⟨rfl, rfl, rfl, rfl, rfl, rfl, rfl, rfl⟩

theorem decode_step_same (ctx : AudioContext) : SameTransport (decode_step ctx).2 ctx := by
  unfold decode_step
  split
  · exact decode_flac_samples_same ctx
  · split
    · exact decode_vorbis_samples_same ctx
    · exact SameTransport.refl ctx

/-- C8: on every path, `detect_format` returns FLAC exactly when the path
ends with ".flac" and VORBIS exactly when it ends with ".ogg", both compared
case-insensitively, and UNKNOWN on every other path, in particular on a path
without a dot. -/
theorem detect_format_by_suffix (path : List Nat) (hp : IsCString path) :
    (detect_format path = AudioFormat.FLAC ↔ ends_with_nocase path dot_flac) ∧
      (detect_format path = AudioFormat.VORBIS ↔ ends_with_nocase path dot_ogg) ∧
      (detect_format path = AudioFormat.UNKNOWN ↔
        (¬ ends_with_nocase path dot_flac ∧ ¬ ends_with_nocase path dot_ogg)) ∧
      (46 ∉ path → detect_format path = AudioFormat.UNKNOWN) :=
  ⟨detect_format_flac_iff path hp, detect_format_vorbis_iff path hp,
    detect_format_unknown_iff path hp, detect_format_no_dot path⟩

/-- Witness for C8 at the path "a.FLAC". -/
theorem detect_format_by_suffix_witness :
    IsCString [97, 46, 70, 76, 65, 67] ∧
      ((detect_format [97, 46, 70, 76, 65, 67] = AudioFormat.FLAC ↔
          ends_with_nocase [97, 46, 70, 76, 65, 67] dot_flac) ∧
        (detect_format [97, 46, 70, 76, 65, 67] = AudioFormat.VORBIS ↔
          ends_with_nocase [97, 46, 70, 76, 65, 67] dot_ogg) ∧
        (detect_format [97, 46, 70, 76, 65, 67] = AudioFormat.UNKNOWN ↔
          (¬ ends_with_nocase [97, 46, 70, 76, 65, 67] dot_flac ∧
            ¬ ends_with_nocase [97, 46, 70, 76, 65, 67] dot_ogg)) ∧
        (46 ∉ [97, 46, 70, 76, 65, 67] →
          detect_format [97, 46, 70, 76, 65, 67] = AudioFormat.UNKNOWN)) :=
  ⟨by decide, detect_format_by_suffix [97, 46, 70, 76, 65, 67] (by decide)⟩

/-! ## Transport: play -/

theorem audio_stop_fields (ctx : AudioContext) :
    (audio_stop ctx).state = AudioState.STOPPED ∧
      (audio_stop ctx).format = AudioFormat.UNKNOWN ∧
      (audio_stop ctx).flac_decoder = none ∧ (audio_stop ctx).flac_file = false ∧
      (audio_stop ctx).vorbis_open = false ∧ (audio_stop ctx).buffer_count = 0 := by
  unfold audio_stop
  refine ⟨rfl, rfl, ?_, ?_, ?_, rfl⟩
  · by_cases h1 : ctx.state = AudioState.STOPPED <;>
      cases h2 : ctx.flac_decoder <;> cases h3 : ctx.flac_file <;>
      cases h4 : ctx.vorbis_open <;> simp [h1, h2, h3, h4]
  · by_cases h1 : ctx.state = AudioState.STOPPED <;>
      cases h2 : ctx.flac_decoder <;> cases h3 : ctx.flac_file <;>
      cases h4 : ctx.vorbis_open <;> simp [h1, h2, h3, h4]
  · by_cases h1 : ctx.state = AudioState.STOPPED <;>
      cases h2 : ctx.flac_decoder <;> cases h3 : ctx.flac_file <;>
      cases h4 : ctx.vorbis_open <;> simp [h1, h2, h3, h4]

/-- C9: for every engine state and every path that ends neither with ".flac"
nor with ".ogg" (case-insensitively; this covers a path without extension),
`audio_play_file` returns false and the engine is left exactly as `audio_stop`
leaves it: Stopped, format UNKNOWN, no decoder handle and no file open. -/
theorem audio_play_file_rejects_unknown (nat : Native) (ctx : AudioContext)
    (path : List Nat) (hp : IsCString path)
    (h1 : ¬ ends_with_nocase path dot_flac) (h2 : ¬ ends_with_nocase path dot_ogg) :
    audio_play_file nat ctx path = (false, audio_stop ctx) ∧
      (audio_play_file nat ctx path).2.state = AudioState.STOPPED ∧
      (audio_play_file nat ctx path).2.format = AudioFormat.UNKNOWN ∧
      (audio_play_file nat ctx path).2.flac_decoder = none ∧
      (audio_play_file nat ctx path).2.flac_file = false ∧
      (audio_play_file nat ctx path).2.vorbis_open = false := by
  have hu : detect_format path = AudioFormat.UNKNOWN :=
    (detect_format_unknown_iff path hp).mpr ⟨h1, h2⟩
  have he : audio_play_file nat ctx path = (false, audio_stop ctx) := by
    unfold audio_play_file
    simp [hu]
  obtain ⟨a, b, c, d, e, -⟩ := audio_stop_fields ctx
  rw [he]
  exact ⟨rfl, a, b, c, d, e⟩

/-- Witness for C9 at the path "x.mp3", from the initial engine state. -/
theorem audio_play_file_rejects_unknown_witness :
    IsCString [120, 46, 109, 112, 51] ∧
      ¬ ends_with_nocase [120, 46, 109, 112, 51] dot_flac ∧
      ¬ ends_with_nocase [120, 46, 109, 112, 51] dot_ogg ∧
      (audio_play_file (native_vorbis 44100 1 []) ctx_zero [120, 46, 109, 112, 51]).1 = false :=
  ⟨by decide, by decide, by decide,
    congrArg Prod.fst (audio_play_file_rejects_unknown (native_vorbis 44100 1 []) ctx_zero
      [120, 46, 109, 112, 51] (by decide) (by decide) (by decide)).1⟩

/-- C10: whenever `audio_play_file` returns true, from any prior engine state,
the resulting state is Playing with `samples_played = 0` and
`finished = false`, so `audio_is_finished` is false right after it. -/
theorem audio_play_file_success (nat : Native) (ctx : AudioContext) (path : List Nat)
    (h : (audio_play_file nat ctx path).1 = true) :
    (audio_play_file nat ctx path).2.state = AudioState.PLAYING ∧
      (audio_play_file nat ctx path).2.samples_played = 0 ∧
      (audio_play_file nat ctx path).2.finished = false ∧
      audio_is_finished (audio_play_file nat ctx path).2 = false := by
  have key : (audio_play_file nat ctx path).2.state = AudioState.PLAYING ∧
      (audio_play_file nat ctx path).2.samples_played = 0 ∧
      (audio_play_file nat ctx path).2.finished = false := by
    unfold audio_play_file at h ⊢
    simp only [] at h ⊢
    split_ifs at h ⊢ with h1 h2 h3 h4 h5 h6 h7
    all_goals first
      | (refine ⟨rfl, ?_, ?_⟩
         · exact (decode_flac_samples_same _).2.1
         · exact (decode_flac_samples_same _).1)
      | (refine ⟨rfl, ?_, ?_⟩
         · exact (decode_vorbis_samples_same _).2.1
         · exact (decode_vorbis_samples_same _).1)
  refine ⟨key.1, key.2.1, key.2.2, ?_⟩
  simp [audio_is_finished, key.2.2]

/-- Witness for C10: playing "a.ogg" from a state left by an earlier file. -/
theorem audio_play_file_success_witness :
    (audio_play_file (native_vorbis 44100 1 [[100, 200]])
        { ctx_zero with finished := true, samples_played := 7 } [97, 46, 111, 103, 103]).1 = true ∧
      (audio_play_file (native_vorbis 44100 1 [[100, 200]])
        { ctx_zero with finished := true, samples_played := 7 }
        [97, 46, 111, 103, 103]).2.samples_played = 0 :=
  ⟨by decide, (audio_play_file_success (native_vorbis 44100 1 [[100, 200]])
    { ctx_zero with finished := true, samples_played := 7 } [97, 46, 111, 103, 103]
    (by decide)).2.1⟩

/-! ## Codec A: the write callback -/

theorem flac_store_two (frame : FlacFrame) (scale : F32) (i : Nat) (ctx : AudioContext)
    (hch : 1 ≤ ctx.channels) :
    flac_store frame scale i ctx =
      { buffer_store
          (buffer_store ctx (F32.mul (F32.ofInt (frame.buffer 0 i)) scale))
          (if ctx.channels = 1 then F32.mul (F32.ofInt (frame.buffer 0 i)) scale
            else F32.mul (F32.ofInt (frame.buffer 1 i)) scale) with
        buffer_count := ctx.buffer_count + 2 } := by
  unfold flac_store
  by_cases h1 : ctx.channels = 1
  · simp [h1, buffer_store]
  · have h0 : 0 < ctx.channels := by omega
    have h2 : 1 < ctx.channels := by omega
    simp [h1, h0, h2, buffer_store]

theorem vorbis_store_mono (s : Int) (ctx : AudioContext) (hch : ctx.channels = 1) :
    vorbis_store s ctx =
      { buffer_store (buffer_store ctx (vorbis_sample s)) (vorbis_sample s) with
        buffer_count := ctx.buffer_count + 2 } := by
  unfold vorbis_store
  simp [hch, buffer_store]

theorem store_two_spec (ctx : AudioContext) (v : F32) :
    ({ buffer_store (buffer_store ctx v) v with
        buffer_count := ctx.buffer_count + 2 } : AudioContext).buffer_write_pos =
        (ctx.buffer_write_pos + 2) % AUDIO_BUFFER_SIZE ∧
      ({ buffer_store (buffer_store ctx v) v with
        buffer_count := ctx.buffer_count + 2 } : AudioContext).buffer =
        Function.update (Function.update ctx.buffer ctx.buffer_write_pos v)
          ((ctx.buffer_write_pos + 1) % AUDIO_BUFFER_SIZE) v := by
  refine ⟨?_, rfl⟩
  show ((ctx.buffer_write_pos + 1) % AUDIO_BUFFER_SIZE + 1) % AUDIO_BUFFER_SIZE = _
  unfold AUDIO_BUFFER_SIZE; omega

theorem vorbis_convert_loop_mono_aux (n : Nat) :
    ∀ (chunk : List Int) (ctx : AudioContext), chunk.length ≤ n → ctx.channels = 1 →
      ctx.buffer_write_pos < AUDIO_BUFFER_SIZE →
      ctx.buffer_count + 2 * ((chunk.length + 1) / 2) ≤ AUDIO_BUFFER_SIZE →
      (vorbis_convert_loop chunk ctx).buffer_count =
        ctx.buffer_count + 2 * ((chunk.length + 1) / 2) ∧
      (vorbis_convert_loop chunk ctx).buffer_write_pos =
        (ctx.buffer_write_pos + 2 * ((chunk.length + 1) / 2)) % AUDIO_BUFFER_SIZE ∧
      (∀ j, j < (chunk.length + 1) / 2 →
        (vorbis_convert_loop chunk ctx).buffer
            ((ctx.buffer_write_pos + 2 * j) % AUDIO_BUFFER_SIZE) =
          vorbis_sample (chunk.getD (2 * j) 0) ∧
        (vorbis_convert_loop chunk ctx).buffer
            ((ctx.buffer_write_pos + 2 * j + 1) % AUDIO_BUFFER_SIZE) =
          vorbis_sample (chunk.getD (2 * j) 0)) ∧
      (∀ p, (∀ k, k < 2 * ((chunk.length + 1) / 2) →
          p ≠ (ctx.buffer_write_pos + k) % AUDIO_BUFFER_SIZE) →
        (vorbis_convert_loop chunk ctx).buffer p = ctx.buffer p) := by
  induction n with
  | zero =>
    intro chunk ctx h _ hw _
    have : chunk = [] := List.length_eq_zero.mp (by omega)
    subst this
    refine ⟨rfl, ?_, ?_, ?_⟩
    · simp [vorbis_convert_loop, Nat.mod_eq_of_lt hw]
    · intro j hj; simp at hj
    · intro p _; rfl
  | succ n ih =>
    intro chunk ctx h hch hw hroom
    match chunk, h, hroom with
    | [], _, _ =>
      refine ⟨rfl, ?_, ?_, ?_⟩
      · simp [vorbis_convert_loop, Nat.mod_eq_of_lt hw]
      · intro j hj; simp at hj
      · intro p _; rfl
    | [s], _, hroom =>
      simp only [List.length_singleton] at hroom ⊢
      have hnot : ¬ ctx.buffer_count ≥ AUDIO_BUFFER_SIZE := by
        unfold AUDIO_BUFFER_SIZE at hroom ⊢; omega
      have hstep : vorbis_convert_loop [s] ctx = vorbis_store s ctx := by
        rw [vorbis_convert_loop]; simp [hnot]
      rw [hstep, vorbis_store_mono s ctx hch]
      obtain ⟨hwp, hbuf⟩ := store_two_spec ctx (vorbis_sample s)
      rw [hwp, hbuf]
      unfold AUDIO_BUFFER_SIZE at hw hroom ⊢
      refine ⟨by show ctx.buffer_count + 2 = _; omega, by omega, ?_, ?_⟩
      · intro j hj
        have hj0 : j = 0 := by omega
        subst hj0
        have e0 : (ctx.buffer_write_pos + 2 * 0) % 16384 = ctx.buffer_write_pos := by omega
        have e1 : (ctx.buffer_write_pos + 2 * 0 + 1) % 16384 =
            (ctx.buffer_write_pos + 1) % 16384 := by omega
        have hne : ctx.buffer_write_pos ≠ (ctx.buffer_write_pos + 1) % 16384 := by omega
        rw [e0, e1]
        simp [Function.update_noteq hne]
      · intro p hp
        have h0 := hp 0 (by omega)
        have h1 := hp 1 (by omega)
        have h0' : p ≠ ctx.buffer_write_pos := by omega
        rw [Function.update_noteq h1, Function.update_noteq h0']
    | s :: t :: rest, h, hroom =>
      simp only [List.length_cons] at h hroom ⊢
      have hm : (rest.length + 1 + 1 + 1) / 2 = (rest.length + 1) / 2 + 1 := by omega
      rw [hm] at hroom ⊢
      have hnot : ¬ ctx.buffer_count ≥ AUDIO_BUFFER_SIZE := by
        unfold AUDIO_BUFFER_SIZE at hroom ⊢; omega
      have hstep : vorbis_convert_loop (s :: t :: rest) ctx =
          vorbis_convert_loop rest (vorbis_store s ctx) := by
        rw [vorbis_convert_loop]; simp [hnot, hch]
      rw [hstep, vorbis_store_mono s ctx hch]
      obtain ⟨hwp, hbuf⟩ := store_two_spec ctx (vorbis_sample s)
      obtain ⟨c1, c2, c4, c5⟩ := ih rest
        { buffer_store (buffer_store ctx (vorbis_sample s)) (vorbis_sample s) with
          buffer_count := ctx.buffer_count + 2 }
        (by omega) hch (Nat.mod_lt _ (by unfold AUDIO_BUFFER_SIZE; omega))
        (by show ctx.buffer_count + 2 + 2 * ((rest.length + 1) / 2) ≤ AUDIO_BUFFER_SIZE; omega)
      rw [hwp] at c2 c4 c5
      rw [hbuf] at c5
      unfold AUDIO_BUFFER_SIZE at hw hroom c2 c4 c5 ⊢
      refine ⟨by rw [c1]; show ctx.buffer_count + 2 + _ = _; omega, by rw [c2]; omega, ?_, ?_⟩
      · intro j hj
        rcases Nat.eq_zero_or_pos j with hj0 | hjpos
        · subst hj0
          have e0 : (ctx.buffer_write_pos + 2 * 0) % 16384 = ctx.buffer_write_pos := by omega
          have e1 : (ctx.buffer_write_pos + 2 * 0 + 1) % 16384 =
              (ctx.buffer_write_pos + 1) % 16384 := by omega
          rw [e0, e1, c5 _ (by intro k hk; omega), c5 _ (by intro k hk; omega)]
          have hne : ctx.buffer_write_pos ≠ (ctx.buffer_write_pos + 1) % 16384 := by omega
          simp [Function.update_noteq hne]
        · obtain ⟨d1, d2⟩ := c4 (j - 1) (by omega)
          have e0 : ((ctx.buffer_write_pos + 2) % 16384 + 2 * (j - 1)) % 16384 =
              (ctx.buffer_write_pos + 2 * j) % 16384 := by omega
          have e1 : ((ctx.buffer_write_pos + 2) % 16384 + 2 * (j - 1) + 1) % 16384 =
              (ctx.buffer_write_pos + 2 * j + 1) % 16384 := by omega
          have e2 : (s :: t :: rest).getD (2 * j) 0 = rest.getD (2 * (j - 1)) 0 := by
            have : 2 * j = 2 * (j - 1) + 1 + 1 := by omega
            rw [this]; rfl
          rw [e0] at d1
          rw [e1] at d2
          rw [e2]
          exact ⟨d1, d2⟩
      · intro p hp
        rw [c5 p (by
          intro k hk
          have := hp (k + 2) (by omega)
          omega)]
        have h0 := hp 0 (by omega)
        have h1 := hp 1 (by omega)
        have h0' : p ≠ ctx.buffer_write_pos := by omega
        rw [Function.update_noteq h1, Function.update_noteq h0']

theorem vorbis_store_vorbis_file (s : Int) (ctx : AudioContext) :
    (vorbis_store s ctx).vorbis_file = ctx.vorbis_file ∧
      (vorbis_store s ctx).channels = ctx.channels := by
  unfold vorbis_store
  split <;> exact ⟨rfl, rfl⟩

theorem vorbis_convert_loop_vorbis_file_aux (n : Nat) :
    ∀ (chunk : List Int) (ctx : AudioContext), chunk.length ≤ n →
      (vorbis_convert_loop chunk ctx).vorbis_file = ctx.vorbis_file := by
  induction n with
  | zero =>
    intro chunk ctx h
    have : chunk = [] := List.length_eq_zero.mp (by omega)
    subst this
    rfl
  | succ n ih =>
    intro chunk ctx h
    match chunk, h with
    | [], _ => rfl
    | [s], _ =>
      unfold vorbis_convert_loop
      split
      · rfl
      · exact (vorbis_store_vorbis_file s ctx).1
    | s :: t :: rest, h =>
      unfold vorbis_convert_loop
      simp only [List.length_cons] at h
      split
      · rfl
      · split
        · exact (ih rest _ (by omega)).trans (vorbis_store_vorbis_file s ctx).1
        · exact (ih (t :: rest) _ (by simp; omega)).trans (vorbis_store_vorbis_file s ctx).1

theorem vorbis_convert_loop_vorbis_file (chunk : List Int) (ctx : AudioContext) :
    (vorbis_convert_loop chunk ctx).vorbis_file = ctx.vorbis_file :=
  vorbis_convert_loop_vorbis_file_aux chunk.length chunk ctx (Nat.le_refl _)

theorem decode_vorbis_samples_mono (ctx : AudioContext) (chunk : List Int)
    (rest : List (List Int)) (hopen : ctx.vorbis_open = true)
    (hfile : ctx.vorbis_file = chunk :: rest) (hch : ctx.channels = 1)
    (hw : ctx.buffer_write_pos < AUDIO_BUFFER_SIZE) (hpos : 0 < chunk.length)
    (hroom : ctx.buffer_count + 2 * ((chunk.length + 1) / 2) ≤ AUDIO_BUFFER_SIZE) :
    (decode_vorbis_samples ctx).1 = true ∧
      (decode_vorbis_samples ctx).2.vorbis_file = rest ∧
      (decode_vorbis_samples ctx).2.buffer_count =
        ctx.buffer_count + 2 * ((chunk.length + 1) / 2) ∧
      (∀ j, j < (chunk.length + 1) / 2 →
        (decode_vorbis_samples ctx).2.buffer
            ((ctx.buffer_write_pos + 2 * j) % AUDIO_BUFFER_SIZE) =
          vorbis_sample (chunk.getD (2 * j) 0) ∧
        (decode_vorbis_samples ctx).2.buffer
            ((ctx.buffer_write_pos + 2 * j + 1) % AUDIO_BUFFER_SIZE) =
          vorbis_sample (chunk.getD (2 * j) 0)) := by
  have hne : chunk.length ≠ 0 := by omega
  have he : decode_vorbis_samples ctx =
      (true, vorbis_convert_loop chunk { ctx with vorbis_file := rest }) := by
    unfold decode_vorbis_samples
    simp [hopen, hfile, hne]
  obtain ⟨c1, -, c4, -⟩ := vorbis_convert_loop_mono_aux chunk.length chunk
    { ctx with vorbis_file := rest } (Nat.le_refl _) hch hw hroom
  rw [he]
  refine ⟨rfl, ?_, c1, c4⟩
  show (vorbis_convert_loop chunk { ctx with vorbis_file := rest }).vorbis_file = rest
  exact vorbis_convert_loop_vorbis_file chunk _

/-- C4, the code at the failing input: a mono decode-step on the chunk
`[100, 200]` into the empty buffer stores the pair for sample 100 only; the
count is 2, not 4, and no slot receives sample 200. -/
theorem decode_vorbis_mono_drops_second_sample :
    (decode_vorbis_samples (ctx_mono_vorbis [[100, 200]])).1 = true ∧
      (decode_vorbis_samples (ctx_mono_vorbis [[100, 200]])).2.buffer_count = 2 ∧
      (decode_vorbis_samples (ctx_mono_vorbis [[100, 200]])).2.buffer_write_pos = 2 ∧
      (decode_vorbis_samples (ctx_mono_vorbis [[100, 200]])).2.buffer 0 = vorbis_sample 100 ∧
      (decode_vorbis_samples (ctx_mono_vorbis [[100, 200]])).2.buffer 1 = vorbis_sample 100 ∧
      (∀ p, (decode_vorbis_samples (ctx_mono_vorbis [[100, 200]])).2.buffer p ≠
        vorbis_sample 200) := by
  refine ⟨rfl, rfl, rfl, rfl, rfl, ?_⟩
  intro p
  have hb : (decode_vorbis_samples (ctx_mono_vorbis [[100, 200]])).2.buffer =
      Function.update (Function.update (fun _ => F32.zero) 0 (vorbis_sample 100)) 1
        (vorbis_sample 100) := rfl
  rw [hb]
  have h1 : vorbis_sample 100 ≠ vorbis_sample 200 := by
    simp [vorbis_sample, F32.div, F32.ofInt]; norm_num
  have h2 : F32.zero ≠ vorbis_sample 200 := by
    simp [vorbis_sample, F32.div, F32.ofInt, F32.zero]; norm_num
  by_cases hp1 : p = 1
  · subst hp1; simpa using h1
  · by_cases hp0 : p = 0
    · subst hp0; simpa using h1
    · simpa [Function.update_noteq hp1, Function.update_noteq hp0] using h2

/-! ## The render callback: the copy loop -/

theorem copy_loop_spec (base : Nat) (n : Nat) :
    ∀ (i : Nat) (ctx : AudioContext) (out : Output),
      ctx.buffer_read_pos < AUDIO_BUFFER_SIZE →
      (copy_loop base n i ctx out).1 =
          { ctx with buffer_read_pos := (ctx.buffer_read_pos + n) % AUDIO_BUFFER_SIZE } ∧
        (∀ j, (copy_loop base n i ctx out).2 j =
          if base + i ≤ j ∧ j < base + i + n then
            some (F32.mul (ctx.buffer ((ctx.buffer_read_pos + (j - (base + i))) %
              AUDIO_BUFFER_SIZE)) ctx.volume)
          else out j) := by
  induction n with
  | zero =>
    intro i ctx out hr
    refine ⟨?_, ?_⟩
    · simp [copy_loop, Nat.mod_eq_of_lt hr]
    · intro j
      have : ¬ (base + i ≤ j ∧ j < base + i + 0) := by omega
      simp only [copy_loop]
      rw [if_neg this]
  | succ n ih =>
    intro i ctx out hr
    have hlt : (ctx.buffer_read_pos + 1) % AUDIO_BUFFER_SIZE < AUDIO_BUFFER_SIZE :=
      Nat.mod_lt _ (by unfold AUDIO_BUFFER_SIZE; omega)
    obtain ⟨h1, h2⟩ := ih (i + 1)
      { ctx with buffer_read_pos := (ctx.buffer_read_pos + 1) % AUDIO_BUFFER_SIZE }
      (Function.update out (base + i)
        (some (F32.mul (ctx.buffer ctx.buffer_read_pos) ctx.volume))) hlt
    have hstep : copy_loop base (n + 1) i ctx out =
        copy_loop base n (i + 1)
          { ctx with buffer_read_pos := (ctx.buffer_read_pos + 1) % AUDIO_BUFFER_SIZE }
          (Function.update out (base + i)
            (some (F32.mul (ctx.buffer ctx.buffer_read_pos) ctx.volume))) := rfl
    rw [hstep]
    refine ⟨?_, ?_⟩
    · rw [h1]
      have e : ((ctx.buffer_read_pos + 1) % AUDIO_BUFFER_SIZE + n) % AUDIO_BUFFER_SIZE =
          (ctx.buffer_read_pos + (n + 1)) % AUDIO_BUFFER_SIZE := by
        unfold AUDIO_BUFFER_SIZE; omega
      simp only [e]
    · intro j
      rw [h2 j]
      unfold AUDIO_BUFFER_SIZE at hr ⊢
      by_cases hj : j = base + i
      · subst hj
        have c1 : ¬ (base + (i + 1) ≤ base + i ∧ base + i < base + (i + 1) + n) := by omega
        have c2 : base + i ≤ base + i ∧ base + i < base + i + (n + 1) := by omega
        have e : (ctx.buffer_read_pos + (base + i - (base + i))) % 16384 =
            ctx.buffer_read_pos := by omega
        simp only [c1, c2, if_false, if_true, e, Function.update_same, and_self]
      · by_cases hin : base + (i + 1) ≤ j ∧ j < base + (i + 1) + n
        · have c2 : base + i ≤ j ∧ j < base + i + (n + 1) := by omega
          have e : ((ctx.buffer_read_pos + 1) % 16384 + (j - (base + (i + 1)))) % 16384 =
              (ctx.buffer_read_pos + (j - (base + i))) % 16384 := by omega
          simp only [hin, c2, if_true, e, and_self]
        · have c2 : ¬ (base + i ≤ j ∧ j < base + i + (n + 1)) := by omega
          simp only [hin, c2, if_false, Function.update_noteq hj]

/-- C2: when the ring buffer (read cursor in range, count within capacity)
holds at least `2 * F` samples, `audio_callback` with frame count `F` returns
after one pass without any decode-step: slot `i < 2 * F` of the output is
`buffer[(read_pos + i) mod 16384] * volume`, the read cursor advances by
`2 * F` modulo 16384, the count drops by `2 * F`, `samples_played` grows by
`F`, and every other field, the stored samples included, is unchanged. -/
theorem audio_callback_from_full_buffer (fuel : Nat) (ctx : AudioContext) (out : Output)
    (F : Nat) (hr : ctx.buffer_read_pos < AUDIO_BUFFER_SIZE)
    (hc : ctx.buffer_count ≤ AUDIO_BUFFER_SIZE) (hn : 2 * F ≤ ctx.buffer_count) :
    ∃ out', audio_callback (fuel + 2) ctx out F =
        some ({ ctx with
          buffer_read_pos := (ctx.buffer_read_pos + 2 * F) % AUDIO_BUFFER_SIZE,
          buffer_count := ctx.buffer_count - 2 * F,
          samples_played := ctx.samples_played + F }, out') ∧
      (∀ i, i < 2 * F →
        out' i = some (F32.mul (ctx.buffer ((ctx.buffer_read_pos + i) % AUDIO_BUFFER_SIZE))
          ctx.volume)) ∧
      (∀ j, 2 * F ≤ j → out' j = out j) := by
  rcases Nat.eq_zero_or_pos F with hF0 | hFpos
  · subst hF0
    refine ⟨out, ?_, by intro i hi; omega, by intro j _; rfl⟩
    simp [audio_callback, audio_callback_loop, Nat.mod_eq_of_lt hr]
  · have hF : F ≤ 8192 := by unfold AUDIO_BUFFER_SIZE at hc; omega
    have hcount : ctx.buffer_count ≠ 0 := by omega
    have hneed : (F - 0) * 2 % 2 ^ 32 = 2 * F := by omega
    have hcopy : (if ctx.buffer_count < 2 * F then ctx.buffer_count else 2 * F) = 2 * F := by
      rw [if_neg (by omega)]
    obtain ⟨h1, h2⟩ := copy_loop_spec 0 (2 * F) 0 ctx out hr
    refine ⟨(copy_loop 0 (2 * F) 0 ctx out).2, ?_, ?_, ?_⟩
    · have hfw : (0 + 2 * F / 2) % 2 ^ 32 = F := by omega
      have hhalf : 2 * F / 2 = F := by omega
      have hfw2 : (0 + F) % 2 ^ 32 = F := by omega
      have hpass : copy_pass F 0 ctx out =
          ({ ctx with
            buffer_read_pos := (ctx.buffer_read_pos + 2 * F) % AUDIO_BUFFER_SIZE,
            buffer_count := ctx.buffer_count - 2 * F,
            samples_played := ctx.samples_played + F },
            (copy_loop 0 (2 * F) 0 ctx out).2, F) := by
        unfold copy_pass
        simp only [hneed, hcopy, Nat.zero_mul, Nat.zero_mod, hfw, hhalf, h1, hfw2]
      unfold audio_callback
      rw [audio_callback_loop]
      simp only [hFpos, not_true_eq_false, if_false, refill, hcount, Bool.false_eq_true, hpass]
      rw [audio_callback_loop]
      simp only [Nat.lt_irrefl, not_false_eq_true, if_true]
    · intro i hi
      rw [h2 i]
      simp [hi]
    · intro j hj
      rw [h2 j]
      have : ¬ (0 + 0 ≤ j ∧ j < 0 + 0 + 2 * F) := by omega
      simp only [this, if_false]

/-- Witness for C2: one frame rendered from a buffer holding the two
samples stored by a mono decode-step. -/
theorem audio_callback_from_full_buffer_witness :
    (decode_vorbis_samples (ctx_mono_vorbis [[100, 200]])).2.buffer_read_pos <
        AUDIO_BUFFER_SIZE ∧
      (decode_vorbis_samples (ctx_mono_vorbis [[100, 200]])).2.buffer_count ≤
        AUDIO_BUFFER_SIZE ∧
      2 * 1 ≤ (decode_vorbis_samples (ctx_mono_vorbis [[100, 200]])).2.buffer_count ∧
      ∃ r, audio_callback 2 (decode_vorbis_samples (ctx_mono_vorbis [[100, 200]])).2
          (fun _ => none) 1 = some r ∧
        r.1.samples_played = 1 ∧ r.1.buffer_count = 0 ∧
        r.2 0 = some (F32.mul (vorbis_sample 100) F32.one) :=
  ⟨by decide, by decide, by decide,
    (audio_callback_from_full_buffer 0 (decode_vorbis_samples (ctx_mono_vorbis [[100, 200]])).2
      (fun _ => none) 1 (by decide) (by decide) (by decide)).elim
      (fun out' h => ⟨_, h.1, rfl, rfl, (h.2.1 0 (by decide)).trans rfl⟩)⟩

/-! ## The render callback: termination and full output -/

theorem flac_store_decoder (frame : FlacFrame) (scale : F32) (i : Nat) (ctx : AudioContext) :
    (flac_store frame scale i ctx).flac_decoder = ctx.flac_decoder := by
  unfold flac_store
  split
  · rfl
  · split <;> split <;> rfl

theorem flac_write_loop_decoder (frame : FlacFrame) (scale : F32) (n i : Nat)
    (ctx : AudioContext) :
    (flac_write_loop frame scale n i ctx).flac_decoder = ctx.flac_decoder := by
  induction n generalizing i ctx with
  | zero => rfl
  | succ n ih =>
    unfold flac_write_loop
    split
    · rfl
    · exact (ih (i + 1) _).trans (flac_store_decoder frame scale i ctx)

theorem flac_write_callback_decoder (frame : FlacFrame) (ctx : AudioContext) :
    (flac_write_callback frame ctx).flac_decoder = ctx.flac_decoder := by
  unfold flac_write_callback
  refine (flac_write_loop_decoder _ _ _ _ _).trans ?_
  split <;> rfl

theorem decode_flac_samples_pending (ctx : AudioContext)
    (hfmt : ctx.format = AudioFormat.FLAC) (h : (decode_flac_samples ctx).1 = true) :
    pending (decode_flac_samples ctx).2 < pending ctx := by
  have hsame := (decode_flac_samples_same ctx).2.2.2.1
  have hp : pending (decode_flac_samples ctx).2 =
      match (decode_flac_samples ctx).2.flac_decoder with
      | some steps => steps.length
      | none => 0 := by
    unfold pending; rw [hsame, hfmt]
  have hq : pending ctx = match ctx.flac_decoder with
      | some steps => steps.length
      | none => 0 := by
    unfold pending; rw [hfmt]
  rw [hp, hq]
  cases hd : ctx.flac_decoder with
  | none =>
    unfold decode_flac_samples at h
    simp [hd] at h
  | some steps =>
    cases steps with
    | nil =>
      unfold decode_flac_samples at h
      simp [hd] at h
    | cons step rest =>
      rw [decode_flac_samples_cons ctx step rest hd]
      have hdec : (flac_deliver step.frame { ctx with flac_decoder := some rest }).flac_decoder =
          some rest := by
        unfold flac_deliver
        split
        · exact flac_write_callback_decoder _ _
        · rfl
      simp [hdec]

theorem decode_vorbis_samples_pending (ctx : AudioContext)
    (hfmt : ctx.format = AudioFormat.VORBIS) (h : (decode_vorbis_samples ctx).1 = true) :
    pending (decode_vorbis_samples ctx).2 < pending ctx := by
  have hsame := (decode_vorbis_samples_same ctx).2.2.2.1
  have hp : pending (decode_vorbis_samples ctx).2 =
      (decode_vorbis_samples ctx).2.vorbis_file.length := by
    unfold pending; rw [hsame, hfmt]
  have hq : pending ctx = ctx.vorbis_file.length := by
    unfold pending; rw [hfmt]
  rw [hp, hq]
  unfold decode_vorbis_samples at h ⊢
  cases ho : ctx.vorbis_open with
  | false => simp [ho] at h
  | true =>
    cases hf : ctx.vorbis_file with
    | nil => simp [ho, hf] at h
    | cons chunk rest =>
      by_cases hl : chunk.length = 0
      · simp [ho, hf, hl] at h
      · simp [ho, hl, vorbis_convert_loop_vorbis_file]

theorem decode_step_pending (ctx : AudioContext) (h : (decode_step ctx).1 = true) :
    pending (decode_step ctx).2 < pending ctx := by
  unfold decode_step at h ⊢
  by_cases h1 : ctx.format = AudioFormat.FLAC
  · simp only [h1, if_true] at h ⊢
    exact decode_flac_samples_pending ctx h1 h
  · by_cases h2 : ctx.format = AudioFormat.VORBIS
    · simp only [h1, h2, if_true, if_false] at h ⊢
      exact decode_vorbis_samples_pending ctx h2 h
    · simp [h1, h2] at h

theorem copy_loop_frame (base : Nat) (n : Nat) :
    ∀ (i : Nat) (ctx : AudioContext) (out : Output),
      (∃ rp, (copy_loop base n i ctx out).1 = { ctx with buffer_read_pos := rp }) ∧
        (∀ j, (base + i ≤ j ∧ j < base + i + n →
            ((copy_loop base n i ctx out).2 j).isSome = true) ∧
          (¬ (base + i ≤ j ∧ j < base + i + n) → (copy_loop base n i ctx out).2 j = out j)) := by
  induction n with
  | zero =>
    intro i ctx out
    exact ⟨⟨ctx.buffer_read_pos, rfl⟩, fun j => ⟨fun h => by omega, fun _ => rfl⟩⟩
  | succ n ih =>
    intro i ctx out
    obtain ⟨⟨rp, h1⟩, h2⟩ := ih (i + 1)
      { ctx with buffer_read_pos := (ctx.buffer_read_pos + 1) % AUDIO_BUFFER_SIZE }
      (Function.update out (base + i)
        (some (F32.mul (ctx.buffer ctx.buffer_read_pos) ctx.volume)))
    have hstep : copy_loop base (n + 1) i ctx out =
        copy_loop base n (i + 1)
          { ctx with buffer_read_pos := (ctx.buffer_read_pos + 1) % AUDIO_BUFFER_SIZE }
          (Function.update out (base + i)
            (some (F32.mul (ctx.buffer ctx.buffer_read_pos) ctx.volume))) := rfl
    rw [hstep]
    refine ⟨⟨rp, by rw [h1]⟩, ?_⟩
    intro j
    obtain ⟨h2a, h2b⟩ := h2 j
    constructor
    · intro hj
      by_cases hin : base + (i + 1) ≤ j ∧ j < base + (i + 1) + n
      · exact h2a hin
      · have hje : j = base + i := by omega
        rw [h2b hin, hje]
        simp
    · intro hj
      have hin : ¬ (base + (i + 1) ≤ j ∧ j < base + (i + 1) + n) := by omega
      have hne : j ≠ base + i := by omega
      rw [h2b hin, Function.update_noteq hne]

theorem copy_pass_spec (F fw : Nat) (ctx : AudioContext) (out : Output) (hF : F < 2 ^ 31)
    (hlt : fw < F) (hc : ctx.buffer_count ≠ 0)
    (hout : ∀ i, i < 2 * fw → (out i).isSome = true) :
    fw ≤ (copy_pass F fw ctx out).2.2 ∧ (copy_pass F fw ctx out).2.2 ≤ F ∧
      pending (copy_pass F fw ctx out).1 = pending ctx ∧
      (∀ i, i < 2 * (copy_pass F fw ctx out).2.2 →
        ((copy_pass F fw ctx out).2.1 i).isSome = true) ∧
      2 * (F - (copy_pass F fw ctx out).2.2) +
          (if (copy_pass F fw ctx out).1.buffer_count = 0 then 0 else 1) ≤ 2 * (F - fw) := by
  have hneed : (F - fw) * 2 % 2 ^ 32 = 2 * (F - fw) := by omega
  have hbase : fw * 2 % 2 ^ 32 = 2 * fw := by omega
  generalize hn : (if ctx.buffer_count < 2 * (F - fw) then ctx.buffer_count
    else 2 * (F - fw)) = n
  have hn1 : 1 ≤ n := by rw [← hn]; split <;> omega
  have hn2 : n ≤ 2 * (F - fw) := by rw [← hn]; split <;> omega
  have hn3 : n ≤ ctx.buffer_count := by rw [← hn]; split <;> omega
  have hn4 : n = 1 → ctx.buffer_count = 1 := by
    intro h1; rw [← hn] at h1; split at h1 <;> omega
  obtain ⟨⟨rp, h1⟩, h2⟩ := copy_loop_frame (2 * fw) n 0 ctx out
  have hpass : copy_pass F fw ctx out =
      ({ ctx with
          buffer_read_pos := rp,
          buffer_count := ctx.buffer_count - n,
          samples_played := ctx.samples_played + n / 2 },
        (copy_loop (2 * fw) n 0 ctx out).2, fw + n / 2) := by
    unfold copy_pass
    have hfw : (fw + n / 2) % 2 ^ 32 = fw + n / 2 := by omega
    simp only [hneed, hbase, hn, h1, hfw]
  rw [hpass]
  refine ⟨by show fw ≤ fw + n / 2; omega, by show fw + n / 2 ≤ F; omega, rfl, ?_, ?_⟩
  · intro i hi
    have hi' : i < 2 * (fw + n / 2) := hi
    show ((copy_loop (2 * fw) n 0 ctx out).2 i).isSome = true
    by_cases hin : 2 * fw + 0 ≤ i ∧ i < 2 * fw + 0 + n
    · exact (h2 i).1 hin
    · rw [(h2 i).2 hin]
      exact hout i (by omega)
  · show 2 * (F - (fw + n / 2)) + (if ctx.buffer_count - n = 0 then 0 else 1) ≤ 2 * (F - fw)
    by_cases hone : n = 1
    · have := hn4 hone
      rw [if_pos (by omega)]
      omega
    · split <;> omega

theorem audio_callback_loop_total (F : Nat) (hF : F < 2 ^ 31) :
    ∀ (fuel : Nat) (ctx : AudioContext) (out : Output) (fw : Nat), fw ≤ F →
      2 * (F - fw) + 2 * pending ctx + (if ctx.buffer_count = 0 then 0 else 1) < fuel →
      (∀ i, i < 2 * fw → (out i).isSome = true) →
      ∃ ctx' out', audio_callback_loop F fuel ctx out fw = some (ctx', out') ∧
        ∀ i, i < 2 * F → (out' i).isSome = true := by
  intro fuel
  induction fuel with
  | zero => intro ctx out fw _ h _; omega
  | succ fuel ih =>
    intro ctx out fw hfw hfuel hout
    rw [audio_callback_loop]
    by_cases hlt : fw < F
    · simp only [hlt, not_true_eq_false, if_false]
      by_cases hst : (refill ctx).1 = true
      · simp only [hst, if_true]
        refine ⟨_, _, rfl, ?_⟩
        intro i hi
        have e1 : fw * 2 % 2 ^ 32 = 2 * fw := by omega
        have e2 : (F - fw) % 2 ^ 32 * 2 % 2 ^ 32 = 2 * (F - fw) := by omega
        rw [e1, e2]
        unfold memset_zero
        by_cases hin : 2 * fw ≤ i ∧ i < 2 * fw + 2 * (F - fw)
        · simp [hin]
        · simp only [hin, if_false]
          exact hout i (by omega)
      · simp only [hst, if_false, Bool.false_eq_true]
        have hrefill : (refill ctx).2.buffer_count ≠ 0 ∧
            2 * (F - fw) + 2 * pending (refill ctx).2 + 1 ≤ fuel := by
          unfold refill at hst ⊢
          by_cases hcz : ctx.buffer_count = 0
          · simp only [hcz, if_true] at hst ⊢
            have hdec : (decode_step ctx).1 = true := by
              cases hd : (decode_step ctx).1 <;> simp [hd] at hst ⊢
            have hcnt : (decode_step ctx).2.buffer_count ≠ 0 := by
              intro h0; simp [h0] at hst
            have := decode_step_pending ctx hdec
            rw [if_pos hcz] at hfuel
            exact ⟨hcnt, by omega⟩
          · simp only [hcz, if_false] at hst ⊢
            rw [if_neg hcz] at hfuel
            exact ⟨hcz, by omega⟩
        obtain ⟨p1, p2, p3, p4, p5⟩ :=
          copy_pass_spec F fw (refill ctx).2 out hF hlt hrefill.1 hout
        exact ih _ _ _ p2 (by rw [p3]; omega) p4
    · simp only [hlt, not_false_eq_true, if_true]
      refine ⟨ctx, out, rfl, ?_⟩
      intro i hi
      exact hout i (by omega)

/-- C1 (as amended): for every frame count `F < 2 ^ 31` and every engine
state, `audio_callback` returns (given enough iterations of its loop for the
outcomes the decoder still holds) and every one of the `2 * F` output slots
has been written; and whenever, with the buffer empty at write cursor `fw`,
the decode-step returns false or leaves the buffer empty, the callback returns
at once with the state that one decode-step produced plus `finished = true`,
slots `2 * fw .. 2 * F - 1` zero and the earlier slots as they were. -/
theorem audio_callback_fills_output (F : Nat) (hF : F < 2 ^ 31) :
    (∀ (ctx : AudioContext) (out : Output) (fuel : Nat),
        2 * F + 2 * pending ctx + 1 < fuel →
        ∃ ctx' out', audio_callback fuel ctx out F = some (ctx', out') ∧
          ∀ i, i < 2 * F → (out' i).isSome = true) ∧
      (∀ (ctx : AudioContext) (out : Output) (fw fuel : Nat), fw < F →
        ctx.buffer_count = 0 →
        ((decode_step ctx).1 = false ∨ (decode_step ctx).2.buffer_count = 0) →
        ∃ out', audio_callback_loop F (fuel + 1) ctx out fw =
            some ({ (decode_step ctx).2 with finished := true }, out') ∧
          (∀ i, 2 * fw ≤ i → i < 2 * F → out' i = some F32.zero) ∧
          (∀ i, i < 2 * fw → out' i = out i)) := by
  constructor
  · intro ctx out fuel hfuel
    unfold audio_callback
    refine audio_callback_loop_total F hF fuel ctx out 0 (Nat.zero_le _) ?_ ?_
    · split <;> omega
    · intro i hi; omega
  · intro ctx out fw fuel hlt hcz hdec
    have hst : (refill ctx).1 = true := by
      unfold refill
      simp only [hcz, if_true]
      rcases hdec with h | h
      · simp [h]
      · simp [h]
    have hctx : (refill ctx).2 = (decode_step ctx).2 := by
      unfold refill
      simp only [hcz, if_true]
    have e1 : fw * 2 % 2 ^ 32 = 2 * fw := by omega
    have e2 : (F - fw) % 2 ^ 32 * 2 % 2 ^ 32 = 2 * (F - fw) := by omega
    refine ⟨memset_zero out (2 * fw) (2 * (F - fw)), ?_, ?_, ?_⟩
    · rw [audio_callback_loop]
      simp only [hlt, not_true_eq_false, if_false, hst, if_true, hctx, e1, e2]
    · intro i h1 h2
      unfold memset_zero
      rw [if_pos (by omega)]
    · intro i h1
      unfold memset_zero
      rw [if_neg (by omega)]

/-- Witness for C1: two frames requested from the initial engine state. -/
theorem audio_callback_fills_output_witness :
    (2 : Nat) < 2 ^ 31 ∧
      ∃ ctx' out', audio_callback 6 ctx_zero (fun _ => none) 2 = some (ctx', out') ∧
        ∀ i, i < 2 * 2 → (out' i).isSome = true :=
  ⟨by decide,
    (audio_callback_fills_output 2 (by decide)).1 ctx_zero (fun _ => none) 6 (by decide)⟩

/-- C1 fails as stated: for the frame count `2 ^ 31` the 32-bit product
`remaining * 2` wraps to 0, so from the initial engine state (nothing to
decode) the callback returns without writing any of the output slots. -/
theorem audio_callback_wraps_counterexample :
    ∃ ctx' out', audio_callback 1 ctx_zero (fun _ => none) (2 ^ 31) = some (ctx', out') ∧
      ctx'.finished = true ∧ ∀ i, out' i = none := by
  refine ⟨{ ctx_zero with finished := true },
    memset_zero (fun _ => none) 0 0, ?_, rfl, ?_⟩
  · have h1 : (0 : Nat) < 2 ^ 31 := by decide
    have h2 : (refill ctx_zero).1 = true := by decide
    have h3 : (refill ctx_zero).2 = ctx_zero := rfl
    have h4 : (2 ^ 31 - 0) % 2 ^ 32 * 2 % 2 ^ 32 = 0 := by decide
    unfold audio_callback
    rw [audio_callback_loop]
    simp only [h1, not_true_eq_false, if_false, h2, if_true, h3, h4, Nat.zero_mul,
      Nat.zero_mod]
  · intro i
    unfold memset_zero
    rw [if_neg (by omega)]

/-! ## Mono Vorbis playback: how many frames can be played -/

theorem vorbis_convert_loop_mono_bound_aux (n : Nat) :
    ∀ (chunk : List Int) (ctx : AudioContext), chunk.length ≤ n → ctx.channels = 1 →
      (vorbis_convert_loop chunk ctx).channels = 1 ∧
        (vorbis_convert_loop chunk ctx).sample_rate = ctx.sample_rate ∧
        (vorbis_convert_loop chunk ctx).buffer_count ≤
          ctx.buffer_count + 2 * ((chunk.length + 1) / 2) := by
  induction n with
  | zero =>
    intro chunk ctx h hch
    have : chunk = [] := List.length_eq_zero.mp (by omega)
    subst this
    exact ⟨hch, rfl, Nat.le_add_right _ _⟩
  | succ n ih =>
    intro chunk ctx h hch
    match chunk, h with
    | [], _ => exact ⟨hch, rfl, Nat.le_add_right _ _⟩
    | [s], _ =>
      by_cases hfull : ctx.buffer_count ≥ AUDIO_BUFFER_SIZE
      · have hstep : vorbis_convert_loop [s] ctx = ctx := by
          rw [vorbis_convert_loop]; simp [hfull]
        rw [hstep]
        exact ⟨hch, rfl, Nat.le_add_right _ _⟩
      · have hstep : vorbis_convert_loop [s] ctx = vorbis_store s ctx := by
          rw [vorbis_convert_loop]; simp [hfull]
        rw [hstep, vorbis_store_mono s ctx hch]
        refine ⟨hch, rfl, ?_⟩
        show ctx.buffer_count + 2 ≤ ctx.buffer_count + 2 * (([s].length + 1) / 2)
        simp
    | s :: t :: rest, h =>
      simp only [List.length_cons] at h ⊢
      by_cases hfull : ctx.buffer_count ≥ AUDIO_BUFFER_SIZE
      · have hstep : vorbis_convert_loop (s :: t :: rest) ctx = ctx := by
          rw [vorbis_convert_loop]; simp [hfull]
        rw [hstep]
        exact ⟨hch, rfl, Nat.le_add_right _ _⟩
      · have hstep : vorbis_convert_loop (s :: t :: rest) ctx =
            vorbis_convert_loop rest (vorbis_store s ctx) := by
          rw [vorbis_convert_loop]; simp [hfull, hch]
        rw [hstep, vorbis_store_mono s ctx hch]
        obtain ⟨c1, c2, c3⟩ := ih rest
          { buffer_store (buffer_store ctx (vorbis_sample s)) (vorbis_sample s) with
            buffer_count := ctx.buffer_count + 2 } (by omega) hch
        refine ⟨c1, c2, ?_⟩
        have c3' : (vorbis_convert_loop rest
            { buffer_store (buffer_store ctx (vorbis_sample s)) (vorbis_sample s) with
              buffer_count := ctx.buffer_count + 2 }).buffer_count ≤
            ctx.buffer_count + 2 + 2 * ((rest.length + 1) / 2) := c3
        omega

theorem decode_vorbis_samples_closed (ctx : AudioContext)
    (h : ctx.vorbis_open = false ∨ ctx.vorbis_file = []) :
    decode_vorbis_samples ctx = (false, ctx) := by
  unfold decode_vorbis_samples
  rcases h with h | h
  · simp [h]
  · by_cases ho : ctx.vorbis_open = true <;> simp [h, ho]

theorem decode_vorbis_samples_cons (ctx : AudioContext) (chunk : List Int)
    (rest : List (List Int)) (ho : ctx.vorbis_open = true)
    (hf : ctx.vorbis_file = chunk :: rest) :
    decode_vorbis_samples ctx =
      if chunk.length = 0 then (false, { ctx with vorbis_file := rest })
      else (true, vorbis_convert_loop chunk { ctx with vorbis_file := rest }) := by
  unfold decode_vorbis_samples
  simp only [ho, hf, Bool.not_true, Bool.false_eq_true, if_false]

theorem decode_vorbis_samples_budget (B P : Nat) (ctx : AudioContext)
    (h : MonoInv B P ctx) : MonoInv B P (decode_vorbis_samples ctx).2 := by
  obtain ⟨hfmt, hch, hsr, hb, hp⟩ := h
  by_cases ho : ctx.vorbis_open = true
  · rcases hf : ctx.vorbis_file with _ | ⟨chunk, rest⟩
    · rw [decode_vorbis_samples_closed ctx (Or.inr hf)]
      exact ⟨hfmt, hch, hsr, hb, hp⟩
    · rw [decode_vorbis_samples_cons ctx chunk rest ho hf]
      unfold mono_budget at hb
      rw [hf] at hb hp
      simp only [List.map_cons, List.sum_cons, List.length_cons] at hb hp
      by_cases hl : chunk.length = 0
      · rw [if_pos hl]
        refine ⟨hfmt, hch, hsr, ?_, by show rest.length ≤ P; omega⟩
        unfold mono_budget
        show 2 * ctx.samples_played + ctx.buffer_count +
          2 * (rest.map (fun c => (c.length + 1) / 2)).sum ≤ B
        omega
      · rw [if_neg hl]
        show MonoInv B P (vorbis_convert_loop chunk { ctx with vorbis_file := rest })
        obtain ⟨c1, c2, c3⟩ := vorbis_convert_loop_mono_bound_aux chunk.length chunk
          { ctx with vorbis_file := rest } (Nat.le_refl _) hch
        have hsame := vorbis_convert_loop_same chunk { ctx with vorbis_file := rest }
        have hfile := vorbis_convert_loop_vorbis_file chunk { ctx with vorbis_file := rest }
        have hfmt' : (vorbis_convert_loop chunk { ctx with vorbis_file := rest }).format =
            AudioFormat.VORBIS := hsame.2.2.2.1.trans hfmt
        have hsr' : (vorbis_convert_loop chunk { ctx with vorbis_file := rest }).sample_rate =
            44100 := c2.trans hsr
        have hsp : (vorbis_convert_loop chunk { ctx with vorbis_file := rest }).samples_played =
            ctx.samples_played := hsame.2.1
        have hfile' : (vorbis_convert_loop chunk { ctx with vorbis_file := rest }).vorbis_file =
            rest := hfile
        have c3' : (vorbis_convert_loop chunk { ctx with vorbis_file := rest }).buffer_count ≤
            ctx.buffer_count + 2 * ((chunk.length + 1) / 2) := c3
        generalize vorbis_convert_loop chunk { ctx with vorbis_file := rest } = X at *
        refine ⟨hfmt', c1, hsr', ?_, by rw [hfile']; omega⟩
        unfold mono_budget
        rw [hfile', hsp]
        omega
  · rw [decode_vorbis_samples_closed ctx (Or.inl (by simpa using ho))]
    exact ⟨hfmt, hch, hsr, hb, hp⟩

theorem refill_budget (B P : Nat) (ctx : AudioContext) (h : MonoInv B P ctx) :
    MonoInv B P (refill ctx).2 := by
  unfold refill
  split
  · show MonoInv B P (decode_step ctx).2
    have : decode_step ctx = decode_vorbis_samples ctx := by
      unfold decode_step
      simp [h.1]
    rw [this]
    exact decode_vorbis_samples_budget B P ctx h
  · exact h

theorem copy_pass_budget (B P F fw : Nat) (ctx : AudioContext) (out : Output)
    (h : MonoInv B P ctx) : MonoInv B P (copy_pass F fw ctx out).1 := by
  obtain ⟨hfmt, hch, hsr, hb, hp⟩ := h
  generalize hn : (if ctx.buffer_count < (F - fw) * 2 % 2 ^ 32 then ctx.buffer_count
    else (F - fw) * 2 % 2 ^ 32) = n
  have hn3 : n ≤ ctx.buffer_count := by rw [← hn]; split <;> omega
  obtain ⟨⟨rp, h1⟩, -⟩ := copy_loop_frame (fw * 2 % 2 ^ 32) n 0 ctx out
  have hpass : (copy_pass F fw ctx out).1 =
      { ctx with
        buffer_read_pos := rp,
        buffer_count := ctx.buffer_count - n,
        samples_played := ctx.samples_played + n / 2 } := by
    unfold copy_pass
    simp only [hn, h1]
  rw [hpass]
  refine ⟨hfmt, hch, hsr, ?_, hp⟩
  unfold mono_budget at hb ⊢
  show 2 * (ctx.samples_played + n / 2) + (ctx.buffer_count - n) +
    2 * (ctx.vorbis_file.map (fun c => (c.length + 1) / 2)).sum ≤ B
  omega

theorem audio_callback_loop_budget (B P F : Nat) :
    ∀ (fuel : Nat) (ctx : AudioContext) (out : Output) (fw : Nat)
      (r : AudioContext × Output), MonoInv B P ctx →
      audio_callback_loop F fuel ctx out fw = some r → MonoInv B P r.1 := by
  intro fuel
  induction fuel with
  | zero => intro ctx out fw r _ h; simp [audio_callback_loop] at h
  | succ fuel ih =>
    intro ctx out fw r hinv h
    rw [audio_callback_loop] at h
    by_cases hlt : fw < F
    · simp only [hlt, not_true_eq_false, if_false] at h
      have hre := refill_budget B P ctx hinv
      by_cases hst : (refill ctx).1 = true
      · simp only [hst, if_true, Option.some.injEq] at h
        rw [← h]
        exact hre
      · simp only [hst, if_false, Bool.false_eq_true] at h
        exact ih _ _ _ r (copy_pass_budget B P F fw _ out hre) h
    · simp only [hlt, not_false_eq_true, if_true, Option.some.injEq] at h
      rw [← h]
      exact hinv

theorem render_calls_budget (B P F fuel : Nat) (hF : F < 2 ^ 31)
    (hfuel : 2 * F + 2 * P + 1 < fuel) :
    ∀ (k : Nat) (ctx : AudioContext), MonoInv B P ctx →
      ∃ ctx', render_calls fuel F k ctx = some ctx' ∧ MonoInv B P ctx' := by
  intro k
  induction k with
  | zero => intro ctx h; exact ⟨ctx, rfl, h⟩
  | succ k ih =>
    intro ctx h
    have hpend : pending ctx ≤ P := by
      unfold pending; rw [h.1]; exact h.2.2.2.2
    obtain ⟨ctx1, out1, hcall, -⟩ :=
      audio_callback_loop_total F hF fuel ctx (fun _ => none) 0 (Nat.zero_le _)
        (by split <;> omega) (by intro i hi; omega)
    have hinv := audio_callback_loop_budget B P F fuel ctx _ 0 _ h hcall
    obtain ⟨ctx', hk, hinv'⟩ := ih ctx1 hinv
    refine ⟨ctx', ?_, hinv'⟩
    unfold render_calls audio_callback
    rw [hcall]
    exact hk

theorem audio_play_file_mono_vorbis (chunks : List (List Int)) :
    audio_play_file (native_vorbis 44100 1 chunks) ctx_init a_ogg =
      (true, { (decode_vorbis_samples (ctx_opened_vorbis chunks)).2 with
        device_started := true, state := AudioState.PLAYING }) := rfl

theorem audio_play_file_mono_vorbis_inv (chunks : List (List Int)) :
    MonoInv (2 * (chunks.map (fun c => (c.length + 1) / 2)).sum) chunks.length
      (audio_play_file (native_vorbis 44100 1 chunks) ctx_init a_ogg).2 := by
  rw [audio_play_file_mono_vorbis]
  have h0 : MonoInv (2 * (chunks.map (fun c => (c.length + 1) / 2)).sum) chunks.length
      (ctx_opened_vorbis chunks) := by
    refine ⟨rfl, rfl, rfl, ?_, Nat.le_refl _⟩
    show 2 * 0 + 0 + 2 * (chunks.map (fun c => (c.length + 1) / 2)).sum ≤ _
    omega
  obtain ⟨c1, c2, c3, c4, c5⟩ := decode_vorbis_samples_budget _ _ _ h0
  exact ⟨c1, c2, c3, c4, c5⟩

theorem stream_ten_seconds_facts :
    (stream_ten_seconds.map List.length).sum = 441000 ∧
      (∀ c ∈ stream_ten_seconds, 2 * c.length ≤ 4096) ∧
      stream_ten_seconds.length = 216 ∧
      (stream_ten_seconds.map (fun c => (c.length + 1) / 2)).sum = 220500 := by
  refine ⟨?_, ?_, ?_, ?_⟩
  · simp only [stream_ten_seconds, List.map_append, List.map_replicate, List.sum_append,
      List.sum_replicate, List.length_replicate, List.map_cons, List.map_nil, List.sum_cons,
      List.sum_nil, smul_eq_mul]
    decide
  · intro c hc
    simp only [stream_ten_seconds, List.mem_append, List.mem_replicate, List.mem_singleton] at hc
    rcases hc with ⟨-, rfl⟩ | rfl <;> simp only [List.length_replicate] <;> omega
  · simp only [stream_ten_seconds, List.length_append, List.length_replicate,
      List.length_singleton]
  · simp only [stream_ten_seconds, List.map_append, List.map_replicate, List.sum_append,
      List.sum_replicate, List.length_replicate, List.map_cons, List.map_nil, List.sum_cons,
      List.sum_nil, smul_eq_mul]
    decide

/-- C6, the code on the scenario: a 10-second mono Vorbis stream at 44100 Hz
(441000 samples, read in chunks of 4096 bytes) is played from the initial
engine; `audio_play_file` succeeds, every one of any number `k` of 512-frame
render callbacks returns, and after them `samples_played` is at most 220500,
half of 441000 and more than one decode-step (2048 frames) short of it. -/
theorem mono_vorbis_ten_seconds_plays_half :
    (stream_ten_seconds.map List.length).sum = 441000 ∧
      (∀ c ∈ stream_ten_seconds, 2 * c.length ≤ 4096) ∧
      (audio_play_file (native_vorbis 44100 1 stream_ten_seconds) ctx_init a_ogg).1 = true ∧
      ∀ k, ∃ ctx',
        render_calls 2000 512 k
          (audio_play_file (native_vorbis 44100 1 stream_ten_seconds) ctx_init a_ogg).2 =
            some ctx' ∧
        ctx'.sample_rate = 44100 ∧ ctx'.samples_played ≤ 220500 ∧
        ctx'.samples_played + 2048 < 441000 := by
  obtain ⟨f1, f2, f3, f4⟩ := stream_ten_seconds_facts
  refine ⟨f1, f2, rfl, ?_⟩
  intro k
  have hinv := audio_play_file_mono_vorbis_inv stream_ten_seconds
  rw [f3, f4] at hinv
  obtain ⟨ctx', hk, -, -, hsr, hb, -⟩ :=
    render_calls_budget (2 * 220500) 216 512 2000 (by decide) (by decide) k _ hinv
  refine ⟨ctx', hk, hsr, ?_, ?_⟩
  · unfold mono_budget at hb; omega
  · unfold mono_budget at hb; omega

/-! ## Transport: stop and pause -/

/-- C11: after `audio_stop` the state is Stopped, the format is UNKNOWN, the
buffer count is 0 and no decoder handle or file is held; a second `audio_stop`
leaves exactly the engine state the first one produced. -/
theorem audio_stop_idempotent (ctx : AudioContext) :
    (audio_stop ctx).state = AudioState.STOPPED ∧
      (audio_stop ctx).format = AudioFormat.UNKNOWN ∧
      (audio_stop ctx).buffer_count = 0 ∧
      (audio_stop ctx).flac_decoder = none ∧ (audio_stop ctx).flac_file = false ∧
      (audio_stop ctx).vorbis_open = false ∧
      audio_stop (audio_stop ctx) = audio_stop ctx := by
  obtain ⟨a, b, c, d, e, f⟩ := audio_stop_fields ctx
  refine ⟨a, b, f, c, d, e, ?_⟩
  generalize audio_stop ctx = s at a b c d e f
  unfold audio_stop
  simp [a, c, d, e]
  cases s
  simp_all

/-- C12: `audio_toggle_pause` takes Playing to Paused and Paused to Playing
and does nothing from Stopped; it changes no field of the engine other than
the transport state and the run state of the device, so two calls in a row
restore every engine field, and the whole context when the device was running
exactly while Playing and restarts. -/
theorem audio_toggle_pause_spec (s₁ s₂ : Bool) (ctx : AudioContext) :
    (audio_toggle_pause s₁ ctx).state =
        (match ctx.state with
          | AudioState.PLAYING => AudioState.PAUSED
          | AudioState.PAUSED => AudioState.PLAYING
          | AudioState.STOPPED => AudioState.STOPPED) ∧
      (ctx.state = AudioState.STOPPED → audio_toggle_pause s₁ ctx = ctx) ∧
      audio_toggle_pause s₁ ctx =
        { ctx with
          state := (audio_toggle_pause s₁ ctx).state,
          device_started := (audio_toggle_pause s₁ ctx).device_started } ∧
      audio_toggle_pause s₂ (audio_toggle_pause s₁ ctx) =
        { ctx with
          device_started :=
            (audio_toggle_pause s₂ (audio_toggle_pause s₁ ctx)).device_started } ∧
      (s₁ = true → s₂ = true →
        ctx.device_started = decide (ctx.state = AudioState.PLAYING) →
        audio_toggle_pause s₂ (audio_toggle_pause s₁ ctx) = ctx) := by
  cases ctx with
  | mk di ds fmt st fin sr ch ts sp vol fd ff vf vo buf rp wp cnt =>
    cases st <;> simp [audio_toggle_pause]
    intros; simp_all

/-! ## Rounding to binary64 -/

theorem round_half_even_ge_floor (x : ℚ) : ⌊x⌋ ≤ round_half_even x := by
  unfold round_half_even
  split_ifs <;> omega

theorem round_half_even_le_floor_succ (x : ℚ) : round_half_even x ≤ ⌊x⌋ + 1 := by
  unfold round_half_even
  split_ifs <;> omega

theorem round_half_even_ge_of_int_le (x : ℚ) (n : Int) (h : (n : ℚ) ≤ x) :
    n ≤ round_half_even x :=
  le_trans (Int.le_floor.mpr h) (round_half_even_ge_floor x)

theorem round_half_even_le_of_le_int (x : ℚ) (n : Int) (h : x ≤ (n : ℚ)) :
    round_half_even x ≤ n := by
  rcases eq_or_lt_of_le h with he | hlt
  · have hf : ⌊x⌋ = n := by rw [he]; exact Int.floor_intCast n
    unfold round_half_even
    have : x - (⌊x⌋ : ℚ) < 1 / 2 := by rw [hf, he]; norm_num
    rw [if_pos this, hf]
  · have : ⌊x⌋ < n := Int.floor_lt.mpr hlt
    have := round_half_even_le_floor_succ x
    omega

theorem double_ulp_exp_nonpos (x : ℚ) (h0 : 0 ≤ x) (h1 : x < 2 ^ 53) :
    double_ulp_exp x ≤ 0 := by
  unfold double_ulp_exp
  rw [abs_of_nonneg h0]
  rcases eq_or_lt_of_le h0 with he | hpos
  · rw [← he, Int.log_zero_right]
    decide
  · have : Int.log 2 x < 53 :=
      (Int.lt_zpow_iff_log_lt (by norm_num) hpos).mp (by exact_mod_cast h1)
    omega

theorem double_round_val_nonneg (x : ℚ) (h0 : 0 ≤ x) : 0 ≤ double_round_val x := by
  unfold double_round_val
  have hp : (0 : ℚ) < 2 ^ double_ulp_exp x := zpow_pos (by norm_num) _
  have hy : (0 : ℚ) ≤ x / 2 ^ double_ulp_exp x := div_nonneg h0 (le_of_lt hp)
  have : (0 : Int) ≤ round_half_even (x / 2 ^ double_ulp_exp x) :=
    round_half_even_ge_of_int_le _ 0 (by simpa using hy)
  have : (0 : ℚ) ≤ (round_half_even (x / 2 ^ double_ulp_exp x) : ℚ) := by exact_mod_cast this
  positivity

/-- An integer multiple of a unit that is a power of two with a non-positive
exponent: every integer is one. -/
theorem int_div_zpow_nonpos (n : Int) (e : Int) (he : e ≤ 0) :
    ∃ N : Int, (N : ℚ) = (n : ℚ) / 2 ^ e := by
  obtain ⟨k, hk⟩ : ∃ k : ℕ, e = -(k : Int) := ⟨e.natAbs, by omega⟩
  refine ⟨n * 2 ^ k, ?_⟩
  rw [hk, zpow_neg, zpow_natCast]
  push_cast
  field_simp

theorem double_round_val_ge_int (x : ℚ) (h0 : 0 ≤ x) (h1 : x < 2 ^ 53) (n : Int)
    (h : (n : ℚ) ≤ x) : (n : ℚ) ≤ double_round_val x := by
  have he := double_ulp_exp_nonpos x h0 h1
  have hp : (0 : ℚ) < 2 ^ double_ulp_exp x := zpow_pos (by norm_num) _
  obtain ⟨N, hN⟩ := int_div_zpow_nonpos n _ he
  have hle : (N : ℚ) ≤ x / 2 ^ double_ulp_exp x := by
    rw [hN]; exact div_le_div_of_nonneg_right h (le_of_lt hp)
  have hr := round_half_even_ge_of_int_le _ N hle
  have hr' : (N : ℚ) ≤ (round_half_even (x / 2 ^ double_ulp_exp x) : ℚ) := by exact_mod_cast hr
  unfold double_round_val
  calc (n : ℚ) = (N : ℚ) * 2 ^ double_ulp_exp x := by rw [hN]; field_simp
    _ ≤ _ := mul_le_mul_of_nonneg_right hr' (le_of_lt hp)

theorem double_round_val_le_int (x : ℚ) (h0 : 0 ≤ x) (h1 : x < 2 ^ 53) (n : Int)
    (h : x ≤ (n : ℚ)) : double_round_val x ≤ (n : ℚ) := by
  have he := double_ulp_exp_nonpos x h0 h1
  have hp : (0 : ℚ) < 2 ^ double_ulp_exp x := zpow_pos (by norm_num) _
  obtain ⟨N, hN⟩ := int_div_zpow_nonpos n _ he
  have hle : x / 2 ^ double_ulp_exp x ≤ (N : ℚ) := by
    rw [hN]; exact div_le_div_of_nonneg_right h (le_of_lt hp)
  have hr := round_half_even_le_of_le_int _ N hle
  have hr' : (round_half_even (x / 2 ^ double_ulp_exp x) : ℚ) ≤ (N : ℚ) := by exact_mod_cast hr
  unfold double_round_val
  calc _ ≤ (N : ℚ) * 2 ^ double_ulp_exp x := mul_le_mul_of_nonneg_right hr' (le_of_lt hp)
    _ = (n : ℚ) := by rw [hN]; field_simp

theorem double_round_val_int (n : Int) (h0 : 0 ≤ n) (h1 : (n : ℚ) < 2 ^ 53) :
    double_round_val (n : ℚ) = (n : ℚ) :=
  le_antisymm (double_round_val_le_int _ (by exact_mod_cast h0) h1 n le_rfl)
    (double_round_val_ge_int _ (by exact_mod_cast h0) h1 n le_rfl)

/-- Rounding does not go below a power of two of the normal range that the
value has reached. -/
theorem double_round_val_ge_zpow (x : ℚ) (k : Int) (hk : -1022 ≤ k) (h : 2 ^ k ≤ x) :
    (2 : ℚ) ^ k ≤ double_round_val x := by
  have hpos : (0 : ℚ) < x := lt_of_lt_of_le (zpow_pos (by norm_num) _) h
  have hL : k ≤ Int.log 2 x :=
    (Int.zpow_le_iff_le_log (by norm_num) hpos).mp (by exact_mod_cast h)
  have he : double_ulp_exp x = Int.log 2 x - 52 := by
    unfold double_ulp_exp
    rw [abs_of_pos hpos]
    omega
  have hp : (0 : ℚ) < 2 ^ (Int.log 2 x - 52) := zpow_pos (by norm_num) _
  have hself : (2 : ℚ) ^ Int.log 2 x ≤ x := by
    have := Int.zpow_log_le_self (b := 2) (r := x) (by norm_num) hpos
    exact_mod_cast this
  have hsplit : (2 : ℚ) ^ Int.log 2 x = 2 ^ (52 : Int) * 2 ^ (Int.log 2 x - 52) := by
    rw [← zpow_add₀ (by norm_num : (2 : ℚ) ≠ 0)]
    congr 1
    omega
  have hy : (((2 : Int) ^ 52 : Int) : ℚ) ≤ x / 2 ^ (Int.log 2 x - 52) := by
    rw [le_div_iff₀ hp]
    push_cast
    calc (2 : ℚ) ^ 52 * 2 ^ (Int.log 2 x - 52) = 2 ^ Int.log 2 x := by
          rw [hsplit]; norm_num
      _ ≤ x := hself
  have hr := round_half_even_ge_of_int_le _ _ hy
  have hr' : ((2 : ℚ) ^ (52 : Int)) ≤ (round_half_even (x / 2 ^ (Int.log 2 x - 52)) : ℚ) := by
    have : (((2 : Int) ^ 52 : Int) : ℚ) ≤
        (round_half_even (x / 2 ^ (Int.log 2 x - 52)) : ℚ) := by exact_mod_cast hr
    calc ((2 : ℚ) ^ (52 : Int)) = (((2 : Int) ^ 52 : Int) : ℚ) := by norm_num
      _ ≤ _ := this
  unfold double_round_val
  rw [he]
  calc (2 : ℚ) ^ k ≤ 2 ^ Int.log 2 x := zpow_le_zpow_right₀ (by norm_num) hL
    _ = 2 ^ (52 : Int) * 2 ^ (Int.log 2 x - 52) := hsplit
    _ ≤ (round_half_even (x / 2 ^ (Int.log 2 x - 52)) : ℚ) * 2 ^ (Int.log 2 x - 52) :=
        mul_le_mul_of_nonneg_right hr' (le_of_lt hp)

theorem double_round_val_ge_nat (x : ℚ) (h0 : 0 ≤ x) (n : Nat) (hn : n ≤ 2 ^ 53)
    (h : (n : ℚ) ≤ x) : (n : ℚ) ≤ double_round_val x := by
  by_cases hx : x < 2 ^ 53
  · exact double_round_val_ge_int x h0 hx (n : Int) (by exact_mod_cast h)
  · have := double_round_val_ge_zpow x 53 (by decide) (by exact_mod_cast not_lt.mp hx)
    have h53 : (2 : ℚ) ^ (53 : Int) = 2 ^ 53 := by norm_num
    have hn' : (n : ℚ) ≤ 2 ^ 53 := by exact_mod_cast hn
    linarith

theorem double_round_val_demo :
    double_round_val (4841369599423283 / 2 ^ 50 * 44100) = 189630 := by
  have hx0 : (0 : ℚ) < 4841369599423283 / 2 ^ 50 * 44100 := by norm_num
  have hlog : Int.log 2 (4841369599423283 / 2 ^ 50 * 44100 : ℚ) = 17 := by
    have h1 : (17 : Int) ≤ Int.log 2 (4841369599423283 / 2 ^ 50 * 44100 : ℚ) :=
      (Int.zpow_le_iff_le_log (by norm_num) hx0).mp (by norm_num)
    have h2 : Int.log 2 (4841369599423283 / 2 ^ 50 * 44100 : ℚ) < 18 :=
      (Int.lt_zpow_iff_log_lt (by norm_num) hx0).mp (by norm_num)
    omega
  have he : double_ulp_exp (4841369599423283 / 2 ^ 50 * 44100) = -35 := by
    unfold double_ulp_exp
    rw [abs_of_pos hx0, hlog]
    decide
  have hfl : ⌊(4841369599423283 / 2 ^ 50 * 44100 : ℚ) / 2 ^ (-35 : Int)⌋ =
      6515637186723839 := by
    rw [Int.floor_eq_iff]
    constructor <;> norm_num
  have hr : round_half_even ((4841369599423283 / 2 ^ 50 * 44100 : ℚ) / 2 ^ (-35 : Int)) =
      6515637186723840 := by
    unfold round_half_even
    rw [hfl]
    norm_num
  unfold double_round_val
  rw [he, hr]
  norm_num

theorem double_round_val_demo_20 :
    double_round_val (max (20 : ℚ) 0 * (ctx_mono_flac.sample_rate : ℚ)) = 882000 := by
  have hsr : ctx_mono_flac.sample_rate = 44100 := rfl
  have h : max (20 : ℚ) 0 * ((ctx_mono_flac.sample_rate : Nat) : ℚ) = ((882000 : Int) : ℚ) := by
    rw [hsr]; norm_num
  rw [h, double_round_val_int 882000 (by decide) (by norm_num)]
  norm_num

theorem double_round_val_demo_large :
    double_round_val (5 * 2 ^ 54 + 20) = 5 * 2 ^ 54 + 16 := by
  have hx0 : (0 : ℚ) < 5 * 2 ^ 54 + 20 := by norm_num
  have hlog : Int.log 2 (5 * 2 ^ 54 + 20 : ℚ) = 56 := by
    have h1 : (56 : Int) ≤ Int.log 2 (5 * 2 ^ 54 + 20 : ℚ) :=
      (Int.zpow_le_iff_le_log (by norm_num) hx0).mp (by norm_num)
    have h2 : Int.log 2 (5 * 2 ^ 54 + 20 : ℚ) < 57 :=
      (Int.lt_zpow_iff_log_lt (by norm_num) hx0).mp (by norm_num)
    omega
  have he : double_ulp_exp (5 * 2 ^ 54 + 20) = 4 := by
    unfold double_ulp_exp
    rw [abs_of_pos hx0, hlog]
    decide
  have hfl : ⌊(5 * 2 ^ 54 + 20 : ℚ) / 2 ^ (4 : Int)⌋ = 5 * 2 ^ 50 + 1 := by
    rw [Int.floor_eq_iff]
    constructor <;> norm_num
  have hr : round_half_even ((5 * 2 ^ 54 + 20 : ℚ) / 2 ^ (4 : Int)) = 5 * 2 ^ 50 + 1 := by
    unfold round_half_even
    rw [hfl]
    norm_num
  unfold double_round_val
  rw [he, hr]
  norm_num

/-! ## Transport: seek -/

theorem audio_seek_flac_eq (nat : SeekNative) (ctx : AudioContext) (position : F32)
    (hs : ctx.state ≠ AudioState.STOPPED) (hf : ctx.format = AudioFormat.FLAC) :
    audio_seek nat ctx position =
      if (nat.flac_seek_absolute
          (seek_sample_pos nat.conv_undefined ctx (clamp_position position))).ok = true then
        (true, { flac_deliver
            (nat.flac_seek_absolute
              (seek_sample_pos nat.conv_undefined ctx (clamp_position position))).frame
            (seek_flac_ready ctx (nat.flac_seek_absolute
              (seek_sample_pos nat.conv_undefined ctx (clamp_position position))).rest) with
          samples_played := seek_sample_pos nat.conv_undefined ctx (clamp_position position),
          finished := false })
      else
        (false, flac_deliver
          (nat.flac_seek_absolute
            (seek_sample_pos nat.conv_undefined ctx (clamp_position position))).frame
          (seek_flac_ready ctx (nat.flac_seek_absolute
            (seek_sample_pos nat.conv_undefined ctx (clamp_position position))).rest)) := by
  unfold audio_seek
  simp only [hs, hf, if_false, if_true]
  cases (nat.flac_seek_absolute
    (seek_sample_pos nat.conv_undefined ctx (clamp_position position))).ok <;> simp

theorem audio_seek_vorbis_eq (nat : SeekNative) (ctx : AudioContext) (position : F32)
    (hs : ctx.state ≠ AudioState.STOPPED) (hf : ctx.format = AudioFormat.VORBIS) :
    audio_seek nat ctx position =
      if (nat.ov_time_seek (clamp_position position)).1 ≠ 0 then
        (false, { clear_buffer ctx with
          vorbis_file := (nat.ov_time_seek (clamp_position position)).2 })
      else
        (true, { clear_buffer ctx with
          vorbis_file := (nat.ov_time_seek (clamp_position position)).2,
          samples_played := double_to_uint64 nat.conv_undefined
            (double_mul (clamp_position position) (F32.ofInt ctx.sample_rate)),
          finished := false }) := by
  unfold audio_seek
  simp only [hs, hf, if_false]
  rfl

theorem audio_seek_unknown_eq (nat : SeekNative) (ctx : AudioContext) (position : F32)
    (hs : ctx.state ≠ AudioState.STOPPED) (hf : ctx.format = AudioFormat.UNKNOWN) :
    audio_seek nat ctx position = (true, { clear_buffer ctx with finished := false }) := by
  unfold audio_seek
  simp [hs, hf]

/-- C13 (as amended): from every state that is not Stopped, `audio_seek`
first clears the buffer; when it returns the read cursor is 0, and the write
cursor and the count are 0 too unless the source is FLAC and libFLAC handed a
frame to the write callback during the seek, in which case they and the
stored samples are what `flac_write_callback` made of that frame in the
cleared buffer.  A failed seek returns false with `samples_played` and
`finished` unchanged; every successful seek clears `finished`. -/
theorem audio_seek_buffer (nat : SeekNative) (ctx : AudioContext) (position : F32)
    (hs : ctx.state ≠ AudioState.STOPPED) :
    (audio_seek nat ctx position).2.buffer_read_pos = 0 ∧
      ((ctx.format ≠ AudioFormat.FLAC ∨
          (nat.flac_seek_absolute
            (seek_sample_pos nat.conv_undefined ctx (clamp_position position))).frame = none) →
        (audio_seek nat ctx position).2.buffer_write_pos = 0 ∧
          (audio_seek nat ctx position).2.buffer_count = 0) ∧
      (∀ frame, ctx.format = AudioFormat.FLAC →
        (nat.flac_seek_absolute
          (seek_sample_pos nat.conv_undefined ctx (clamp_position position))).frame =
            some frame →
        (audio_seek nat ctx position).2.buffer_write_pos =
            (flac_write_callback frame (seek_flac_ready ctx (nat.flac_seek_absolute
              (seek_sample_pos nat.conv_undefined ctx
                (clamp_position position))).rest)).buffer_write_pos ∧
          (audio_seek nat ctx position).2.buffer_count =
            (flac_write_callback frame (seek_flac_ready ctx (nat.flac_seek_absolute
              (seek_sample_pos nat.conv_undefined ctx
                (clamp_position position))).rest)).buffer_count ∧
          (audio_seek nat ctx position).2.buffer =
            (flac_write_callback frame (seek_flac_ready ctx (nat.flac_seek_absolute
              (seek_sample_pos nat.conv_undefined ctx
                (clamp_position position))).rest)).buffer) ∧
      ((audio_seek nat ctx position).1 = false →
        (audio_seek nat ctx position).2.samples_played = ctx.samples_played ∧
          (audio_seek nat ctx position).2.finished = ctx.finished) ∧
      ((audio_seek nat ctx position).1 = true →
        (audio_seek nat ctx position).2.finished = false) := by
  by_cases hf : ctx.format = AudioFormat.FLAC
  · rw [audio_seek_flac_eq nat ctx position hs hf]
    generalize nat.flac_seek_absolute
      (seek_sample_pos nat.conv_undefined ctx (clamp_position position)) = r
    have hsame := flac_deliver_same r.frame (seek_flac_ready ctx r.rest)
    obtain ⟨h1, h2, -, -, -, -, h7, -⟩ := hsame
    have hrp : (flac_deliver r.frame (seek_flac_ready ctx r.rest)).buffer_read_pos = 0 := h7
    have hsp : (flac_deliver r.frame (seek_flac_ready ctx r.rest)).samples_played =
        ctx.samples_played := h2
    have hfin : (flac_deliver r.frame (seek_flac_ready ctx r.rest)).finished =
        ctx.finished := h1
    by_cases hok : r.ok = true
    · rw [if_pos hok]
      refine ⟨hrp, ?_, ?_, fun h => by simp at h, fun _ => rfl⟩
      · rintro (h | h)
        · exact absurd hf h
        · rw [h]; exact ⟨rfl, rfl⟩
      · intro frame _ hfr
        rw [hfr]
        exact ⟨rfl, rfl, rfl⟩
    · rw [if_neg hok]
      refine ⟨hrp, ?_, ?_, fun _ => ⟨hsp, hfin⟩, fun h => by simp at h⟩
      · rintro (h | h)
        · exact absurd hf h
        · rw [h]; exact ⟨rfl, rfl⟩
      · intro frame _ hfr
        rw [hfr]
        exact ⟨rfl, rfl, rfl⟩
  · by_cases hv : ctx.format = AudioFormat.VORBIS
    · rw [audio_seek_vorbis_eq nat ctx position hs hv]
      by_cases hr : (nat.ov_time_seek (clamp_position position)).1 ≠ 0
      · rw [if_pos hr]
        exact ⟨rfl, fun _ => ⟨rfl, rfl⟩, fun _ h => absurd h hf, fun _ => ⟨rfl, rfl⟩,
          fun h => by simp at h⟩
      · rw [if_neg hr]
        exact ⟨rfl, fun _ => ⟨rfl, rfl⟩, fun _ h => absurd h hf, fun h => by simp at h,
          fun _ => rfl⟩
    · have hu : ctx.format = AudioFormat.UNKNOWN := by
        cases hfmt : ctx.format <;> simp_all
      rw [audio_seek_unknown_eq nat ctx position hs hu]
      exact ⟨rfl, fun _ => ⟨rfl, rfl⟩, fun _ h => absurd h hf, fun h => by simp at h,
        fun _ => rfl⟩

/-- Witness for C13: a seek in a playing mono Vorbis engine. -/
theorem audio_seek_buffer_witness :
    (ctx_mono_vorbis [[100, 200]]).state ≠ AudioState.STOPPED ∧
      (audio_seek seek_native_demo (ctx_mono_vorbis [[100, 200]]) F32.zero).2.buffer_read_pos =
        0 :=
  ⟨by decide,
    (audio_seek_buffer seek_native_demo (ctx_mono_vorbis [[100, 200]]) F32.zero
      (by decide)).1⟩

/-- C13 fails as stated: a successful FLAC seek during which libFLAC hands
the two-sample mono frame `frame_mono_demo` to the write callback returns
true with four samples in the buffer. -/
theorem audio_seek_flac_counterexample :
    ctx_mono_flac.state ≠ AudioState.STOPPED ∧
      (audio_seek seek_native_demo ctx_mono_flac F32.zero).1 = true ∧
      (audio_seek seek_native_demo ctx_mono_flac F32.zero).2.buffer_count = 4 ∧
      (audio_seek seek_native_demo ctx_mono_flac F32.zero).2.buffer_write_pos = 4 := by
  have hs : ctx_mono_flac.state ≠ AudioState.STOPPED := by decide
  refine ⟨hs, ?_⟩
  rw [audio_seek_flac_eq seek_native_demo ctx_mono_flac F32.zero hs rfl]
  exact ⟨rfl, rfl, rfl⟩

theorem clamp_position_fin (q : ℚ) : clamp_position (F32.fin q) = F32.fin (max q 0) := by
  unfold clamp_position F32.lt F32.zero
  by_cases h : q < 0
  · simp [h, max_eq_right (le_of_lt h)]
  · simp [h, max_eq_left (not_lt.mp h)]

theorem double_round_of_lt (x : ℚ) (h0 : 0 ≤ x) (h : double_round_val x < 2 ^ 64) :
    double_round x = F32.fin (double_round_val x) := by
  unfold double_round
  have hn := double_round_val_nonneg x h0
  rw [abs_of_nonneg hn, if_neg]
  have : (2 : ℚ) ^ 64 ≤ 2 ^ 1024 := by norm_num
  linarith

theorem double_to_uint64_round (undef : Nat) (x : ℚ) (h0 : 0 ≤ x)
    (h : double_round_val x < 2 ^ 64) :
    double_to_uint64 undef (double_round x) = Int.toNat ⌊double_round_val x⌋ := by
  rw [double_round_of_lt x h0 h]
  have hn := double_round_val_nonneg x h0
  have hlow : (-1 : ℚ) < double_round_val x := by linarith
  unfold double_to_uint64
  simp only []
  rw [if_pos ⟨hlow, h⟩]

theorem double_to_uint64_round_large (undef : Nat) (x : ℚ)
    (h : 2 ^ 64 ≤ double_round_val x) :
    double_to_uint64 undef (double_round x) = undef % 2 ^ 64 := by
  unfold double_round
  by_cases hb : (2 : ℚ) ^ 1024 ≤ |double_round_val x|
  · rw [if_pos hb]
    rfl
  · rw [if_neg hb]
    unfold double_to_uint64
    simp only []
    rw [if_neg]
    intro hc
    linarith [hc.2]

theorem seek_sample_pos_defined (undef : Nat) (ctx : AudioContext) (q : ℚ)
    (hr : double_round_val (max q 0 * (ctx.sample_rate : ℚ)) < 2 ^ 64) :
    seek_sample_pos undef ctx (clamp_position (F32.fin q)) =
      seek_index_spec ctx.sample_rate ctx.total_samples q := by
  have h0 : (0 : ℚ) ≤ max q 0 * (ctx.sample_rate : ℚ) :=
    mul_nonneg (le_max_right q 0) (Nat.cast_nonneg _)
  have hmul : double_mul (F32.fin (max q 0)) (F32.ofInt (ctx.sample_rate : Int)) =
      double_round (max q 0 * (ctx.sample_rate : ℚ)) := by
    show double_round (max q 0 * (((ctx.sample_rate : Int) : ℚ))) = _
    rw [Int.cast_natCast]
  have hconv : double_to_uint64 undef
      (double_mul (F32.fin (max q 0)) (F32.ofInt (ctx.sample_rate : Int))) =
      Int.toNat ⌊double_round_val (max q 0 * (ctx.sample_rate : ℚ))⌋ := by
    rw [hmul, double_to_uint64_round undef _ h0 hr]
  unfold seek_sample_pos seek_index_spec
  rw [clamp_position_fin, hconv]
  generalize Int.toNat ⌊double_round_val (max q 0 * (ctx.sample_rate : ℚ))⌋ = n
  by_cases hn : n < ctx.total_samples
  · have : ¬ n ≥ ctx.total_samples := by omega
    simp [hn, this]
  · have h1 : n ≥ ctx.total_samples := by omega
    by_cases ht : ctx.total_samples = 0
    · simp [hn, h1, ht]
    · have : ctx.total_samples > 0 := by omega
      simp [hn, h1, ht, this]

/-- C14 (as amended): for every FLAC state that is not Stopped and every
finite position of `q` seconds (negative `q` treated as 0) whose
double-precision product `p` with the sample rate (the exact product rounded
to the nearest binary64 value) is below `2 ^ 64`, `audio_seek` asks libFLAC
for the index `floor(p)` when that is below `total_samples` and for
`total_samples - 1` (0 when `total_samples` is 0) otherwise; it returns what
the native seek returns, and on success `samples_played` is that index.  So
whenever `floor(p)` is not below `total_samples` the index is
`total_samples - 1`, and that is the case for every position at or beyond the
duration when `total_samples` is at most `2 ^ 53`.  For an exact product
below `2 ^ 53`, `floor(p)` is the floor of the exact product or one more. -/
theorem audio_seek_flac_index (nat : SeekNative) (ctx : AudioContext) (q : ℚ)
    (hs : ctx.state ≠ AudioState.STOPPED) (hf : ctx.format = AudioFormat.FLAC)
    (hr : double_round_val (max q 0 * (ctx.sample_rate : ℚ)) < 2 ^ 64) :
    seek_sample_pos nat.conv_undefined ctx (clamp_position (F32.fin q)) =
        seek_index_spec ctx.sample_rate ctx.total_samples q ∧
      (audio_seek nat ctx (F32.fin q)).1 =
        (nat.flac_seek_absolute
          (seek_index_spec ctx.sample_rate ctx.total_samples q)).ok ∧
      ((nat.flac_seek_absolute
          (seek_index_spec ctx.sample_rate ctx.total_samples q)).ok = true →
        (audio_seek nat ctx (F32.fin q)).2.samples_played =
          seek_index_spec ctx.sample_rate ctx.total_samples q) ∧
      (ctx.total_samples ≤
          Int.toNat ⌊double_round_val (max q 0 * (ctx.sample_rate : ℚ))⌋ →
        0 < ctx.total_samples →
        seek_index_spec ctx.sample_rate ctx.total_samples q = ctx.total_samples - 1) ∧
      (ctx.total_samples ≤ 2 ^ 53 →
        (ctx.total_samples : ℚ) ≤ max q 0 * (ctx.sample_rate : ℚ) →
        ctx.total_samples ≤
          Int.toNat ⌊double_round_val (max q 0 * (ctx.sample_rate : ℚ))⌋) ∧
      (max q 0 * (ctx.sample_rate : ℚ) < 2 ^ 53 →
        Int.toNat ⌊max q 0 * (ctx.sample_rate : ℚ)⌋ ≤
            Int.toNat ⌊double_round_val (max q 0 * (ctx.sample_rate : ℚ))⌋ ∧
          Int.toNat ⌊double_round_val (max q 0 * (ctx.sample_rate : ℚ))⌋ ≤
            Int.toNat ⌊max q 0 * (ctx.sample_rate : ℚ)⌋ + 1) := by
  have hidx := seek_sample_pos_defined nat.conv_undefined ctx q hr
  have h0 : (0 : ℚ) ≤ max q 0 * (ctx.sample_rate : ℚ) :=
    mul_nonneg (le_max_right q 0) (Nat.cast_nonneg _)
  refine ⟨hidx, ?_, ?_, ?_, ?_, ?_⟩
  · rw [audio_seek_flac_eq nat ctx (F32.fin q) hs hf, hidx]
    by_cases hok : (nat.flac_seek_absolute
        (seek_index_spec ctx.sample_rate ctx.total_samples q)).ok = true
    · rw [if_pos hok, hok]
    · rw [if_neg hok]
      simpa using hok
  · intro hok
    rw [audio_seek_flac_eq nat ctx (F32.fin q) hs hf, hidx, if_pos hok]
  · intro h1 h2
    unfold seek_index_spec
    rw [if_neg (by omega), if_neg (by omega)]
  · intro ht hle
    have hge := double_round_val_ge_nat _ h0 ctx.total_samples ht hle
    have : ((ctx.total_samples : Int) : ℚ) ≤
        double_round_val (max q 0 * (ctx.sample_rate : ℚ)) := by exact_mod_cast hge
    have := Int.le_floor.mpr this
    omega
  · intro hlt
    have hf0 : (0 : Int) ≤ ⌊max q 0 * (ctx.sample_rate : ℚ)⌋ := Int.floor_nonneg.mpr h0
    have hlo := double_round_val_ge_int _ h0 hlt ⌊max q 0 * (ctx.sample_rate : ℚ)⌋
      (Int.floor_le _)
    have hhi := double_round_val_le_int _ h0 hlt (⌊max q 0 * (ctx.sample_rate : ℚ)⌋ + 1)
      (by push_cast; exact le_of_lt (Int.lt_floor_add_one _))
    have h1 := Int.le_floor.mpr hlo
    have h2 : ⌊double_round_val (max q 0 * (ctx.sample_rate : ℚ))⌋ ≤
        ⌊max q 0 * (ctx.sample_rate : ℚ)⌋ + 1 := by
      have := Int.floor_le_floor hhi
      rwa [Int.floor_intCast] at this
    omega

/-- Witness for C14: a seek to 20 seconds in a 10-second mono FLAC stream
lands on the last sample, 440999. -/
theorem audio_seek_flac_index_witness :
    ctx_mono_flac.state ≠ AudioState.STOPPED ∧
      ctx_mono_flac.format = AudioFormat.FLAC ∧
      double_round_val (max (20 : ℚ) 0 * (ctx_mono_flac.sample_rate : ℚ)) < 2 ^ 64 ∧
      (audio_seek seek_native_demo ctx_mono_flac (F32.fin 20)).1 = true ∧
      (audio_seek seek_native_demo ctx_mono_flac (F32.fin 20)).2.samples_played =
        seek_index_spec ctx_mono_flac.sample_rate ctx_mono_flac.total_samples 20 ∧
      seek_index_spec ctx_mono_flac.sample_rate ctx_mono_flac.total_samples 20 = 440999 :=
  ⟨by decide, rfl, double_round_val_demo_20.trans_lt (by norm_num),
    (audio_seek_flac_index seek_native_demo ctx_mono_flac 20 (by decide) rfl
      (double_round_val_demo_20.trans_lt (by norm_num))).2.1,
    (audio_seek_flac_index seek_native_demo ctx_mono_flac 20 (by decide) rfl
      (double_round_val_demo_20.trans_lt (by norm_num))).2.2.1 rfl,
    (audio_seek_flac_index seek_native_demo ctx_mono_flac 20 (by decide) rfl
      (double_round_val_demo_20.trans_lt (by norm_num))).2.2.2.1
      (by rw [double_round_val_demo_20]; decide) (by decide)⟩

/-- C14 fails as stated: the `double` nearest to 4.3 is a little below 4.3, so
the floor of its exact product with 44100 is 189629; the product the code
computes is rounded to 189630.0, and a successful seek to that position sets
`samples_played` to 189630. -/
theorem audio_seek_rounded_product_counterexample :
    ctx_mono_flac.state ≠ AudioState.STOPPED ∧
      ctx_mono_flac.format = AudioFormat.FLAC ∧
      ctx_mono_flac.sample_rate = 44100 ∧ ctx_mono_flac.total_samples = 441000 ∧
      Int.toNat ⌊double_4_3 * 44100⌋ = 189629 ∧
      seek_sample_pos seek_native_demo.conv_undefined ctx_mono_flac
        (clamp_position (F32.fin double_4_3)) = 189630 ∧
      (audio_seek seek_native_demo ctx_mono_flac (F32.fin double_4_3)).1 = true ∧
      (audio_seek seek_native_demo ctx_mono_flac (F32.fin double_4_3)).2.samples_played =
        189630 := by
  have hs : ctx_mono_flac.state ≠ AudioState.STOPPED := by decide
  have hm : max double_4_3 0 * ((ctx_mono_flac.sample_rate : Nat) : ℚ) =
      4841369599423283 / 2 ^ 50 * 44100 := by
    have hsr : ctx_mono_flac.sample_rate = 44100 := rfl
    rw [hsr]
    unfold double_4_3
    norm_num
  have hidx : seek_sample_pos seek_native_demo.conv_undefined ctx_mono_flac
      (clamp_position (F32.fin double_4_3)) = 189630 := by
    rw [seek_sample_pos_defined _ _ _ (by rw [hm, double_round_val_demo]; norm_num)]
    unfold seek_index_spec
    rw [hm, double_round_val_demo]
    have hts : ctx_mono_flac.total_samples = 441000 := rfl
    rw [hts]
    norm_num
    rfl
  have hfl : Int.toNat ⌊double_4_3 * 44100⌋ = 189629 := by
    have : ⌊double_4_3 * 44100⌋ = 189629 := by
      rw [Int.floor_eq_iff]
      unfold double_4_3
      constructor <;> norm_num
    rw [this]
    rfl
  refine ⟨hs, rfl, rfl, rfl, hfl, hidx, ?_, ?_⟩
  · rw [audio_seek_flac_eq seek_native_demo ctx_mono_flac _ hs rfl]
    rfl
  · rw [audio_seek_flac_eq seek_native_demo ctx_mono_flac _ hs rfl, hidx]
    rfl

/-- The other way in which C14 fails as stated: for a position of `2 ^ 64`
seconds the product with the sample rate does not fit `uint64_t` and the
conversion is undefined; where it yields 0 (as on x86-64) the seek in the
10-second stream goes to sample 0 and `samples_played` becomes 0, not
`total_samples - 1 = 440999`. -/
theorem audio_seek_undefined_conversion_counterexample :
    ctx_mono_flac.state ≠ AudioState.STOPPED ∧
      ctx_mono_flac.format = AudioFormat.FLAC ∧ ctx_mono_flac.total_samples = 441000 ∧
      (audio_seek seek_native_demo ctx_mono_flac (F32.fin (2 ^ 64))).1 = true ∧
      (audio_seek seek_native_demo ctx_mono_flac (F32.fin (2 ^ 64))).2.samples_played = 0 := by
  have hs : ctx_mono_flac.state ≠ AudioState.STOPPED := by decide
  have hidx : seek_sample_pos seek_native_demo.conv_undefined ctx_mono_flac
      (clamp_position (F32.fin (2 ^ 64))) = 0 := by
    rw [clamp_position_fin]
    have hm : max ((2 : ℚ) ^ 64) 0 = 2 ^ 64 := max_eq_left (by positivity)
    have hmul : double_mul (F32.fin (2 ^ 64)) (F32.ofInt (ctx_mono_flac.sample_rate : Int)) =
        double_round (2 ^ 64 * 44100) := by
      show double_round (2 ^ 64 * (((44100 : Nat) : Int) : ℚ)) = _
      norm_num
    have hbig : (2 : ℚ) ^ 64 ≤ double_round_val (2 ^ 64 * 44100) := by
      have := double_round_val_ge_zpow (2 ^ 64 * 44100) 64 (by decide) (by norm_num)
      exact_mod_cast this
    unfold seek_sample_pos
    rw [hm, hmul, double_to_uint64_round_large _ _ hbig]
    rfl
  refine ⟨hs, rfl, rfl, ?_, ?_⟩
  · rw [audio_seek_flac_eq seek_native_demo ctx_mono_flac _ hs rfl]
    rfl
  · rw [audio_seek_flac_eq seek_native_demo ctx_mono_flac _ hs rfl, hidx]
    rfl

/-- The bound on `total_samples` in the last-but-one part of C14 is needed: in
a 5 Hz stream of `5 * 2 ^ 54 + 19` samples the position `2 ^ 54 + 4` is beyond
the duration (the exact product is `5 * 2 ^ 54 + 20`), but the product is
rounded to `5 * 2 ^ 54 + 16`, which is below `total_samples`, so the index is
not replaced and is `total_samples - 3`. -/
theorem audio_seek_beyond_duration_large_total :
    (ctx_flac_large.total_samples : ℚ) <
        max ((2 : ℚ) ^ 54 + 4) 0 * (ctx_flac_large.sample_rate : ℚ) ∧
      seek_sample_pos seek_native_demo.conv_undefined ctx_flac_large
        (clamp_position (F32.fin (2 ^ 54 + 4))) = ctx_flac_large.total_samples - 3 := by
  have hsr : ctx_flac_large.sample_rate = 5 := rfl
  have hts : ctx_flac_large.total_samples = 5 * 2 ^ 54 + 19 := rfl
  have hm : max ((2 : ℚ) ^ 54 + 4) 0 * ((ctx_flac_large.sample_rate : Nat) : ℚ) =
      5 * 2 ^ 54 + 20 := by
    rw [hsr, max_eq_left (by positivity)]
    norm_num
  refine ⟨by rw [hm, hts]; norm_num, ?_⟩
  rw [seek_sample_pos_defined _ _ _ (by rw [hm, double_round_val_demo_large]; norm_num)]
  unfold seek_index_spec
  rw [hm, double_round_val_demo_large, hts]
  norm_num
  rfl

/-! ## Source properties after stop -/

/-- C15, the code on a reachable state with no source open: a mono 44100 Hz
Vorbis file is played from the initial engine, one frame is rendered, and
`audio_stop` is called.  The format is then UNKNOWN, but `sample_rate` is
still 44100, `channels` is still 1 and `samples_played` is still 1, so
`audio_get_position` and `audio_get_duration` are not 0. -/
theorem audio_stop_keeps_source_properties :
    ∃ r, audio_callback 2
        (audio_play_file (native_vorbis 44100 1 [[100, 200]]) ctx_init a_ogg).2
        (fun _ => none) 1 = some r ∧
      Reachable (audio_stop r.1) ∧
      (audio_stop r.1).format = AudioFormat.UNKNOWN ∧
      (audio_stop r.1).flac_decoder = none ∧ (audio_stop r.1).vorbis_open = false ∧
      (audio_stop r.1).sample_rate = 44100 ∧ (audio_stop r.1).channels = 1 ∧
      (audio_stop r.1).samples_played = 1 ∧
      audio_get_position (audio_stop r.1) ≠ F32.zero ∧
      audio_get_duration (audio_stop r.1) ≠ F32.zero := by
  have hcall : ∃ r, audio_callback 2
      (audio_play_file (native_vorbis 44100 1 [[100, 200]]) ctx_init a_ogg).2
      (fun _ => none) 1 = some r ∧
      (audio_stop r.1).sample_rate = 44100 ∧ (audio_stop r.1).channels = 1 ∧
      (audio_stop r.1).samples_played = 1 ∧ (audio_stop r.1).total_samples = 2 :=
    ⟨_, rfl, rfl, rfl, rfl, rfl⟩
  obtain ⟨r, hr, h1, h2, h3, h4⟩ := hcall
  obtain ⟨-, b, c, -, e, -⟩ := audio_stop_fields r.1
  refine ⟨r, hr, ?_, b, c, e, h1, h2, h3, ?_, ?_⟩
  · exact Reachable.stop _ (Reachable.render 2 1 _ _ r
      (Reachable.play _ _ _ Reachable.init) hr)
  · unfold audio_get_position
    rw [h1, h3]
    simp [F32.div, F32.ofInt, F32.zero]
  · unfold audio_get_duration
    rw [h1, h4]
    simp [F32.div, F32.ofInt, F32.zero]

/-! ## Codec A: the scale factor -/

theorem flac_scale_eq (b : Nat) (h1 : 1 ≤ b) (h31 : b ≤ 31) :
    flac_scale b = F32.fin (1 / 2 ^ (b - 1)) := by
  have hsh : (b + (2 ^ 32 - 1)) % 2 ^ 32 = b - 1 := by omega
  have hmod : (b - 1) % 32 = b - 1 := by omega
  have hlt : 2 ^ (b - 1) < 2 ^ 31 := Nat.pow_lt_pow_right (by norm_num) (by omega)
  have hne : ((2 : ℚ) ^ (b - 1)) ≠ 0 := by positivity
  unfold flac_scale int_shl_one
  simp only [hsh, hmod, hlt, if_true]
  unfold F32.div F32.one F32.ofInt
  simp [hne]

/-- C19, the code at the failing input: for `bits_per_sample = 32` the
32-bit `1 << 31` is `-2 ^ 31`, so the scale factor is `-1 / 2 ^ 31` instead of
`1 / 2 ^ 31`, and a positive native sample such as `2 ^ 30` is mapped to the
negative value `-1/2`. -/
theorem flac_scale_32_negative :
    int_shl_one ((32 + (2 ^ 32 - 1)) % 2 ^ 32) = -(2 ^ 31) ∧
      flac_scale 32 = F32.fin (-(1 / 2 ^ 31)) ∧
      F32.mul (F32.ofInt (2 ^ 30)) (flac_scale 32) = F32.fin (-(1 / 2)) := by
  have h1 : int_shl_one ((32 + (2 ^ 32 - 1)) % 2 ^ 32) = -(2 ^ 31) := by decide
  have h2 : flac_scale 32 = F32.fin (-(1 / 2 ^ 31)) := by
    unfold flac_scale
    rw [h1]
    unfold F32.div F32.one F32.ofInt
    norm_num
  refine ⟨h1, h2, ?_⟩
  rw [h2]
  unfold F32.mul F32.ofInt
  norm_num

/-! ## Playlist: the next track -/

theorem IsShuffleOrder.range {n : Nat} {order : Nat → Int} (h : IsShuffleOrder n order)
    (i : Nat) (hi : i < n) : 0 ≤ order i ∧ order i < (n : Int) := by
  have hmem : order i ∈ (List.range n).map order :=
    List.mem_map_of_mem order (List.mem_range.mpr hi)
  have hmem' : order i ∈ (List.range n).map (fun (i : Nat) => (i : Int)) :=
    (List.Perm.mem_iff h).mp hmem
  obtain ⟨k, hk, hke⟩ := List.mem_map.mp hmem'
  have hk' : k < n := List.mem_range.mp hk
  have hke' : (k : Int) = order i := hke
  omega

/-- C16: `playlist_next_track` leaves the playlist as it is; it returns -1
when the playlist is empty or no track is current; and when `current` and
`shuffle_pos` are in `[0, count)` and `shuffle_order` is a permutation of
`0..count-1`, the result is -1 or an index in `[0, count)`, it is `current`
under REPEAT_ONE, and at the end of the sequential or shuffled order it is -1
under REPEAT_OFF and the first entry of the order under REPEAT_ALL. -/
theorem playlist_next_track_spec (pl : Playlist) :
    (playlist_next_track pl).2 = pl ∧
      ((pl.count = 0 ∨ pl.current < 0) → (playlist_next_track pl).1 = -1) ∧
      (0 ≤ pl.current → pl.current < pl.count →
        IsShuffleOrder pl.count.toNat pl.shuffle_order →
        0 ≤ pl.shuffle_pos → pl.shuffle_pos < pl.count →
        ((playlist_next_track pl).1 = -1 ∨
            (0 ≤ (playlist_next_track pl).1 ∧ (playlist_next_track pl).1 < pl.count)) ∧
          (pl.repeat_mode = RepeatMode.REPEAT_ONE →
            (playlist_next_track pl).1 = pl.current) ∧
          (pl.repeat_mode = RepeatMode.REPEAT_OFF → pl.shuffle = false →
            pl.current = pl.count - 1 → (playlist_next_track pl).1 = -1) ∧
          (pl.repeat_mode = RepeatMode.REPEAT_ALL → pl.shuffle = false →
            pl.current = pl.count - 1 → (playlist_next_track pl).1 = 0) ∧
          (pl.repeat_mode = RepeatMode.REPEAT_OFF → pl.shuffle = true →
            pl.shuffle_pos = pl.count - 1 → (playlist_next_track pl).1 = -1) ∧
          (pl.repeat_mode = RepeatMode.REPEAT_ALL → pl.shuffle = true →
            pl.shuffle_pos = pl.count - 1 →
            (playlist_next_track pl).1 = pl.shuffle_order 0)) := by
  refine ⟨?_, ?_, ?_⟩
  · unfold playlist_next_track next_from_order
    simp only []
    repeat' split
    all_goals rfl
  · intro h
    unfold playlist_next_track
    rw [if_pos h]
  · intro hc0 hc1 hperm hs0 hs1
    have hguard : ¬ (pl.count = 0 ∨ pl.current < 0) := by omega
    have hord : ∀ p : Int, 0 ≤ p → p < pl.count →
        0 ≤ pl.shuffle_order p.toNat ∧ pl.shuffle_order p.toNat < pl.count := by
      intro p hp0 hp1
      have := hperm.range p.toNat (by omega)
      omega
    have hfrom : ∀ p : Int, 0 ≤ p → p < pl.count →
        next_from_order pl p = (pl.shuffle_order p.toNat, pl) := by
      intro p hp0 hp1
      have := hord p hp0 hp1
      unfold next_from_order
      rw [if_neg (by omega)]
      simp only []
      rw [if_neg (by omega)]
    have hfrom0 := hfrom 0 (by omega) (by omega)
    have hord0 := hord 0 (by omega) (by omega)
    simp only [Int.toNat_zero] at hfrom0 hord0
    unfold playlist_next_track
    rw [if_neg hguard]
    by_cases hone : pl.repeat_mode = RepeatMode.REPEAT_ONE
    · rw [if_pos hone]
      refine ⟨Or.inr ⟨hc0, hc1⟩, fun _ => rfl, ?_, ?_, ?_, ?_⟩ <;>
        (intro h; rw [hone] at h; cases h)
    · rw [if_neg hone]
      by_cases hsh : pl.shuffle = true
      · rw [if_pos hsh]
        simp only []
        by_cases hend : pl.shuffle_pos + 1 ≥ pl.count
        · rw [if_pos hend]
          by_cases hall : pl.repeat_mode = RepeatMode.REPEAT_ALL
          · rw [if_pos hall, hfrom0]
            refine ⟨Or.inr hord0, fun h => absurd h hone, ?_, ?_, ?_, fun _ _ _ => rfl⟩
            · intro h; rw [hall] at h; cases h
            · intro _ h; rw [hsh] at h; cases h
            · intro h; rw [hall] at h; cases h
          · rw [if_neg hall]
            refine ⟨Or.inl rfl, fun h => absurd h hone, fun _ _ _ => rfl,
              fun h => absurd h hall, fun _ _ _ => rfl, fun h => absurd h hall⟩
        · rw [if_neg hend, hfrom _ (by omega) (by omega)]
          have := hord (pl.shuffle_pos + 1) (by omega) (by omega)
          refine ⟨Or.inr this, fun h => absurd h hone, ?_, ?_, ?_, ?_⟩
          · intro _ h; rw [hsh] at h; cases h
          · intro _ h; rw [hsh] at h; cases h
          · intro _ _ h; omega
          · intro _ _ h; omega
      · rw [if_neg hsh]
        simp only []
        by_cases hend : pl.current + 1 ≥ pl.count
        · rw [if_pos hend]
          by_cases hall : pl.repeat_mode = RepeatMode.REPEAT_ALL
          · rw [if_pos hall]
            refine ⟨Or.inr ⟨by simp, by show (0 : Int) < pl.count; omega⟩,
              fun h => absurd h hone, ?_, fun _ _ _ => rfl, ?_, ?_⟩
            · intro h; rw [hall] at h; cases h
            · intro _ h; exact absurd h hsh
            · intro _ h; exact absurd h hsh
          · rw [if_neg hall]
            refine ⟨Or.inl rfl, fun h => absurd h hone, fun _ _ _ => rfl,
              fun h => absurd h hall, fun _ h => absurd h hsh, fun h => absurd h hall⟩
        · rw [if_neg hend]
          refine ⟨Or.inr ⟨by show 0 ≤ pl.current + 1; omega,
            by show pl.current + 1 < pl.count; omega⟩, fun h => absurd h hone, ?_, ?_, ?_, ?_⟩
          · intro _ _ h; omega
          · intro _ _ h; omega
          · intro _ h; exact absurd h hsh
          · intro _ h; exact absurd h hsh

/-- Witness for C16: three tracks, shuffled order 2, 0, 1 with the cursor at
its end, repeat-all: the next track is the first entry of the order, 2. -/
theorem playlist_next_track_spec_witness :
    0 ≤ playlist_demo.current ∧ playlist_demo.current < playlist_demo.count ∧
      IsShuffleOrder playlist_demo.count.toNat playlist_demo.shuffle_order ∧
      0 ≤ playlist_demo.shuffle_pos ∧ playlist_demo.shuffle_pos < playlist_demo.count ∧
      (playlist_next_track playlist_demo).1 = 2 :=
  ⟨by decide, by decide, by unfold IsShuffleOrder; decide, by decide, by decide,
    ((playlist_next_track_spec playlist_demo).2.2 (by decide) (by decide)
      (by unfold IsShuffleOrder; decide) (by decide) (by decide)).2.2.2.2.2 rfl rfl rfl⟩

/-! ## Playlist: the shuffle order -/

theorem init_order_loop_spec (count : Nat) (hc : count ≤ PLAYLIST_MAX_TRACKS) (n : Nat) :
    ∀ (i : Nat) (order : Nat → Int), i + n ≤ count →
      ∃ order', init_order_loop count n i order = some order' ∧
        (∀ k, i ≤ k → k < i + n → order' k = (k : Int)) ∧
        (∀ k, k < i → order' k = order k) := by
  induction n with
  | zero =>
    intro i order _
    exact ⟨order, rfl, fun k h1 h2 => by omega, fun _ _ => rfl⟩
  | succ n ih =>
    intro i order h
    have hw : order_write count order i (i : Int) = some (Function.update order i (i : Int)) := by
      unfold order_write
      rw [if_pos ⟨by omega, by omega⟩]
    obtain ⟨order', h1, h2, h3⟩ := ih (i + 1) (Function.update order i (i : Int)) (by omega)
    refine ⟨order', ?_, ?_, ?_⟩
    · rw [init_order_loop, hw]
      exact h1
    · intro k hk1 hk2
      rcases Nat.eq_or_lt_of_le hk1 with hk | hk
      · subst hk
        rw [h3 i (by omega)]
        simp
      · exact h2 k (by omega) (by omega)
    · intro k hk
      rw [h3 k (by omega), Function.update_noteq (by omega)]

theorem swap_step_eq (count : Nat) (hc : count ≤ PLAYLIST_MAX_TRACKS) (order : Nat → Int)
    (i j : Nat) (hi : i < count) (hj : j < count) :
    swap_step count order i j = some (order ∘ Equiv.swap i j) := by
  have hr : ∀ (o : Nat → Int) (k : Nat), k < count → order_read count o k = some (o k) := by
    intro o k hk
    unfold order_read
    rw [if_pos ⟨hk, by omega⟩]
  have hw : ∀ (o : Nat → Int) (k : Nat) (v : Int), k < count →
      order_write count o k v = some (Function.update o k v) := by
    intro o k v hk
    unfold order_write
    rw [if_pos ⟨hk, by omega⟩]
  unfold swap_step
  rw [hr order i hi, hr order j hj]
  simp only []
  rw [hw order i _ hi]
  simp only []
  rw [hw _ j _ hj]
  congr 1
  funext k
  simp only [Function.comp_apply]
  by_cases hkj : k = j
  · subst hkj
    simp
  · by_cases hki : k = i
    · subst hki
      rw [Function.update_noteq hkj, Function.update_same, Equiv.swap_apply_left]
    · rw [Function.update_noteq hkj, Function.update_noteq hki,
        Equiv.swap_apply_of_ne_of_ne hki hkj]

theorem IsShuffleOrder.swap {count : Nat} {order : Nat → Int}
    (h : IsShuffleOrder count order) (i j : Nat) (hi : i < count) (hj : j < count) :
    IsShuffleOrder count (order ∘ Equiv.swap i j) := by
  have hperm : ((List.range count).map (Equiv.swap i j)).Perm (List.range count) := by
    refine (List.perm_ext_iff_of_nodup ?_ (List.nodup_range count)).mpr ?_
    · exact (List.nodup_range count).map (Equiv.swap i j).injective
    · intro a
      simp only [List.mem_map, List.mem_range]
      constructor
      · rintro ⟨b, hb, rfl⟩
        by_cases hbi : b = i
        · subst hbi; rw [Equiv.swap_apply_left]; exact hj
        · by_cases hbj : b = j
          · subst hbj; rw [Equiv.swap_apply_right]; exact hi
          · rw [Equiv.swap_apply_of_ne_of_ne hbi hbj]; exact hb
      · intro ha
        refine ⟨Equiv.swap i j a, ?_, Equiv.swap_apply_self i j a⟩
        by_cases hai : a = i
        · subst hai; rw [Equiv.swap_apply_left]; exact hj
        · by_cases haj : a = j
          · subst haj; rw [Equiv.swap_apply_right]; exact hi
          · rw [Equiv.swap_apply_of_ne_of_ne hai haj]; exact ha
  unfold IsShuffleOrder at h ⊢
  have h1 : (List.range count).map (order ∘ Equiv.swap i j) =
      ((List.range count).map (Equiv.swap i j)).map order := by
    rw [List.map_map]
  rw [h1]
  exact (hperm.map order).trans h

theorem fisher_yates_loop_spec (count : Nat) (hc : count ≤ PLAYLIST_MAX_TRACKS)
    (rand : Nat → Nat) (i : Nat) :
    ∀ (k : Nat) (order : Nat → Int), (i < count ∨ i = 0) → IsShuffleOrder count order →
      ∃ order', fisher_yates_loop count rand i k order = some order' ∧
        IsShuffleOrder count order' := by
  induction i with
  | zero =>
    intro k order _ h
    exact ⟨order, rfl, h⟩
  | succ i ih =>
    intro k order hi h
    have hi' : i + 1 < count := by omega
    have hj : rand k % (i + 1 + 1) < count := by
      have := Nat.mod_lt (rand k) (show 0 < i + 1 + 1 by omega)
      omega
    obtain ⟨order', h1, h2⟩ := ih (k + 1) (order ∘ Equiv.swap (i + 1) (rand k % (i + 1 + 1)))
      (Or.inl (by omega)) (h.swap _ _ hi' hj)
    refine ⟨order', ?_, h2⟩
    rw [fisher_yates_loop, swap_step_eq count hc order _ _ hi' hj]
    exact h1

/-- C20: for every playlist with `0 <= count <= 256` and every sequence of
values returned by `rand()`, `generate_shuffle_order` uses no index outside
`[0, count)`, leaves in `shuffle_order[0..count-1]` a permutation of
`0..count-1`, sets `shuffle_pos` to 0 and changes nothing else. -/
theorem generate_shuffle_order_perm (rand : Nat → Nat) (pl : Playlist)
    (h0 : 0 ≤ pl.count) (h256 : pl.count ≤ 256) :
    ∃ pl', generate_shuffle_order rand pl = some pl' ∧
      IsShuffleOrder pl.count.toNat pl'.shuffle_order ∧ pl'.shuffle_pos = 0 ∧
      pl' = { pl with shuffle_order := pl'.shuffle_order, shuffle_pos := 0 } := by
  have hc : pl.count.toNat ≤ PLAYLIST_MAX_TRACKS := by
    unfold PLAYLIST_MAX_TRACKS; omega
  obtain ⟨o1, e1, p1, -⟩ :=
    init_order_loop_spec pl.count.toNat hc pl.count.toNat 0 pl.shuffle_order (by omega)
  have hid : IsShuffleOrder pl.count.toNat o1 := by
    unfold IsShuffleOrder
    have : (List.range pl.count.toNat).map o1 =
        (List.range pl.count.toNat).map (fun (i : Nat) => (i : Int)) := by
      apply List.map_congr_left
      intro k hk
      exact p1 k (Nat.zero_le _) (by simpa using List.mem_range.mp hk)
    rw [this]
  obtain ⟨o2, e2, p2⟩ := fisher_yates_loop_spec pl.count.toNat hc rand
    (pl.count.toNat - 1) 0 o1 (by omega) hid
  refine ⟨{ pl with shuffle_order := o2, shuffle_pos := 0 }, ?_, p2, rfl, rfl⟩
  unfold generate_shuffle_order
  rw [e1]
  simp only []
  rw [e2]

/-- Witness for C20: the three-track playlist `playlist_demo` with `rand()`
returning 7 every time. -/
theorem generate_shuffle_order_perm_witness :
    0 ≤ playlist_demo.count ∧ playlist_demo.count ≤ 256 ∧
      ∃ pl', generate_shuffle_order (fun _ => 7) playlist_demo = some pl' ∧
        IsShuffleOrder playlist_demo.count.toNat pl'.shuffle_order ∧ pl'.shuffle_pos = 0 :=
  ⟨by decide, by decide,
    (generate_shuffle_order_perm (fun _ => 7) playlist_demo (by decide) (by decide)).elim
      (fun pl' h => ⟨pl', h.1, h.2.1, h.2.2.1⟩)⟩

/-! ## The ring buffer invariant -/

theorem store_pair_fields (ctx : AudioContext) (v0 v1 : F32) :
    ({ buffer_store (buffer_store ctx v0) v1 with
        buffer_count := ctx.buffer_count + 2 } : AudioContext).buffer_write_pos =
        (ctx.buffer_write_pos + 2) % AUDIO_BUFFER_SIZE := by
  show ((ctx.buffer_write_pos + 1) % AUDIO_BUFFER_SIZE + 1) % AUDIO_BUFFER_SIZE = _
  unfold AUDIO_BUFFER_SIZE; omega

theorem flac_store_fields (frame : FlacFrame) (scale : F32) (i : Nat) (ctx : AudioContext) :
    (flac_store frame scale i ctx).buffer_read_pos = ctx.buffer_read_pos ∧
      (flac_store frame scale i ctx).channels = ctx.channels ∧
      (flac_store frame scale i ctx).format = ctx.format ∧
      ((ctx.channels = 0 ∧
          (flac_store frame scale i ctx).buffer_write_pos = ctx.buffer_write_pos ∧
          (flac_store frame scale i ctx).buffer_count = ctx.buffer_count) ∨
        ((flac_store frame scale i ctx).buffer_write_pos =
            (ctx.buffer_write_pos + 2) % AUDIO_BUFFER_SIZE ∧
          (flac_store frame scale i ctx).buffer_count = ctx.buffer_count + 2)) := by
  by_cases hch : 1 ≤ ctx.channels
  · rw [flac_store_two frame scale i ctx hch]
    exact ⟨rfl, rfl, rfl, Or.inr ⟨store_pair_fields ctx _ _, rfl⟩⟩
  · have h0 : ctx.channels = 0 := by omega
    have he : flac_store frame scale i ctx = ctx := by
      unfold flac_store
      simp [h0]
    rw [he]
    exact ⟨rfl, rfl, rfl, Or.inl ⟨h0, rfl, rfl⟩⟩

theorem flac_write_loop_ring (frame : FlacFrame) (scale : F32) (n : Nat) :
    ∀ (i : Nat) (ctx : AudioContext),
      (flac_write_loop frame scale n i ctx).format = ctx.format ∧
        (RingCore ctx → RingCore (flac_write_loop frame scale n i ctx)) ∧
        (RingSync ctx → RingSync (flac_write_loop frame scale n i ctx)) := by
  induction n with
  | zero => intro i ctx; exact ⟨rfl, id, id⟩
  | succ n ih =>
    intro i ctx
    by_cases hfull : ctx.buffer_count ≥ AUDIO_BUFFER_SIZE - 2
    · have he : flac_write_loop frame scale (n + 1) i ctx = ctx := by
        rw [flac_write_loop]; simp [hfull]
      rw [he]
      exact ⟨rfl, id, id⟩
    · have he : flac_write_loop frame scale (n + 1) i ctx =
          flac_write_loop frame scale n (i + 1) (flac_store frame scale i ctx) := by
        rw [flac_write_loop]; simp [hfull]
      rw [he]
      obtain ⟨h1, h2, h3⟩ := ih (i + 1) (flac_store frame scale i ctx)
      obtain ⟨f1, -, f3, f4⟩ := flac_store_fields frame scale i ctx
      refine ⟨h1.trans f3, fun hc => h2 ?_, fun hs => h3 ?_⟩
      · unfold RingCore AUDIO_BUFFER_SIZE at hc ⊢
        unfold AUDIO_BUFFER_SIZE at hfull f4
        rw [f1]
        rcases f4 with ⟨-, g1, g2⟩ | ⟨g1, g2⟩ <;> rw [g1, g2] <;> omega
      · unfold RingSync AUDIO_BUFFER_SIZE at hs ⊢
        unfold AUDIO_BUFFER_SIZE at f4
        rw [f1]
        rcases f4 with ⟨-, g1, g2⟩ | ⟨g1, g2⟩ <;> rw [g1, g2] <;> omega

theorem flac_deliver_ring (frame : Option FlacFrame) (ctx : AudioContext) :
    (flac_deliver frame ctx).format = ctx.format ∧
      (RingCore ctx → RingCore (flac_deliver frame ctx)) ∧
      (RingSync ctx → RingSync (flac_deliver frame ctx)) := by
  unfold flac_deliver
  split
  · unfold flac_write_callback
    rename_i f
    by_cases hz : ctx.sample_rate = 0
    · simp only [hz, if_true]
      obtain ⟨h1, h2, h3⟩ := flac_write_loop_ring f (flac_scale f.bits_per_sample) f.blocksize 0
        { ctx with sample_rate := f.sample_rate, channels := f.channels }
      exact ⟨h1, fun hc => h2 hc, fun hs => h3 hs⟩
    · simp only [hz, if_false]
      exact flac_write_loop_ring f (flac_scale f.bits_per_sample) f.blocksize 0 ctx
  · exact ⟨rfl, id, id⟩

theorem vorbis_store_fields (s : Int) (ctx : AudioContext) :
    (vorbis_store s ctx).buffer_read_pos = ctx.buffer_read_pos ∧
      (vorbis_store s ctx).channels = ctx.channels ∧
      (vorbis_store s ctx).format = ctx.format ∧
      ((ctx.channels = 1 ∧
          (vorbis_store s ctx).buffer_write_pos =
            (ctx.buffer_write_pos + 2) % AUDIO_BUFFER_SIZE ∧
          (vorbis_store s ctx).buffer_count = ctx.buffer_count + 2) ∨
        (ctx.channels ≠ 1 ∧
          (vorbis_store s ctx).buffer_write_pos =
            (ctx.buffer_write_pos + 1) % AUDIO_BUFFER_SIZE ∧
          (vorbis_store s ctx).buffer_count = ctx.buffer_count + 1)) := by
  by_cases hch : ctx.channels = 1
  · rw [vorbis_store_mono s ctx hch]
    exact ⟨rfl, rfl, rfl, Or.inl ⟨hch, store_pair_fields ctx _ _, rfl⟩⟩
  · have he : vorbis_store s ctx =
        { buffer_store ctx (vorbis_sample s) with buffer_count := ctx.buffer_count + 1 } := by
      unfold vorbis_store
      simp [hch, buffer_store]
    rw [he]
    exact ⟨rfl, rfl, rfl, Or.inr ⟨hch, rfl, rfl⟩⟩

theorem vorbis_store_ring (s : Int) (ctx : AudioContext)
    (hroom : ¬ ctx.buffer_count ≥ AUDIO_BUFFER_SIZE) :
    (RingCore ctx → MonoEven ctx →
        RingCore (vorbis_store s ctx) ∧ MonoEven (vorbis_store s ctx)) ∧
      (RingSync ctx → RingSync (vorbis_store s ctx)) := by
  obtain ⟨f1, f2, -, f4⟩ := vorbis_store_fields s ctx
  unfold RingCore RingSync MonoEven AUDIO_BUFFER_SIZE
  unfold AUDIO_BUFFER_SIZE at hroom f4
  rw [f1, f2]
  constructor
  · intro hc he
    rcases f4 with ⟨g0, g1, g2⟩ | ⟨g0, g1, g2⟩
    · have := he g0
      rw [g1, g2]
      refine ⟨⟨hc.1, by omega, by omega⟩, fun _ => by omega⟩
    · rw [g1, g2]
      exact ⟨⟨hc.1, by omega, by omega⟩, fun h => absurd h g0⟩
  · intro hs
    rcases f4 with ⟨-, g1, g2⟩ | ⟨-, g1, g2⟩ <;> rw [g1, g2] <;> omega

theorem vorbis_convert_loop_ring_aux (n : Nat) :
    ∀ (chunk : List Int) (ctx : AudioContext), chunk.length ≤ n →
      (RingCore ctx → MonoEven ctx →
          RingCore (vorbis_convert_loop chunk ctx) ∧
            MonoEven (vorbis_convert_loop chunk ctx)) ∧
        (RingSync ctx → RingSync (vorbis_convert_loop chunk ctx)) := by
  induction n with
  | zero =>
    intro chunk ctx h
    have : chunk = [] := List.length_eq_zero.mp (by omega)
    subst this
    exact ⟨fun a b => ⟨a, b⟩, id⟩
  | succ n ih =>
    intro chunk ctx h
    match chunk, h with
    | [], _ => exact ⟨fun a b => ⟨a, b⟩, id⟩
    | [s], _ =>
      by_cases hfull : ctx.buffer_count ≥ AUDIO_BUFFER_SIZE
      · have hstep : vorbis_convert_loop [s] ctx = ctx := by
          rw [vorbis_convert_loop]; simp [hfull]
        rw [hstep]
        exact ⟨fun a b => ⟨a, b⟩, id⟩
      · have hstep : vorbis_convert_loop [s] ctx = vorbis_store s ctx := by
          rw [vorbis_convert_loop]; simp [hfull]
        rw [hstep]
        exact vorbis_store_ring s ctx hfull
    | s :: t :: rest, h =>
      simp only [List.length_cons] at h
      by_cases hfull : ctx.buffer_count ≥ AUDIO_BUFFER_SIZE
      · have hstep : vorbis_convert_loop (s :: t :: rest) ctx = ctx := by
          rw [vorbis_convert_loop]; simp [hfull]
        rw [hstep]
        exact ⟨fun a b => ⟨a, b⟩, id⟩
      · obtain ⟨s1, s2⟩ := vorbis_store_ring s ctx hfull
        by_cases hch : ctx.channels = 1
        · have hstep : vorbis_convert_loop (s :: t :: rest) ctx =
              vorbis_convert_loop rest (vorbis_store s ctx) := by
            rw [vorbis_convert_loop]; simp [hfull, hch]
          rw [hstep]
          obtain ⟨i1, i2⟩ := ih rest (vorbis_store s ctx) (by omega)
          exact ⟨fun a b => i1 (s1 a b).1 (s1 a b).2, fun a => i2 (s2 a)⟩
        · have hstep : vorbis_convert_loop (s :: t :: rest) ctx =
              vorbis_convert_loop (t :: rest) (vorbis_store s ctx) := by
            rw [vorbis_convert_loop]; simp [hfull, hch]
          rw [hstep]
          obtain ⟨i1, i2⟩ := ih (t :: rest) (vorbis_store s ctx) (by simp; omega)
          exact ⟨fun a b => i1 (s1 a b).1 (s1 a b).2, fun a => i2 (s2 a)⟩

theorem decode_flac_samples_ring (ctx : AudioContext) (hfmt : ctx.format ≠ AudioFormat.VORBIS)
    (h : RingInv ctx) : RingInv (decode_flac_samples ctx).2 := by
  have keep : ∀ c : AudioContext, c.format = ctx.format → (RingCore ctx → RingCore c) →
      (RingSync ctx → RingSync c) → RingInv c := by
    intro c hf hc hs
    refine ⟨hc h.1, fun hv => absurd (hf ▸ hv) hfmt, fun hu => hs (h.2.2 (hf ▸ hu))⟩
  cases hd : ctx.flac_decoder with
  | none =>
    have he : decode_flac_samples ctx = (false, ctx) := by
      unfold decode_flac_samples; simp only [hd]
    rw [he]; exact h
  | some steps =>
    cases steps with
    | nil =>
      have he : decode_flac_samples ctx = (false, ctx) := by
        unfold decode_flac_samples; simp only [hd]
      rw [he]; exact h
    | cons step rest =>
      rw [decode_flac_samples_cons ctx step rest hd]
      obtain ⟨d1, d2, d3⟩ := flac_deliver_ring step.frame { ctx with flac_decoder := some rest }
      exact keep _ d1 (fun hc => d2 hc) (fun hs => d3 hs)

theorem decode_vorbis_samples_ring (ctx : AudioContext)
    (hfmt : ctx.format = AudioFormat.VORBIS) (h : RingInv ctx) :
    RingInv (decode_vorbis_samples ctx).2 := by
  obtain ⟨hc, he, hs⟩ := h
  have hsync : RingSync ctx := hs (by rw [hfmt]; decide)
  by_cases ho : ctx.vorbis_open = true
  · rcases hf : ctx.vorbis_file with _ | ⟨chunk, rest⟩
    · rw [decode_vorbis_samples_closed ctx (Or.inr hf)]
      exact ⟨hc, he, hs⟩
    · rw [decode_vorbis_samples_cons ctx chunk rest ho hf]
      by_cases hl : chunk.length = 0
      · rw [if_pos hl]
        exact ⟨hc, he, hs⟩
      · rw [if_neg hl]
        obtain ⟨r1, r2⟩ := vorbis_convert_loop_ring_aux chunk.length chunk
          { ctx with vorbis_file := rest } (Nat.le_refl _)
        have hsame := vorbis_convert_loop_same chunk { ctx with vorbis_file := rest }
        obtain ⟨c1, c2⟩ := r1 hc (he hfmt)
        exact ⟨c1, fun _ => c2, fun _ => r2 hsync⟩
  · rw [decode_vorbis_samples_closed ctx (Or.inl (by simpa using ho))]
    exact ⟨hc, he, hs⟩

theorem decode_step_ring (ctx : AudioContext) (h : RingInv ctx) :
    RingInv (decode_step ctx).2 := by
  unfold decode_step
  by_cases h1 : ctx.format = AudioFormat.FLAC
  · simp only [h1, if_true]
    exact decode_flac_samples_ring ctx (by rw [h1]; decide) h
  · by_cases h2 : ctx.format = AudioFormat.VORBIS
    · simp only [h1, h2, if_true, if_false]
      exact decode_vorbis_samples_ring ctx h2 h
    · simp only [h1, h2, if_false]
      exact h

theorem refill_ring (ctx : AudioContext) (h : RingInv ctx) : RingInv (refill ctx).2 := by
  unfold refill
  split
  · exact decode_step_ring ctx h
  · exact h

theorem copy_pass_ring (F fw : Nat) (ctx : AudioContext) (out : Output) (h : RingInv ctx) :
    RingInv (copy_pass F fw ctx out).1 := by
  obtain ⟨⟨hc1, hc2, hc3⟩, he, hs⟩ := h
  have heven : (F - fw) * 2 % 2 ^ 32 % 2 = 0 := by omega
  generalize hm : (F - fw) * 2 % 2 ^ 32 = m at heven
  generalize hn : (if ctx.buffer_count < m then ctx.buffer_count else m) = n
  have hn3 : n ≤ ctx.buffer_count := by rw [← hn]; split <;> omega
  have hn4 : n = ctx.buffer_count ∨ n % 2 = 0 := by
    rw [← hn]; split
    · exact Or.inl rfl
    · exact Or.inr heven
  obtain ⟨h1, -⟩ := copy_loop_spec (fw * 2 % 2 ^ 32) n 0 ctx out hc1
  have hpass : (copy_pass F fw ctx out).1 =
      { ctx with
        buffer_read_pos := (ctx.buffer_read_pos + n) % AUDIO_BUFFER_SIZE,
        buffer_count := ctx.buffer_count - n,
        samples_played := ctx.samples_played + n / 2 } := by
    unfold copy_pass
    simp only [hm, hn, h1]
  rw [hpass]
  refine ⟨?_, ?_, ?_⟩
  · unfold RingCore AUDIO_BUFFER_SIZE at *
    exact ⟨by show (ctx.buffer_read_pos + n) % 16384 < 16384; omega, hc2,
      by show ctx.buffer_count - n ≤ 16384; omega⟩
  · intro hv hch
    have := he hv hch
    show (ctx.buffer_count - n) % 2 = 0
    rcases hn4 with h | h <;> omega
  · intro hu
    have := hs hu
    unfold RingSync AUDIO_BUFFER_SIZE at *
    show ((ctx.buffer_read_pos + n) % 16384 + (ctx.buffer_count - n)) % 16384 =
      ctx.buffer_write_pos
    omega

theorem audio_callback_loop_ring (F : Nat) :
    ∀ (fuel : Nat) (ctx : AudioContext) (out : Output) (fw : Nat)
      (r : AudioContext × Output), RingInv ctx →
      audio_callback_loop F fuel ctx out fw = some r → RingInv r.1 := by
  intro fuel
  induction fuel with
  | zero => intro ctx out fw r _ h; simp [audio_callback_loop] at h
  | succ fuel ih =>
    intro ctx out fw r hinv h
    rw [audio_callback_loop] at h
    by_cases hlt : fw < F
    · simp only [hlt, not_true_eq_false, if_false] at h
      have hre := refill_ring ctx hinv
      by_cases hst : (refill ctx).1 = true
      · simp only [hst, if_true, Option.some.injEq] at h
        rw [← h]
        exact hre
      · simp only [hst, if_false, Bool.false_eq_true] at h
        exact ih _ _ _ r (copy_pass_ring F fw _ out hre) h
    · simp only [hlt, not_false_eq_true, if_true, Option.some.injEq] at h
      rw [← h]
      exact hinv

theorem audio_stop_ring (ctx : AudioContext) (h : RingCore ctx) : RingInv (audio_stop ctx) := by
  have hf : (audio_stop ctx).format = AudioFormat.UNKNOWN := (audio_stop_fields ctx).2.1
  have hcnt : (audio_stop ctx).buffer_count = 0 := (audio_stop_fields ctx).2.2.2.2.2
  have hrp : (audio_stop ctx).buffer_read_pos = ctx.buffer_read_pos := by
    unfold audio_stop
    by_cases h1 : ctx.state = AudioState.STOPPED <;>
      cases h2 : ctx.flac_decoder <;> cases h3 : ctx.flac_file <;>
      cases h4 : ctx.vorbis_open <;> simp [h1, h2, h3, h4]
  have hwp : (audio_stop ctx).buffer_write_pos = ctx.buffer_write_pos := by
    unfold audio_stop
    by_cases h1 : ctx.state = AudioState.STOPPED <;>
      cases h2 : ctx.flac_decoder <;> cases h3 : ctx.flac_file <;>
      cases h4 : ctx.vorbis_open <;> simp [h1, h2, h3, h4]
  refine ⟨?_, fun hv => ?_, fun hu => absurd hf hu⟩
  · unfold RingCore at h ⊢
    rw [hrp, hwp, hcnt]
    exact ⟨h.1, h.2.1, Nat.zero_le _⟩
  · rw [hf] at hv; cases hv

theorem reset_ring (ctx : AudioContext) :
    RingInv { ctx with
      buffer_read_pos := 0, buffer_write_pos := 0, buffer_count := 0,
      samples_played := 0, finished := false } := by
  refine ⟨⟨?_, ?_, ?_⟩, fun _ _ => rfl, fun _ => rfl⟩ <;>
    simp [AUDIO_BUFFER_SIZE]

theorem RingInv.intro {ctx : AudioContext} (hc : RingCore ctx)
    (he : ctx.format = AudioFormat.VORBIS → MonoEven ctx)
    (hs : ctx.format ≠ AudioFormat.UNKNOWN → RingSync ctx) : RingInv ctx :=
  ⟨hc, he, hs⟩

theorem RingInv.of_unknown {ctx : AudioContext} (hc : RingCore ctx)
    (hf : ctx.format = AudioFormat.UNKNOWN) : RingInv ctx := by
  refine RingInv.intro hc ?_ ?_
  · intro hv; rw [hf] at hv; cases hv
  · intro hn; exact absurd hf hn

theorem open_flac_format (nat : Native) (ctx : AudioContext)
    (hu : ctx.format = AudioFormat.UNKNOWN) (h : RingInv ctx) :
    ((open_flac nat ctx).1 = true → (open_flac nat ctx).2.format = AudioFormat.FLAC) ∧
      ((open_flac nat ctx).1 = false → RingInv (open_flac nat ctx).2) := by
  by_cases h1 : nat.fopen_ok = true
  · by_cases h2 : nat.flac_new_ok = true
    · by_cases h3 : nat.flac_init_ok = true
      · have he : (open_flac nat ctx).1 = true ∧
            (open_flac nat ctx).2.format = AudioFormat.FLAC := by
          unfold open_flac
          simp [h1, h2, h3]
        exact ⟨fun _ => he.2, fun hc => by rw [he.1] at hc; cases hc⟩
      · have he : open_flac nat ctx =
            (false, { ctx with flac_decoder := none, flac_file := false }) := by
          unfold open_flac
          simp [h1, h2, h3]
        rw [he]
        exact ⟨fun hc => (by cases hc), fun _ => RingInv.of_unknown h.1 hu⟩
    · have he : open_flac nat ctx =
          (false, { ctx with flac_decoder := none, flac_file := false }) := by
        unfold open_flac
        simp [h1, h2]
      rw [he]
      exact ⟨fun hc => (by cases hc), fun _ => RingInv.of_unknown h.1 hu⟩
  · have he : open_flac nat ctx = (false, { ctx with flac_file := false }) := by
      unfold open_flac
      simp [h1]
    rw [he]
    exact ⟨fun hc => (by cases hc), fun _ => RingInv.of_unknown h.1 hu⟩

theorem open_vorbis_format (nat : Native) (ctx : AudioContext) (h : RingInv ctx) :
    ((open_vorbis nat ctx).1 = true → (open_vorbis nat ctx).2.format = AudioFormat.VORBIS) ∧
      ((open_vorbis nat ctx).1 = false → RingInv (open_vorbis nat ctx).2) := by
  by_cases h1 : nat.ov_fopen_ok = true
  · cases h2 : nat.ov_info with
    | none =>
      have he : open_vorbis nat ctx = (false, ctx) := by
        unfold open_vorbis
        simp [h1, h2]
      rw [he]
      exact ⟨fun hc => (by cases hc), fun _ => h⟩
    | some info =>
      have he : (open_vorbis nat ctx).1 = true ∧
          (open_vorbis nat ctx).2.format = AudioFormat.VORBIS := by
        unfold open_vorbis
        simp [h1, h2]
      exact ⟨fun _ => he.2, fun hc => by rw [he.1] at hc; cases hc⟩
  · have he : open_vorbis nat ctx = (false, ctx) := by
      unfold open_vorbis
      simp [h1]
    rw [he]
    exact ⟨fun hc => (by cases hc), fun _ => h⟩

theorem play_tail_ring (start_ok : Bool) (ctx : AudioContext)
    (hfmt : ctx.format = AudioFormat.FLAC ∨ ctx.format = AudioFormat.VORBIS) :
    RingInv
      (if !start_ok then
        (false, audio_stop
          (if ({ ctx with
              buffer_read_pos := 0, buffer_write_pos := 0, buffer_count := 0,
              samples_played := 0, finished := false } : AudioContext).format =
                AudioFormat.FLAC then
            (decode_flac_samples { ctx with
              buffer_read_pos := 0, buffer_write_pos := 0, buffer_count := 0,
              samples_played := 0, finished := false }).2
          else (decode_vorbis_samples { ctx with
              buffer_read_pos := 0, buffer_write_pos := 0, buffer_count := 0,
              samples_played := 0, finished := false }).2))
      else
        (true, { (if ({ ctx with
              buffer_read_pos := 0, buffer_write_pos := 0, buffer_count := 0,
              samples_played := 0, finished := false } : AudioContext).format =
                AudioFormat.FLAC then
            (decode_flac_samples { ctx with
              buffer_read_pos := 0, buffer_write_pos := 0, buffer_count := 0,
              samples_played := 0, finished := false }).2
          else (decode_vorbis_samples { ctx with
              buffer_read_pos := 0, buffer_write_pos := 0, buffer_count := 0,
              samples_played := 0, finished := false }).2) with
          device_started := true, state := AudioState.PLAYING })).2 := by
  have hreset := reset_ring ctx
  generalize hR : ({ ctx with
      buffer_read_pos := 0, buffer_write_pos := 0, buffer_count := 0,
      samples_played := 0, finished := false } : AudioContext) = R at hreset
  have hRf : R.format = ctx.format := by rw [← hR]
  have hD : RingInv (if R.format = AudioFormat.FLAC then (decode_flac_samples R).2
      else (decode_vorbis_samples R).2) := by
    by_cases hf : R.format = AudioFormat.FLAC
    · rw [if_pos hf]
      exact decode_flac_samples_ring R (by rw [hf]; decide) hreset
    · rw [if_neg hf]
      have hv : R.format = AudioFormat.VORBIS := by
        rw [hRf] at hf ⊢
        rcases hfmt with h | h
        · exact absurd h hf
        · exact h
      exact decode_vorbis_samples_ring R hv hreset
  generalize (if R.format = AudioFormat.FLAC then (decode_flac_samples R).2
      else (decode_vorbis_samples R).2) = D at hD
  cases start_ok
  · exact audio_stop_ring D hD.1
  · exact hD

theorem audio_play_file_ring (nat : Native) (ctx : AudioContext) (path : List Nat)
    (h : RingInv ctx) : RingInv (audio_play_file nat ctx path).2 := by
  have hS := audio_stop_ring ctx h.1
  have hSf : (audio_stop ctx).format = AudioFormat.UNKNOWN := (audio_stop_fields ctx).2.1
  unfold audio_play_file
  simp only []
  by_cases hu : detect_format path = AudioFormat.UNKNOWN
  · rw [if_pos hu]
    exact hS
  · rw [if_neg hu]
    by_cases hf : detect_format path = AudioFormat.FLAC
    · simp only [hf, if_true]
      obtain ⟨o1, o2⟩ := open_flac_format nat (audio_stop ctx) hSf hS
      by_cases hok : (open_flac nat (audio_stop ctx)).1 = true
      · simp only [hok, Bool.not_true, Bool.false_eq_true, if_false]
        exact play_tail_ring nat.device_start_ok _ (Or.inl (o1 hok))
      · have hok' : (open_flac nat (audio_stop ctx)).1 = false := by simpa using hok
        simp only [hok', Bool.not_false, if_true]
        exact o2 hok'
    · have hv : detect_format path = AudioFormat.VORBIS := by
        cases hd : detect_format path <;> simp_all
      simp only [hv, if_true, if_false, reduceCtorEq]
      obtain ⟨o1, o2⟩ := open_vorbis_format nat (audio_stop ctx) hS
      by_cases hok : (open_vorbis nat (audio_stop ctx)).1 = true
      · simp only [hok, Bool.not_true, Bool.false_eq_true, if_false]
        exact play_tail_ring nat.device_start_ok _ (Or.inr (o1 hok))
      · have hok' : (open_vorbis nat (audio_stop ctx)).1 = false := by simpa using hok
        simp only [hok', Bool.not_false, if_true]
        exact o2 hok'

theorem audio_seek_ring (nat : SeekNative) (ctx : AudioContext) (position : F32)
    (h : RingInv ctx) : RingInv (audio_seek nat ctx position).2 := by
  have hclear : RingCore (clear_buffer ctx) ∧ RingSync (clear_buffer ctx) := by
    refine ⟨⟨?_, ?_, ?_⟩, rfl⟩ <;> simp [clear_buffer, AUDIO_BUFFER_SIZE]
  by_cases hs : ctx.state = AudioState.STOPPED
  · have he : audio_seek nat ctx position = (false, ctx) := by
      unfold audio_seek; rw [if_pos hs]
    rw [he]; exact h
  · by_cases hf : ctx.format = AudioFormat.FLAC
    · rw [audio_seek_flac_eq nat ctx position hs hf]
      generalize nat.flac_seek_absolute
        (seek_sample_pos nat.conv_undefined ctx (clamp_position position)) = r
      obtain ⟨d1, d2, d3⟩ := flac_deliver_ring r.frame (seek_flac_ready ctx r.rest)
      have hfmt : (flac_deliver r.frame (seek_flac_ready ctx r.rest)).format =
          AudioFormat.FLAC := d1.trans hf
      have hcore := d2 hclear.1
      have hsync := d3 hclear.2
      have hD : RingInv (flac_deliver r.frame (seek_flac_ready ctx r.rest)) := by
        refine RingInv.intro hcore ?_ (fun _ => hsync)
        intro hv; rw [hfmt] at hv; cases hv
      by_cases hok : r.ok = true
      · rw [if_pos hok]
        refine RingInv.intro hcore ?_ (fun _ => hsync)
        intro hv
        have hv' : (flac_deliver r.frame (seek_flac_ready ctx r.rest)).format =
            AudioFormat.VORBIS := hv
        rw [hfmt] at hv'; cases hv'
      · rw [if_neg hok]
        exact hD
    · by_cases hv : ctx.format = AudioFormat.VORBIS
      · rw [audio_seek_vorbis_eq nat ctx position hs hv]
        split
        · exact ⟨hclear.1, fun _ _ => rfl, fun _ => hclear.2⟩
        · exact ⟨hclear.1, fun _ _ => rfl, fun _ => hclear.2⟩
      · have hu : ctx.format = AudioFormat.UNKNOWN := by
          cases hfmt : ctx.format <;> simp_all
        rw [audio_seek_unknown_eq nat ctx position hs hu]
        exact ⟨hclear.1, fun _ _ => rfl, fun _ => hclear.2⟩

theorem reachable_ring (ctx : AudioContext) (h : Reachable ctx) : RingInv ctx := by
  induction h with
  | init =>
    refine ⟨⟨?_, ?_, ?_⟩, fun _ _ => rfl, fun _ => rfl⟩ <;> decide
  | play nat path ctx _ ih => exact audio_play_file_ring nat ctx path ih
  | stop ctx _ ih => exact audio_stop_ring ctx ih.1
  | toggle start_ok ctx _ ih =>
    unfold audio_toggle_pause
    split
    · exact ih
    · split
      · exact ih
      · exact ih
  | seek nat position ctx _ ih => exact audio_seek_ring nat ctx position ih
  | volume v ctx _ ih => exact ih
  | decode ctx _ ih => exact decode_step_ring ctx ih
  | render fuel frame_count out ctx r _ hcall ih =>
    exact audio_callback_loop_ring frame_count fuel ctx out 0 r ih hcall

theorem ctx_playing_demo_reachable : Reachable ctx_playing_demo :=
  Reachable.play _ _ _ Reachable.init

/-- C17 (as amended): in every engine state reachable from init by play,
stop, toggle-pause, seek, set-volume, decode-step and render-callback
operations in which a source is open (format not UNKNOWN), the write cursor
is the read cursor plus the count modulo 16384; hence the count equals
`(write_pos - read_pos) mod 16384` whenever the buffer is not completely
full. -/
theorem reachable_ring_sync (ctx : AudioContext) (h : Reachable ctx)
    (hf : ctx.format ≠ AudioFormat.UNKNOWN) :
    (ctx.buffer_read_pos + ctx.buffer_count) % AUDIO_BUFFER_SIZE = ctx.buffer_write_pos ∧
      (ctx.buffer_count < AUDIO_BUFFER_SIZE →
        (ctx.buffer_count : Int) =
          ((ctx.buffer_write_pos : Int) - (ctx.buffer_read_pos : Int)) % 16384) := by
  obtain ⟨⟨h1, h2, h3⟩, -, hs⟩ := reachable_ring ctx h
  have hsync := hs hf
  unfold RingSync at hsync
  refine ⟨hsync, ?_⟩
  unfold AUDIO_BUFFER_SIZE at *
  intro hlt
  omega

/-- Witness for C17: the engine playing the two-sample mono Vorbis file. -/
theorem reachable_ring_sync_witness :
    Reachable ctx_playing_demo ∧ ctx_playing_demo.format ≠ AudioFormat.UNKNOWN ∧
      (ctx_playing_demo.buffer_read_pos + ctx_playing_demo.buffer_count) %
        AUDIO_BUFFER_SIZE = ctx_playing_demo.buffer_write_pos :=
  ⟨ctx_playing_demo_reachable, by decide,
    (reachable_ring_sync ctx_playing_demo ctx_playing_demo_reachable (by decide)).1⟩

/-- C17 fails as stated: `audio_stop` after playing the two-sample mono
Vorbis file sets the count to 0 and leaves the cursors at 0 and 2, so in this
reachable state the count is not `(write_pos - read_pos) mod 16384 = 2`. -/
theorem audio_stop_ring_counterexample :
    Reachable (audio_stop ctx_playing_demo) ∧
      (audio_stop ctx_playing_demo).buffer_count = 0 ∧
      (audio_stop ctx_playing_demo).buffer_read_pos = 0 ∧
      (audio_stop ctx_playing_demo).buffer_write_pos = 2 ∧
      ((audio_stop ctx_playing_demo).buffer_count : Int) ≠
        (((audio_stop ctx_playing_demo).buffer_write_pos : Int) -
          ((audio_stop ctx_playing_demo).buffer_read_pos : Int)) % 16384 := by
  have h1 : (audio_stop ctx_playing_demo).buffer_count = 0 := rfl
  have h2 : (audio_stop ctx_playing_demo).buffer_read_pos = 0 := rfl
  have h3 : (audio_stop ctx_playing_demo).buffer_write_pos = 2 := rfl
  refine ⟨Reachable.stop _ ctx_playing_demo_reachable, h1, h2, h3, ?_⟩
  rw [h1, h2, h3]
  decide

/-- C18: in every engine state reachable from init by play, stop,
toggle-pause, seek, set-volume, decode-step and render-callback operations,
whatever frames and chunks the native decoders deliver, the read and write
cursors are below 16384 and the count is at most 16384. -/
theorem reachable_ring_bounds (ctx : AudioContext) (h : Reachable ctx) :
    ctx.buffer_read_pos < AUDIO_BUFFER_SIZE ∧ ctx.buffer_write_pos < AUDIO_BUFFER_SIZE ∧
      ctx.buffer_count ≤ AUDIO_BUFFER_SIZE :=
  (reachable_ring ctx h).1

/-- Witness for C18: the engine with the two-sample mono Vorbis file stopped
again. -/
theorem reachable_ring_bounds_witness :
    Reachable (audio_stop ctx_playing_demo) ∧
      (audio_stop ctx_playing_demo).buffer_write_pos < AUDIO_BUFFER_SIZE :=
  ⟨Reachable.stop _ ctx_playing_demo_reachable,
    (reachable_ring_bounds (audio_stop ctx_playing_demo)
      (Reachable.stop _ ctx_playing_demo_reachable)).2.1⟩
/-! ## Playlist: the shuffle cursor -/

theorem IsShuffleOrder.injective {n : Nat} {order : Nat → Int} (h : IsShuffleOrder n order)
    (i j : Nat) (hi : i < n) (hj : j < n) (he : order i = order j) : i = j := by
  have hnd : ((List.range n).map (fun (i : Nat) => (i : Int))).Nodup :=
    List.Nodup.map (fun a b hab => by exact_mod_cast hab) (List.nodup_range n)
  have hnd' : ((List.range n).map order).Nodup := (List.Perm.nodup_iff h).mpr hnd
  exact List.inj_on_of_nodup_map hnd' (List.mem_range.mpr hi) (List.mem_range.mpr hj) he

theorem IsShuffleOrder.surjective {n : Nat} {order : Nat → Int} (h : IsShuffleOrder n order)
    (v : Int) (h0 : 0 ≤ v) (h1 : v < (n : Int)) : ∃ i, i < n ∧ order i = v := by
  have hmem : v ∈ (List.range n).map (fun (i : Nat) => (i : Int)) :=
    List.mem_map.mpr ⟨v.toNat, List.mem_range.mpr (by omega), by
      show ((v.toNat : Nat) : Int) = v
      omega⟩
  have hmem' : v ∈ (List.range n).map order := (List.Perm.mem_iff h).mpr hmem
  obtain ⟨k, hk, hke⟩ := List.mem_map.mp hmem'
  exact ⟨k, List.mem_range.mp hk, hke⟩

/-- The synchronisation loop within the array: it ends, and it either leaves
the playlist as it is because no entry from `i` on equals `current`, or it
puts `shuffle_pos` on the first such entry. -/
theorem sync_shuffle_pos_loop_spec (pl : Playlist)
    (hc : pl.count.toNat ≤ PLAYLIST_MAX_TRACKS) (n : Nat) :
    ∀ i : Nat, i + n = pl.count.toNat →
      (sync_shuffle_pos_loop pl n i = some pl ∧
          ∀ k, i ≤ k → k < pl.count.toNat → pl.shuffle_order k ≠ pl.current) ∨
        ∃ k, i ≤ k ∧ k < pl.count.toNat ∧ pl.shuffle_order k = pl.current ∧
          sync_shuffle_pos_loop pl n i = some { pl with shuffle_pos := (k : Int) } := by
  induction n with
  | zero =>
    intro i hi
    exact Or.inl ⟨rfl, fun k h1 h2 => by omega⟩
  | succ n ih =>
    intro i hi
    have hr : order_read pl.count.toNat pl.shuffle_order i = some (pl.shuffle_order i) := by
      unfold order_read
      rw [if_pos ⟨by omega, by omega⟩]
    by_cases hv : pl.shuffle_order i = pl.current
    · refine Or.inr ⟨i, le_refl i, by omega, hv, ?_⟩
      show (match order_read pl.count.toNat pl.shuffle_order i with
        | none => none
        | some v =>
          if v = pl.current then some { pl with shuffle_pos := (i : Int) }
          else sync_shuffle_pos_loop pl n (i + 1)) = _
      rw [hr]
      simp only []
      rw [if_pos hv]
    · have hstep : sync_shuffle_pos_loop pl (n + 1) i = sync_shuffle_pos_loop pl n (i + 1) := by
        show (match order_read pl.count.toNat pl.shuffle_order i with
          | none => none
          | some v =>
            if v = pl.current then some { pl with shuffle_pos := (i : Int) }
            else sync_shuffle_pos_loop pl n (i + 1)) = _
        rw [hr]
        simp only []
        rw [if_neg hv]
      rw [hstep]
      rcases ih (i + 1) (by omega) with ⟨e, hnone⟩ | ⟨k, hk1, hk2, hk3, e⟩
      · refine Or.inl ⟨e, fun k h1 h2 => ?_⟩
        by_cases hki : k = i
        · rw [hki]; exact hv
        · exact hnone k (by omega) h2
      · exact Or.inr ⟨k, by omega, hk2, hk3, e⟩

/-- The synchronisation loop on a permutation with `current` in range: it
puts the cursor on the entry that holds `current`. -/
theorem sync_shuffle_pos_loop_found (pl : Playlist) (h256 : pl.count ≤ 256)
    (hperm : IsShuffleOrder pl.count.toNat pl.shuffle_order)
    (hc0 : 0 ≤ pl.current) (hc1 : pl.current < pl.count) :
    ∃ k : Nat, (k : Int) < pl.count ∧ pl.shuffle_order k = pl.current ∧
      sync_shuffle_pos_loop pl pl.count.toNat 0 = some { pl with shuffle_pos := (k : Int) } := by
  have hc : pl.count.toNat ≤ PLAYLIST_MAX_TRACKS := by
    unfold PLAYLIST_MAX_TRACKS; omega
  rcases sync_shuffle_pos_loop_spec pl hc pl.count.toNat 0 (by omega) with
    ⟨-, hnone⟩ | ⟨k, -, hk2, hk3, e⟩
  · obtain ⟨i, hi, hie⟩ := hperm.surjective pl.current hc0 (by omega)
    exact absurd hie (hnone i (Nat.zero_le _) hi)
  · exact ⟨k, by omega, hk3, e⟩

/-- The function `generate_shuffle_order` within the array: it returns, the
order is a permutation, the cursor is 0 and nothing else changes. -/
theorem generate_shuffle_order_spec (rand : Nat → Nat) (pl : Playlist)
    (h0 : 0 ≤ pl.count) (h256 : pl.count ≤ 256) :
    ∃ order, IsShuffleOrder pl.count.toNat order ∧
      generate_shuffle_order rand pl =
        some { pl with shuffle_order := order, shuffle_pos := 0 } := by
  have hc : pl.count.toNat ≤ PLAYLIST_MAX_TRACKS := by
    unfold PLAYLIST_MAX_TRACKS; omega
  obtain ⟨o1, e1, p1, -⟩ :=
    init_order_loop_spec pl.count.toNat hc pl.count.toNat 0 pl.shuffle_order (by omega)
  have hid : IsShuffleOrder pl.count.toNat o1 := by
    unfold IsShuffleOrder
    have : (List.range pl.count.toNat).map o1 =
        (List.range pl.count.toNat).map (fun (i : Nat) => (i : Int)) := by
      apply List.map_congr_left
      intro k hk
      exact p1 k (Nat.zero_le _) (by simpa using List.mem_range.mp hk)
    rw [this]
  obtain ⟨o2, e2, p2⟩ := fisher_yates_loop_spec pl.count.toNat hc rand
    (pl.count.toNat - 1) 0 o1 (by omega) hid
  refine ⟨o2, p2, ?_⟩
  unfold generate_shuffle_order
  rw [e1]
  simp only []
  rw [e2]

/-- What `playlist_advance` does with shuffle on when `playlist_next_track`
returns `next >= 0`. -/
theorem playlist_advance_shuffle_eq (pl : Playlist) (hsh : pl.shuffle = true) (next : Int)
    (hn : playlist_next_track pl = (next, pl)) (h0 : 0 ≤ next) :
    playlist_advance pl =
      (next, { pl with
        current := next,
        selected := next,
        shuffle_pos := if pl.shuffle_pos + 1 ≥ pl.count then 0 else pl.shuffle_pos + 1 }) := by
  unfold playlist_advance
  rw [hn]
  simp only []
  rw [if_pos (by omega), if_pos hsh]
  by_cases hw : pl.shuffle_pos + 1 ≥ pl.count
  · rw [if_pos hw, if_pos hw]
  · rw [if_neg hw, if_neg hw]

/-- Under REPEAT_OFF and REPEAT_ALL the cursor follows the track: from a
playlist with shuffle on whose cursor is on the current track, an advance
that returns an index leaves the cursor on the new current track. -/
theorem playlist_advance_keeps_cursor (pl : Playlist) (hsh : pl.shuffle = true)
    (hperm : IsShuffleOrder pl.count.toNat pl.shuffle_order)
    (hc0 : 0 ≤ pl.current) (hc1 : pl.current < pl.count) (hcur : CursorOnCurrent pl)
    (hone : pl.repeat_mode ≠ RepeatMode.REPEAT_ONE) (hret : 0 ≤ (playlist_advance pl).1) :
    CursorOnCurrent (playlist_advance pl).2 ∧
      (playlist_advance pl).2.current = (playlist_advance pl).1 ∧
      (playlist_advance pl).1 < pl.count ∧
      (playlist_advance pl).2.shuffle_order = pl.shuffle_order ∧
      (playlist_advance pl).2.count = pl.count ∧
      (playlist_advance pl).2.shuffle = true := by
  obtain ⟨hs0, hs1, -⟩ := hcur
  have hguard : ¬ (pl.count = 0 ∨ pl.current < 0) := by omega
  have hord : ∀ p : Int, 0 ≤ p → p < pl.count →
      0 ≤ pl.shuffle_order p.toNat ∧ pl.shuffle_order p.toNat < pl.count := by
    intro p hp0 hp1
    have := hperm.range p.toNat (by omega)
    omega
  have hfrom : ∀ p : Int, 0 ≤ p → p < pl.count →
      next_from_order pl p = (pl.shuffle_order p.toNat, pl) := by
    intro p hp0 hp1
    have := hord p hp0 hp1
    unfold next_from_order
    rw [if_neg (by omega)]
    simp only []
    rw [if_neg (by omega)]
  have hnext : playlist_next_track pl =
      if pl.shuffle_pos + 1 ≥ pl.count then
        (if pl.repeat_mode = RepeatMode.REPEAT_ALL then next_from_order pl 0 else (-1, pl))
      else next_from_order pl (pl.shuffle_pos + 1) := by
    unfold playlist_next_track
    rw [if_neg hguard, if_neg hone, if_pos hsh]
  by_cases hend : pl.shuffle_pos + 1 ≥ pl.count
  · rw [if_pos hend] at hnext
    by_cases hall : pl.repeat_mode = RepeatMode.REPEAT_ALL
    · rw [if_pos hall, hfrom 0 (by omega) (by omega)] at hnext
      have h := hord 0 (by omega) (by omega)
      rw [playlist_advance_shuffle_eq pl hsh _ hnext h.1, if_pos hend]
      exact ⟨⟨le_refl _, by show (0 : Int) < pl.count; omega, rfl⟩, rfl, h.2, rfl, rfl, hsh⟩
    · rw [if_neg hall] at hnext
      exfalso
      have hadv : playlist_advance pl = (-1, pl) := by
        unfold playlist_advance
        rw [hnext]
        simp only []
        rw [if_neg (by omega)]
      rw [hadv] at hret
      have hneg : (0 : Int) ≤ -1 := hret
      omega
  · rw [if_neg hend, hfrom _ (by omega) (by omega)] at hnext
    have h := hord (pl.shuffle_pos + 1) (by omega) (by omega)
    rw [playlist_advance_shuffle_eq pl hsh _ hnext h.1, if_neg hend]
    exact ⟨⟨by show 0 ≤ pl.shuffle_pos + 1; omega,
      by show pl.shuffle_pos + 1 < pl.count; omega, rfl⟩, rfl, h.2, rfl, rfl, hsh⟩

/-- The function `playlist_play_selected` with shuffle on, a permutation in
the array and the selection in range: it returns, makes the selection
current and puts the cursor on it. -/
theorem playlist_play_selected_syncs (pl : Playlist) (hsh : pl.shuffle = true)
    (h256 : pl.count ≤ 256) (hperm : IsShuffleOrder pl.count.toNat pl.shuffle_order)
    (hs0 : 0 ≤ pl.selected) (hs1 : pl.selected < pl.count) :
    ∃ k : Nat, playlist_play_selected pl =
        some { pl with current := pl.selected, shuffle_pos := (k : Int) } ∧
      CursorOnCurrent { pl with current := pl.selected, shuffle_pos := (k : Int) } := by
  obtain ⟨k, hk1, hk2, e⟩ :=
    sync_shuffle_pos_loop_found { pl with current := pl.selected } h256 hperm hs0 hs1
  refine ⟨k, ?_, ?_⟩
  · unfold playlist_play_selected
    rw [if_neg (by omega)]
    simp only []
    rw [if_pos hsh]
    exact e
  · refine ⟨?_, hk1, ?_⟩
    · show (0 : Int) ≤ (k : Int)
      omega
    · show pl.shuffle_order ((k : Int)).toNat = pl.selected
      rw [Int.toNat_ofNat]
      exact hk2

/-- The function `playlist_toggle_shuffle` switching shuffle on while a track
in range is current: it returns with a permutation in the array and the
cursor on the current track, which it does not change. -/
theorem playlist_toggle_shuffle_syncs (rand : Nat → Nat) (pl : Playlist)
    (hsh : pl.shuffle = false) (h256 : pl.count ≤ 256)
    (hc0 : 0 ≤ pl.current) (hc1 : pl.current < pl.count) :
    ∃ pl', playlist_toggle_shuffle rand pl = some pl' ∧ pl'.shuffle = true ∧
      pl'.current = pl.current ∧ pl'.count = pl.count ∧
      IsShuffleOrder pl'.count.toNat pl'.shuffle_order ∧ CursorOnCurrent pl' := by
  obtain ⟨order, hperm, eg⟩ :=
    generate_shuffle_order_spec rand { pl with shuffle := !pl.shuffle } (by show 0 ≤ pl.count; omega)
      h256
  obtain ⟨k, hk1, hk2, e⟩ :=
    sync_shuffle_pos_loop_found
      { pl with shuffle := !pl.shuffle, shuffle_order := order, shuffle_pos := 0 }
      h256 hperm hc0 hc1
  refine ⟨{ pl with shuffle := !pl.shuffle, shuffle_order := order, shuffle_pos := (k : Int) },
    ?_, ?_, rfl, rfl, hperm, ?_⟩
  · unfold playlist_toggle_shuffle
    simp only []
    rw [if_pos (by rw [hsh]; rfl), eg]
    simp only []
    rw [if_pos (by show pl.current ≥ 0; omega)]
    exact e
  · show (!pl.shuffle) = true
    rw [hsh]
    rfl
  · refine ⟨?_, hk1, ?_⟩
    · show (0 : Int) ≤ (k : Int)
      omega
    · show order ((k : Int)).toNat = pl.current
      rw [Int.toNat_ofNat]
      exact hk2

/-- C21: the shuffle cursor does not stay on the playing track under
REPEAT_ONE.  For every playlist of at least two tracks with shuffle on,
`shuffle_order` a permutation of `0..count-1`, `current >= 0` and the cursor
on the current track (so that `current < count`), `playlist_advance` under
REPEAT_ONE returns `current` (an index `>= 0`) and keeps it current, but
still moves `shuffle_pos` one entry on (to 0 from the last entry), so that
afterwards `shuffle_order[shuffle_pos] != current`. -/
theorem playlist_advance_repeat_one_moves_cursor (pl : Playlist) (hsh : pl.shuffle = true)
    (hperm : IsShuffleOrder pl.count.toNat pl.shuffle_order)
    (hc0 : 0 ≤ pl.current) (hcur : CursorOnCurrent pl)
    (hone : pl.repeat_mode = RepeatMode.REPEAT_ONE) (h2 : 2 ≤ pl.count) :
    (playlist_advance pl).1 = pl.current ∧ 0 ≤ (playlist_advance pl).1 ∧
      (playlist_advance pl).2.current = pl.current ∧
      (playlist_advance pl).2.shuffle_order = pl.shuffle_order ∧
      (playlist_advance pl).2.shuffle_pos =
        (if pl.shuffle_pos + 1 ≥ pl.count then 0 else pl.shuffle_pos + 1) ∧
      0 ≤ (playlist_advance pl).2.shuffle_pos ∧
      (playlist_advance pl).2.shuffle_pos < pl.count ∧
      (playlist_advance pl).2.shuffle_order (playlist_advance pl).2.shuffle_pos.toNat ≠
        (playlist_advance pl).2.current ∧
      ¬ CursorOnCurrent (playlist_advance pl).2 := by
  obtain ⟨hs0, hs1, hs2⟩ := hcur
  have hnext : playlist_next_track pl = (pl.current, pl) := by
    unfold playlist_next_track
    rw [if_neg (by omega), if_pos hone]
  have hne : ∀ p : Int, 0 ≤ p → p < pl.count → p ≠ pl.shuffle_pos →
      pl.shuffle_order p.toNat ≠ pl.current := by
    intro p hp0 hp1 hp he
    have := hperm.injective p.toNat pl.shuffle_pos.toNat (by omega) (by omega)
      (by rw [he, hs2])
    omega
  rw [playlist_advance_shuffle_eq pl hsh _ hnext hc0]
  by_cases hw : pl.shuffle_pos + 1 ≥ pl.count
  · rw [if_pos hw]
    have hn := hne 0 (by omega) (by omega) (by omega)
    refine ⟨rfl, hc0, rfl, rfl, rfl, le_refl _, by show (0 : Int) < pl.count; omega, hn, ?_⟩
    intro h
    exact hn h.2.2
  · rw [if_neg hw]
    have hn := hne (pl.shuffle_pos + 1) (by omega) (by omega) (by omega)
    refine ⟨rfl, hc0, rfl, rfl, rfl, by show 0 ≤ pl.shuffle_pos + 1; omega,
      by show pl.shuffle_pos + 1 < pl.count; omega, hn, ?_⟩
    intro h
    exact hn h.2.2

/-- Witness for C21: three tracks in the shuffled order 2, 0, 1, track 1
playing with the cursor on it (entry 2), repeat-one.  The advance returns
track 1 and moves the cursor to entry 0, which holds track 2. -/
theorem playlist_advance_repeat_one_moves_cursor_witness :
    playlist_repeat_one_demo.shuffle = true ∧
      IsShuffleOrder playlist_repeat_one_demo.count.toNat
        playlist_repeat_one_demo.shuffle_order ∧
      CursorOnCurrent playlist_repeat_one_demo ∧
      playlist_repeat_one_demo.repeat_mode = RepeatMode.REPEAT_ONE ∧
      (playlist_advance playlist_repeat_one_demo).1 = 1 ∧
      (playlist_advance playlist_repeat_one_demo).2.current = 1 ∧
      (playlist_advance playlist_repeat_one_demo).2.shuffle_pos = 0 ∧
      (playlist_advance playlist_repeat_one_demo).2.shuffle_order 0 = 2 ∧
      ¬ CursorOnCurrent (playlist_advance playlist_repeat_one_demo).2 :=
  ⟨rfl, by unfold IsShuffleOrder; decide, by decide, rfl, rfl, rfl, rfl, rfl,
    (playlist_advance_repeat_one_moves_cursor playlist_repeat_one_demo rfl
      (by unfold IsShuffleOrder; decide) (by decide) (by decide) rfl
      (by decide)).2.2.2.2.2.2.2.2⟩

/-- After the advance under REPEAT_ONE of the witness the repeat key is
pressed once (repeat-all) and the track ends again: the advance returns track
0, the entry after the moved cursor, and not track 2, the entry that follows
the track that was playing; track 2 is left out of this pass. -/
theorem playlist_advance_repeat_one_skips_track :
    (playlist_cycle_repeat (playlist_advance playlist_repeat_one_demo).2).repeat_mode =
        RepeatMode.REPEAT_ALL ∧
      (playlist_advance
        (playlist_cycle_repeat (playlist_advance playlist_repeat_one_demo).2)).1 = 0 ∧
      (playlist_advance (playlist_cycle_repeat playlist_repeat_one_demo)).1 = 2 := by
  refine ⟨rfl, rfl, rfl⟩

end Oscyl
